import Mathlib

/-!
# WorldSocket: framing, outbound buffering and dispatch

A shallow embedding of `src/server/game/Server/WorldSocket.cpp`, and of the id bookkeeping
of `src/server/game/Calendar/CalendarMgr.cpp`.

Conventions of the embedding:

* bytes are natural numbers below 256, byte strings are `List Nat`;
* fixed-width integers are `Nat` with an explicit `% 2 ^ w` where the C++ type truncates;
* member functions take the socket state and return the new state together with
  the C++ return value;
* heap allocation is taken to succeed (`ACE_NEW_RETURN` never takes its return branch).
-/

/-! ## Server to client header (`struct ServerPktHeader`, lines 46-79) -/

/-- The two data members of `struct ServerPktHeader`: `const uint32 size` and
`uint8 header[5]`.  Only the entries the constructor writes are kept in `header`
(4 of them for a small packet, 5 for a large one). -/
structure ServerPktHeader where
  size : Nat
  header : List Nat
deriving DecidableEq, Repr

namespace ServerPktHeader

/-- The test `size > 0x7FFF` of `ServerPktHeader::isLargePacket`, on the stored size. -/
def isLargePacketSize (size : Nat) : Bool := decide (size > 0x7FFF)

/-- The constructor `ServerPktHeader(uint32 size, uint16 cmd)`.  The arguments are
converted to `uint32` and `uint16` at the call; the bytes are written in the order of
the increasing `headerIndex`. -/
def new (size32 cmd16 : Nat) : ServerPktHeader :=
  let size := size32 % 2 ^ 32
  let cmd := cmd16 % 2 ^ 16
  let large : List Nat :=
    if isLargePacketSize size then [0x80 ||| (0xFF &&& (size >>> 16))] else []
  { size := size
    header := large ++ [0xFF &&& (size >>> 8), 0xFF &&& size, 0xFF &&& cmd, 0xFF &&& (cmd >>> 8)] }

/-- The method `ServerPktHeader::isLargePacket`. -/
def isLargePacket (h : ServerPktHeader) : Bool := isLargePacketSize h.size

/-- The method `ServerPktHeader::getHeaderLength`: `2 + (isLargePacket() ? 3 : 2)`. -/
def getHeaderLength (h : ServerPktHeader) : Nat := 2 + (if h.isLargePacket then 3 else 2)

end ServerPktHeader

/-- The header built at line 161 of `SendPacket` for a packet of `pctSize` payload bytes:
`ServerPktHeader header(pct.size() + 2, pct.GetOpcode())`. -/
def sendPacketHeader (pctSize opcode : Nat) : ServerPktHeader :=
  ServerPktHeader.new (pctSize + 2) opcode

/-- The client's reading of a server header, written from the description of the format
(it is not code of the server): when the first byte has bit `0x80` the size is the
23 bits that follow the flag, big-endian over three bytes, otherwise it is the 16-bit
big-endian value of the first two bytes; the opcode is the little-endian value of the two
bytes after the size; the payload length is the size minus the two opcode bytes. -/
def clientReadServerHeader : List Nat → Option (Nat × Nat)
  | [b0, b1, b2, b3] =>
      if b0 &&& 0x80 = 0 then some (256 * b0 + b1 - 2, b2 + 256 * b3) else none
  | [b0, b1, b2, b3, b4] =>
      if b0 &&& 0x80 ≠ 0 then
        some (65536 * (b0 &&& 0x7F) + 256 * b1 + b2 - 2, b3 + 256 * b4)
      else none
  | _ => none

/-- The 23 size bits of a large (5-byte) server header: the first byte without its flag
bit, then the next two bytes, big-endian. -/
def readLargeSize (hdr : List Nat) : Nat :=
  65536 * (hdr.getD 0 0 &&& 0x7F) + 256 * hdr.getD 1 0 + hdr.getD 2 0

/-! ## ACE building blocks used by the socket

`ACE_Message_Block` and `ACE_Message_Queue` are classes of the ACE library, which is not
among the sources; only the members the socket calls are embedded, with the behaviour
the code of the socket relies on and tests for. -/

/-- Modelled from the spec: the byte block with a read cursor (`ACE_Message_Block`, a
library class that is not among the sources).  `data` are the bytes between the base and
the write pointer, `rd` is the read pointer (an offset from the base) and `size` the
capacity of the data block.  Bytes at and beyond the write pointer are never read by the
socket and are not represented. -/
structure MsgBlock where
  data : List Nat
  rd : Nat
  size : Nat
deriving DecidableEq, Repr

namespace MsgBlock

/-- The constructor `ACE_Message_Block(size)`: an empty block of the given capacity. -/
def alloc (size : Nat) : MsgBlock := { data := [], rd := 0, size := size }

/-- The member `length()`: write pointer minus read pointer. -/
def length (b : MsgBlock) : Nat := b.data.length - b.rd

/-- The member `space()`: end of the data block minus write pointer. -/
def space (b : MsgBlock) : Nat := b.size - b.data.length

/-- The bytes between the read pointer and the write pointer, what `rd_ptr()` points at. -/
def unsent (b : MsgBlock) : List Nat := b.data.drop b.rd

/-- The member `copy(buf, n)`: appends at the write pointer, or fails (`-1`, here `none`)
when `n` exceeds `space()`. -/
def copy (b : MsgBlock) (src : List Nat) : Option MsgBlock :=
  if b.space < src.length then none else some { b with data := b.data ++ src }

/-- The member `rd_ptr(n)`: advances the read pointer by `n`. -/
def rd_ptr (b : MsgBlock) (n : Nat) : MsgBlock := { b with rd := b.rd + n }

/-- The member `crunch()`: moves the unread bytes to the base of the block. -/
def crunch (b : MsgBlock) : MsgBlock :=
  if b.rd ≠ 0 then
    if b.rd > b.data.length then b else { b with data := b.data.drop b.rd, rd := 0 }
  else b

/-- The member `reset()`: read and write pointers back to the base. -/
def reset (b : MsgBlock) : MsgBlock := { b with data := [], rd := 0 }

/-- The member `base(data, size)`: a new data area of `size` bytes, both pointers at its
start. -/
def base (_b : MsgBlock) (size : Nat) : MsgBlock := { data := [], rd := 0, size := size }

end MsgBlock

/-- Modelled from the spec: the overflow queue (`ACE_Message_Queue`, a library class that is
not among the sources; the handler reaches it as `msg_queue()`): the blocks in queue
order, and the high water mark, which the constructor of the socket sets at line 102.  The
queue counts the sizes of its blocks and is full once the count reaches the mark. -/
structure MsgQueue where
  blocks : List MsgBlock
  high_water_mark : Nat
deriving DecidableEq, Repr

namespace MsgQueue

/-- The byte count the queue keeps: the sum of the sizes of the queued blocks. -/
def cur_bytes (q : MsgQueue) : Nat := (q.blocks.map MsgBlock.size).sum

/-- The member `is_empty()`. -/
def is_empty (q : MsgQueue) : Bool := q.blocks.isEmpty

/-- The member `is_full()`: the byte count has reached the high water mark. -/
def is_full (q : MsgQueue) : Bool := decide (q.cur_bytes ≥ q.high_water_mark)

/-- The member `enqueue_tail(mb, &ACE_Time_Value::zero)`: with a zero timeout a full queue
refuses the block at once (`-1`, here `none`), the case line 188 tests for. -/
def enqueue_tail (q : MsgQueue) (mb : MsgBlock) : Option MsgQueue :=
  if q.is_full then none else some { q with blocks := q.blocks ++ [mb] }

/-- The member `enqueue_head(mb, &ACE_Time_Value::zero)`: as `enqueue_tail`, at the
head; the refusal is the case line 400 tests for. -/
def enqueue_head (q : MsgQueue) (mb : MsgBlock) : Option MsgQueue :=
  if q.is_full then none else some { q with blocks := mb :: q.blocks }

/-- The member `dequeue_head(mb, &ACE_Time_Value::zero)`: fails on an empty queue. -/
def dequeue_head (q : MsgQueue) : Option (MsgBlock × MsgQueue) :=
  match q.blocks with
  | [] => none
  | mb :: rest => some (mb, { q with blocks := rest })

end MsgQueue

/-! ## Packets, sessions, cipher, environment -/

/-- A `WorldPacket`: opcode (`uint16`) and contents. -/
structure WorldPacket where
  opcode : Nat
  data : List Nat
deriving DecidableEq, Repr

/-- Values of `errno` the socket sets or tests. -/
inductive Errno where
  | EWOULDBLOCK
  | EAGAIN
  | EINVAL
  | ECONNRESET
  | other (code : Nat)
deriving DecidableEq, Repr

/-- Ways a call stops the process instead of returning: a failed `ASSERT`, an `ABORT()`,
or the bound on loop iterations of the embedding being reached. -/
inductive Fault where
  | assertFailed
  | abortCalled
  | outOfFuel
deriving DecidableEq, Repr

/-- Calls made on the `WorldSession` that the socket does not look into. -/
inductive SessionCall where
  | ResetTimeOutTime (onlyActive : Bool)
  | ResetClientTimeDelay
  | LoadGlobalAccountData
  | LoadTutorialsData
  | ReadAddonsInfo (pkt : WorldPacket)
  | InitWarden (os : String)
deriving DecidableEq, Repr

/-- The `WorldSession` object behind `m_Session`: the constructor arguments passed at
line 978, the latency, the queue filled by `QueuePacket`, and the other calls received. -/
structure WorldSession where
  id : Nat
  security : Nat
  expansion : Nat
  mutetime : Int
  locale : Nat
  recruiter : Nat
  isARecruiter : Bool
  skipQueue : Bool
  totalTime : Nat
  latency : Nat
  recvQueue : List WorldPacket
  calls : List SessionCall
deriving DecidableEq, Repr

namespace WorldSession

/-- The call `m_Session->QueuePacket(new_pct)`. -/
def QueuePacket (ws : WorldSession) (pkt : WorldPacket) : WorldSession :=
  { ws with recvQueue := ws.recvQueue ++ [pkt] }

/-- The call `m_Session->SetLatency(latency)`. -/
def SetLatency (ws : WorldSession) (latency : Nat) : WorldSession :=
  { ws with latency := latency }

/-- Any other call on the session, recorded in order. -/
def call (ws : WorldSession) (c : SessionCall) : WorldSession :=
  { ws with calls := ws.calls ++ [c] }

end WorldSession

/-- The stream cipher behind `AuthCrypt` (its source is not part of the sources at hand, so
it is a parameter): `init` is `AuthCrypt::Init(K)` giving the client-decrypt and the
server-encrypt stream states, `step` passes one byte through a stream. -/
structure CipherAlg (σ : Type) where
  init : List Nat → σ × σ
  step : σ → Nat → σ × Nat

/-- The two stream states of an initialised `AuthCrypt`. -/
structure AuthCrypt (σ : Type) where
  clientDecrypt : σ
  serverEncrypt : σ

/-- The in-place update of a buffer by a stream: each byte in turn goes through `step`. -/
def CipherAlg.update {σ : Type} (alg : CipherAlg σ) : σ → List Nat → σ × List Nat
  | st, [] => (st, [])
  | st, b :: bs =>
      let r := alg.step st b
      let rest := alg.update r.1 bs
      (rest.1, r.2 :: rest.2)

/-- The member `AuthCrypt::EncryptSend(data, len)`. -/
def AuthCrypt.EncryptSend {σ : Type} (alg : CipherAlg σ) (c : AuthCrypt σ) (data : List Nat) :
    AuthCrypt σ × List Nat :=
  let r := alg.update c.serverEncrypt data
  ({ c with serverEncrypt := r.1 }, r.2)

/-- The member `AuthCrypt::DecryptRecv(data, len)`. -/
def AuthCrypt.DecryptRecv {σ : Type} (alg : CipherAlg σ) (c : AuthCrypt σ) (data : List Nat) :
    AuthCrypt σ × List Nat :=
  let r := alg.update c.clientDecrypt data
  ({ c with clientDecrypt := r.1 }, r.2)

/-- The peer socket `peer()`: the bytes it has accepted so far, in order, whether
`close_writer()` was called, and how many times. -/
structure Peer where
  sent : List Nat
  writerClosed : Bool
  closeWriterCalls : Nat := 0
deriving DecidableEq, Repr

/-- What the operating system answers to one `peer().send(ptr, len)`: it has room for
`room` bytes (none at all is the would-block answer), or it returns `0`, or it fails with
another `errno`. -/
inductive SendAnswer where
  | room (r : Nat)
  | zero
  | error (e : Errno)
deriving DecidableEq, Repr

/-- What the operating system answers to one `peer().recv(buf, 4096)`: the bytes read, or
`0` (peer closed), or `-1` with an `errno`. -/
inductive RecvAnswer where
  | bytes (bs : List Nat)
  | closed
  | error (e : Errno)
deriving DecidableEq, Repr

/-- Calls to collaborators outside the socket (login database writes, script hooks, the
world's session list), recorded in the order they are made. -/
inductive ExternalCall where
  | UpdLastAttemptIp (address : String) (account : List Nat)
  | UpdMuteTimeLogin (mutetime : Int) (id : Nat)
  | OnFailedAccountLogin (id : Nat)
  | UpdLastIp (address : String) (account : List Nat)
  | OnLastIpUpdate (id : Nat) (address : String)
  | OnAccountLogin (id : Nat)
  | AddSession (id : Nat)
deriving DecidableEq, Repr

/-- One row of the query `LOGIN_SEL_ACCOUNT_INFO_BY_NAME` (columns 0 to 10, without the
unused `lock_country`). -/
structure AccountRow where
  id : Nat
  sessionkey : List Nat
  last_ip : String
  locked : Nat
  expansion : Nat
  mutetime : Int
  locale : Nat
  recruiter : Nat
  os : String
  totaltime : Nat
deriving DecidableEq, Repr

/-- What the socket reads from outside itself: the world (`sWorld`), the login database,
the clocks and the SHA1 function.  `IsClosed` is read twice by `HandleAuthSession`, at
line 748 and at line 983, and the world may change in between. -/
structure World where
  IsClosed : Bool
  IsClosedAtLine983 : Bool
  CONFIG_WARDEN_ENABLED : Bool
  CONFIG_EXPANSION : Nat
  CONFIG_MAX_OVERSPEED_PINGS : Nat
  PlayerSecurityLimit : Nat
  realmID : Nat
  accountInfoByName : List Nat → Option AccountRow
  gmLevelByRealm : Nat → Option Nat
  bans : Nat → String → Bool
  accountRecruiter : Nat → Bool
  sha1 : List Nat → List Nat
  clockNow : Int
  clockTicksPerSecond : Nat
  time : Int

/-- The data members of `WorldSocket` (with the message queue and the peer of its base
class, and `errno`), for a socket whose outbound buffer has been allocated by `open`.
`m_LastPingTime = none` stands for `SystemTimePoint::min()`, `m_Crypt = none` for a cipher
that is not initialised, `m_Session = none` and `m_RecvWPct = none` for null pointers. -/
structure WorldSocket (σ : Type) where
  closing_ : Bool
  m_LastPingTime : Option Int
  m_OverSpeedPings : Nat
  m_Session : Option WorldSession
  m_RecvWPct : Option WorldPacket
  m_RecvPct : MsgBlock
  m_Header : MsgBlock
  m_OutBuffer : MsgBlock
  m_OutBufferSize : Nat
  m_OutActive : Bool
  m_Seed : List Nat
  m_Crypt : Option (AuthCrypt σ)
  m_Address : String
  msg_queue : MsgQueue
  peer : Peer
  errno : Errno
  externalCalls : List ExternalCall

/-! ## Constants declared in headers that are not among the sources -/

/-- Modelled from the spec: the opcode of the keepalive ping (`CMSG_PING` of `Opcodes.h`,
a header that is not among the sources; the value is the one of the 3.3.5a protocol). -/
def CMSG_PING : Nat := 0x1DC

/-- Modelled from the spec: the opcode of the pong (`SMSG_PONG` of `Opcodes.h`). -/
def SMSG_PONG : Nat := 0x1DD

/-- Modelled from the spec: the opcode of the challenge (`SMSG_AUTH_CHALLENGE` of
`Opcodes.h`). -/
def SMSG_AUTH_CHALLENGE : Nat := 0x1EC

/-- Modelled from the spec: the opcode of the authentication request (`CMSG_AUTH_SESSION`
of `Opcodes.h`). -/
def CMSG_AUTH_SESSION : Nat := 0x1ED

/-- Modelled from the spec: the opcode of the authentication response
(`SMSG_AUTH_RESPONSE` of `Opcodes.h`). -/
def SMSG_AUTH_RESPONSE : Nat := 0x1EE

/-- Modelled from the spec: the opcode `CMSG_KEEP_ALIVE` of `Opcodes.h`. -/
def CMSG_KEEP_ALIVE : Nat := 0x407

/-- Modelled from the spec: the opcode of a default-constructed `WorldPacket`
(`NULL_OPCODE`, declared outside the sources). -/
def NULL_OPCODE : Nat := 0

/-- Modelled from the spec: status "rejected" of the auth response (`AUTH_REJECT` of
`SharedDefines.h`, a header that is not among the sources). -/
def AUTH_REJECT : Nat := 0x0E

/-- Modelled from the spec: the auth response status `AUTH_FAILED` of `SharedDefines.h`. -/
def AUTH_FAILED : Nat := 0x0D

/-- Modelled from the spec: status "unavailable" (`AUTH_UNAVAILABLE` of
`SharedDefines.h`). -/
def AUTH_UNAVAILABLE : Nat := 0x10

/-- Modelled from the spec: status "unknown account" (`AUTH_UNKNOWN_ACCOUNT` of
`SharedDefines.h`). -/
def AUTH_UNKNOWN_ACCOUNT : Nat := 0x15

/-- Modelled from the spec: status "banned" (`AUTH_BANNED` of `SharedDefines.h`). -/
def AUTH_BANNED : Nat := 0x1C

/-- Modelled from the spec: status "realm mismatch" (`REALM_LIST_REALM_NOT_FOUND` of
`SharedDefines.h`). -/
def REALM_LIST_REALM_NOT_FOUND : Nat := 0x27

/-- Modelled from the spec: the number of locales (`TOTAL_LOCALES` of `Common.h`). -/
def TOTAL_LOCALES : Nat := 9

/-- Modelled from the spec: the default locale (`LOCALE_enUS` of `Common.h`). -/
def LOCALE_enUS : Nat := 0

/-- Modelled from the spec: the security level of a non-privileged account (`SEC_PLAYER`
of `Common.h`), the one `AccountMgr::IsPlayerAccount` tests for. -/
def SEC_PLAYER : Nat := 0

/-- The value of `ACE_Event_Handler::WRITE_MASK`. -/
def WRITE_MASK : Int := 2

/-! ## Construction -/

namespace WorldSocket

variable {σ : Type}

/-- The state left by the constructor (lines 93-104) and the buffer allocation of `open`
(lines 219 and 226-237), before the challenge is sent: everything empty, a direct buffer
of `m_OutBufferSize = 65536` bytes, a 6-byte header block, queue water marks at 8 MiB. -/
def opened (seed : List Nat) (address : String) : WorldSocket σ :=
  { closing_ := false
    m_LastPingTime := none
    m_OverSpeedPings := 0
    m_Session := none
    m_RecvWPct := none
    m_RecvPct := MsgBlock.alloc 0
    m_Header := MsgBlock.alloc 6
    m_OutBuffer := MsgBlock.alloc 65536
    m_OutBufferSize := 65536
    m_OutActive := true
    m_Seed := seed
    m_Crypt := none
    m_Address := address
    msg_queue := { blocks := [], high_water_mark := 8 * 1024 * 1024 }
    peer := { sent := [], writerClosed := false }
    errno := Errno.other 0
    externalCalls := [] }

/-! ## Outbound path -/

/-- The header bytes `SendPacket` puts on the wire for `pct` (lines 161-164): the first
`getHeaderLength()` bytes of the header, passed through `EncryptSend` when the cipher is
initialised; with them the cipher state after the call. -/
def sendHeaderBytes (alg : CipherAlg σ) (crypt : Option (AuthCrypt σ)) (pct : WorldPacket) :
    Option (AuthCrypt σ) × List Nat :=
  let header := sendPacketHeader pct.data.length pct.opcode
  let raw := header.header.take header.getHeaderLength
  match crypt with
  | some c =>
      let r := c.EncryptSend alg raw
      (some r.1, r.2)
  | none => (none, raw)

/-- The member `WorldSocket::SendPacket` (lines 150-197). -/
def SendPacket (alg : CipherAlg σ) (s : WorldSocket σ) (pct : WorldPacket) :
    Except Fault (WorldSocket σ × Int) :=
  if s.closing_ then .ok (s, -1)
  else
    let header := sendPacketHeader pct.data.length pct.opcode
    let enc := sendHeaderBytes alg s.m_Crypt pct
    let s1 := { s with m_Crypt := enc.1 }
    if s1.m_OutBuffer.space ≥ pct.data.length + header.getHeaderLength
        ∧ s1.msg_queue.is_empty = true then
      match s1.m_OutBuffer.copy enc.2 with
      | none => .error Fault.abortCalled
      | some b1 =>
          if pct.data ≠ [] then
            match b1.copy pct.data with
            | none => .error Fault.abortCalled
            | some b2 => .ok ({ s1 with m_OutBuffer := b2 }, 0)
          else .ok ({ s1 with m_OutBuffer := b1 }, 0)
    else
      let mb0 := MsgBlock.alloc (pct.data.length + header.getHeaderLength)
      let mb1 := (mb0.copy enc.2).getD mb0
      let mb2 := if pct.data ≠ [] then (mb1.copy pct.data).getD mb1 else mb1
      match s1.msg_queue.enqueue_tail mb2 with
      | none => .ok (s1, -1)
      | some q => .ok ({ s1 with msg_queue := q }, 0)

/-- One call `peer().send(buf, len)` answered by the operating system: the new peer, the
return value `n` and the `errno` it leaves. -/
def peerSend (s : WorldSocket σ) (buf : List Nat) (ans : SendAnswer) : WorldSocket σ × Int :=
  match ans with
  | SendAnswer.room r =>
      if r = 0 then ({ s with errno := Errno.EWOULDBLOCK }, -1)
      else
        let n := min r buf.length
        ({ s with peer := { s.peer with sent := s.peer.sent ++ buf.take n } }, (n : Int))
  | SendAnswer.zero => (s, 0)
  | SendAnswer.error e => ({ s with errno := e }, -1)

/-- The member `cancel_wakeup_output` (lines 616-632); the reactor call succeeds. -/
def cancel_wakeup_output (s : WorldSocket σ) : WorldSocket σ × Int :=
  if !s.m_OutActive then (s, 0) else ({ s with m_OutActive := false }, 0)

/-- The member `schedule_wakeup_output` (lines 634-649); the reactor call succeeds. -/
def schedule_wakeup_output (s : WorldSocket σ) : WorldSocket σ × Int :=
  if s.m_OutActive then (s, 0) else ({ s with m_OutActive := true }, 0)

/-- The test `errno == EWOULDBLOCK || errno == EAGAIN`. -/
def wouldBlock (e : Errno) : Bool := e = Errno.EWOULDBLOCK || e = Errno.EAGAIN

/-- The member `WorldSocket::handle_output_queue` (lines 358-417); `ans` is the answer to
its one `send`. -/
def handle_output_queue (s : WorldSocket σ) (ans : SendAnswer) : WorldSocket σ × Int :=
  if s.msg_queue.is_empty then cancel_wakeup_output s
  else
    match s.msg_queue.dequeue_head with
    | none => (s, -1)
    | some (mblk, q) =>
        let s1 := { s with msg_queue := q }
        let send_len := mblk.length
        let r := peerSend s1 (mblk.unsent.take send_len) ans
        let s2 := r.1
        let n := r.2
        if n = 0 then (s2, -1)
        else if n = -1 then
          if wouldBlock s2.errno then
            schedule_wakeup_output
              { s2 with msg_queue := (s2.msg_queue.enqueue_head mblk).getD s2.msg_queue }
          else (s2, -1)
        else if n < (send_len : Int) then
          match s2.msg_queue.enqueue_head (mblk.rd_ptr n.toNat) with
          | none => (s2, -1)
          | some q2 => schedule_wakeup_output { s2 with msg_queue := q2 }
        else
          if s2.msg_queue.is_empty then cancel_wakeup_output s2 else (s2, WRITE_MASK)

/-- The member `WorldSocket::handle_output` (lines 312-356); `ans` answers its own `send`
and `ansQueue` the `send` of `handle_output_queue` when that is reached. -/
def handle_output (s : WorldSocket σ) (ans ansQueue : SendAnswer) : WorldSocket σ × Int :=
  if s.closing_ then (s, -1)
  else
    let send_len := s.m_OutBuffer.length
    if send_len = 0 then handle_output_queue s ansQueue
    else
      let r := peerSend s (s.m_OutBuffer.unsent.take send_len) ans
      let s1 := r.1
      let n := r.2
      if n = 0 then (s1, -1)
      else if n = -1 then
        if wouldBlock s1.errno then schedule_wakeup_output s1 else (s1, -1)
      else if n < (send_len : Int) then
        schedule_wakeup_output { s1 with m_OutBuffer := (s1.m_OutBuffer.rd_ptr n.toNat).crunch }
      else
        handle_output_queue { s1 with m_OutBuffer := s1.m_OutBuffer.reset } ansQueue

end WorldSocket

/-! ## Reading packet contents (`ByteBuffer`) -/

/-- Modelled from the spec: the read `>> uint32` of `ByteBuffer` (a class that is not among
the sources): four bytes, little-endian; `none` is the `ByteBufferPositionException` of a
read past the end. -/
def readU32 : List Nat → Option (Nat × List Nat)
  | b0 :: b1 :: b2 :: b3 :: rest => some (b0 + 256 * b1 + 65536 * b2 + 16777216 * b3, rest)
  | _ => none

/-- The read `>> uint64`: eight bytes, little-endian. -/
def readU64 (data : List Nat) : Option (Nat × List Nat) :=
  match readU32 data with
  | none => none
  | some (lo, rest) =>
      match readU32 rest with
      | none => none
      | some (hi, rest2) => some (lo + 4294967296 * hi, rest2)

/-- The read of a fixed-size byte array, `read(std::array<uint8, n>&)`. -/
def readBytes (n : Nat) (data : List Nat) : Option (List Nat × List Nat) :=
  if data.length < n then none else some (data.take n, data.drop n)

/-- The read `>> std::string`: bytes up to a zero byte, which is consumed, or up to the
end of the buffer. -/
def readCString : List Nat → List Nat × List Nat
  | [] => ([], [])
  | b :: bs =>
      if b = 0 then ([], bs)
      else
        let r := readCString bs
        (b :: r.1, r.2)

/-- The append `<< uint32`: four bytes, little-endian. -/
def putU32 (v : Nat) : List Nat :=
  [v % 256, v / 256 % 256, v / 65536 % 256, v / 16777216 % 256]

/-- The fields `HandleAuthSession` reads from the request (lines 759-768). -/
structure AuthSessionFields where
  BuiltNumberClient : Nat
  loginServerID : Nat
  account : List Nat
  loginServerType : Nat
  clientSeed : List Nat
  regionID : Nat
  battlegroupID : Nat
  realm : Nat
  DosResponse : Nat
  digest : List Nat
deriving DecidableEq, Repr

/-- The reads of lines 759-768, in order; `none` when one of them runs past the end. -/
def readAuthSession (data : List Nat) : Option AuthSessionFields :=
  match readU32 data with
  | none => none
  | some (BuiltNumberClient, d1) =>
  match readU32 d1 with
  | none => none
  | some (loginServerID, d2) =>
  match readU32 (readCString d2).2 with
  | none => none
  | some (loginServerType, d4) =>
  match readBytes 4 d4 with
  | none => none
  | some (clientSeed, d5) =>
  match readU32 d5 with
  | none => none
  | some (regionID, d6) =>
  match readU32 d6 with
  | none => none
  | some (battlegroupID, d7) =>
  match readU32 d7 with
  | none => none
  | some (realm, d8) =>
  match readU64 d8 with
  | none => none
  | some (DosResponse, d9) =>
  match readBytes 20 d9 with
  | none => none
  | some (digest, _) =>
      some { BuiltNumberClient := BuiltNumberClient, loginServerID := loginServerID,
             account := (readCString d2).1, loginServerType := loginServerType,
             clientSeed := clientSeed, regionID := regionID, battlegroupID := battlegroupID,
             realm := realm, DosResponse := DosResponse, digest := digest }

/-! ## Client header fields (`struct ClientPktHeader`, lines 81-85)

The struct is laid over the six header bytes in memory (packed, little-endian host):
`size` is the `uint16` at bytes 0-1 and `cmd` the `uint32` at bytes 2-5. -/

/-- The `uint16` a little-endian host reads from two bytes in memory. -/
def loadU16 (b0 b1 : Nat) : Nat := (b0 + 256 * b1) % 2 ^ 16

/-- The `uint32` a little-endian host reads from four bytes in memory. -/
def loadU32 (b0 b1 b2 b3 : Nat) : Nat := (b0 + 256 * b1 + 65536 * b2 + 16777216 * b3) % 2 ^ 32

/-- Modelled from the spec: the byte-order normalisation of the size,
`EndianConvertReverse(header.size)` (declared outside the sources), on a little-endian
host: the two bytes of the `uint16` are swapped. -/
def EndianConvertReverse (v : Nat) : Nat := (v % 256 * 256 + v / 256) % 2 ^ 16

/-- Modelled from the spec: the byte-order normalisation of the opcode,
`EndianConvert(header.cmd)` (declared outside the sources), on a little-endian host:
nothing to do. -/
def EndianConvert (v : Nat) : Nat := v

/-- The bytes of a `uint16` in the memory of a little-endian host. -/
def storeU16 (v : Nat) : List Nat := [v % 256, v / 256 % 256]

/-- The value of `header.size` after line 475, from the (decrypted) header bytes. -/
def headerSize (hdr : List Nat) : Nat :=
  EndianConvertReverse (loadU16 (hdr.getD 0 0) (hdr.getD 1 0))

/-- The value of `header.cmd` after line 476, from the (decrypted) header bytes. -/
def headerCmd (hdr : List Nat) : Nat :=
  EndianConvert (loadU32 (hdr.getD 2 0) (hdr.getD 3 0) (hdr.getD 4 0) (hdr.getD 5 0))

/-- The test of line 478, on the decoded size and opcode. -/
def headerRejected (size cmd : Nat) : Bool :=
  decide (size < 4) || decide (size > 10240) || decide (cmd > 10240)

/-! ## Inline handlers and dispatch -/

/-- How an inline handler ends: it returns a value, or a `ByteBufferException` leaves it
(the state at that point is kept). -/
inductive Handled (σ : Type) where
  | returned (s : WorldSocket σ) (ret : Int)
  | threw (s : WorldSocket σ)

namespace WorldSocket

variable {σ : Type}

/-- Lines 1035-1068 of `HandlePing`: the cadence bookkeeping.  The flag tells whether the
`return -1` of line 1062 is taken. -/
def pingCadence (w : World) (s : WorldSocket σ) : WorldSocket σ × Bool :=
  match s.m_LastPingTime with
  | none => ({ s with m_LastPingTime := some w.clockNow }, false)
  | some last =>
      let seconds := Int.tdiv (w.clockNow - last) (w.clockTicksPerSecond : Int)
      let s1 := { s with m_LastPingTime := some w.clockNow }
      if seconds < 27 then
        let s2 := { s1 with m_OverSpeedPings := (s1.m_OverSpeedPings + 1) % 2 ^ 32 }
        let max_count := w.CONFIG_MAX_OVERSPEED_PINGS
        if max_count ≠ 0 ∧ s2.m_OverSpeedPings > max_count then
          match s2.m_Session with
          | some sess => if sess.security = SEC_PLAYER then (s2, true) else (s2, false)
          | none => (s2, false)
        else (s2, false)
      else ({ s1 with m_OverSpeedPings := 0 }, false)

/-- The member `WorldSocket::HandlePing` (lines 1026-1092). -/
def HandlePing (alg : CipherAlg σ) (w : World) (s : WorldSocket σ) (recvPacket : WorldPacket) :
    Except Fault (Handled σ) :=
  match readU32 recvPacket.data with
  | none => .ok (Handled.threw s)
  | some (ping, rest) =>
  match readU32 rest with
  | none => .ok (Handled.threw s)
  | some (latency, _) =>
      let c := pingCadence w s
      if c.2 then .ok (Handled.returned c.1 (-1))
      else
        match c.1.m_Session with
        | none => .ok (Handled.returned c.1 (-1))
        | some sess =>
            let s1 := { c.1 with
              m_Session := some ((sess.SetLatency latency).call SessionCall.ResetClientTimeDelay) }
            match SendPacket alg s1 { opcode := SMSG_PONG, data := putU32 ping } with
            | .error f => .error f
            | .ok r => .ok (Handled.returned r.1 r.2)

/-- The packet built by `packet.Initialize(SMSG_AUTH_RESPONSE, 1); packet << uint8(status)`. -/
def authResponse (status : Nat) : WorldPacket := { opcode := SMSG_AUTH_RESPONSE, data := [status] }

/-- The common end of the failure paths of `HandleAuthSession`: send the packet (the
result of `SendPacket` is not looked at), make the calls that follow, return `-1`. -/
def replyAndFail (alg : CipherAlg σ) (s : WorldSocket σ) (pkt : WorldPacket)
    (after : List ExternalCall) : Except Fault (Handled σ) :=
  match SendPacket alg s pkt with
  | .error f => .error f
  | .ok r => .ok (Handled.returned { r.1 with externalCalls := r.1.externalCalls ++ after } (-1))

/-- The digest computed at lines 930-938:
`SHA1(account, 00 00 00 00, clientSeed, m_Seed, sessionKey)`. -/
def expectedDigest (w : World) (s : WorldSocket σ) (f : AuthSessionFields) (sessionKey : List Nat) :
    List Nat :=
  w.sha1 (f.account ++ [0, 0, 0, 0] ++ f.clientSeed ++ s.m_Seed ++ sessionKey)

/-- Lines 956-1023 of `HandleAuthSession`: what follows a matching digest. -/
def authAccepted (alg : CipherAlg σ) (w : World) (s : WorldSocket σ) (recvPacket : WorldPacket)
    (f : AuthSessionFields) (row : AccountRow) (security : Nat) (skipQueue : Bool)
    (expansion : Nat) (mutetime : Int) (locale : Nat) : Except Fault (Handled σ) :=
  let id := row.id
  let address := s.m_Address
  let isRecruiter := w.accountRecruiter id
  let s1 := { s with externalCalls := s.externalCalls ++
    [ExternalCall.UpdLastIp address f.account, ExternalCall.OnLastIpUpdate id address] }
  let session : WorldSession :=
    { id := id, security := security, expansion := expansion, mutetime := mutetime,
      locale := locale, recruiter := row.recruiter, isARecruiter := isRecruiter,
      skipQueue := skipQueue, totalTime := row.totaltime, latency := 0, recvQueue := [],
      calls := [] }
  let keys := alg.init row.sessionkey
  let s2 := { s1 with m_Session := some session,
                      m_Crypt := some { clientDecrypt := keys.1, serverEncrypt := keys.2 } }
  if w.IsClosedAtLine983 then
    replyAndFail alg s2 (authResponse AUTH_REJECT) [ExternalCall.OnFailedAccountLogin id]
  else if f.realm ≠ w.realmID then
    replyAndFail alg s2 (authResponse REALM_LIST_REALM_NOT_FOUND)
      [ExternalCall.OnFailedAccountLogin id]
  else
    let sess1 := ((session.call SessionCall.LoadGlobalAccountData).call
      SessionCall.LoadTutorialsData).call (SessionCall.ReadAddonsInfo recvPacket)
    let sess2 := if w.CONFIG_WARDEN_ENABLED then sess1.call (SessionCall.InitWarden row.os) else sess1
    let calls := [ExternalCall.OnAccountLogin id, ExternalCall.AddSession id]
    .ok (Handled.returned
      { s2 with m_Session := some sess2, externalCalls := s2.externalCalls ++ calls } 0)

/-- The member `WorldSocket::HandleAuthSession` (lines 730-1024). -/
def HandleAuthSession (alg : CipherAlg σ) (w : World) (s : WorldSocket σ)
    (recvPacket : WorldPacket) : Except Fault (Handled σ) :=
  if w.IsClosed then replyAndFail alg s (authResponse AUTH_REJECT) []
  else
    match readAuthSession recvPacket.data with
    | none => .ok (Handled.threw s)
    | some f =>
    match w.accountInfoByName f.account with
    | none => replyAndFail alg s (authResponse AUTH_UNKNOWN_ACCOUNT) []
    | some row =>
      let expansion := min (row.expansion % 256) w.CONFIG_EXPANSION
      let address := s.m_Address
      let s1 := { s with externalCalls :=
        s.externalCalls ++ [ExternalCall.UpdLastAttemptIp address f.account] }
      let id := row.id
      if row.locked % 256 = 1 ∧ row.last_ip ≠ address then
        replyAndFail alg s1 (authResponse AUTH_FAILED) [ExternalCall.OnFailedAccountLogin id]
      else
        let mutetime := if row.mutetime < 0 then w.time + |row.mutetime| else row.mutetime
        let s2 := if row.mutetime < 0 then
            { s1 with externalCalls :=
                s1.externalCalls ++ [ExternalCall.UpdMuteTimeLogin mutetime id] }
          else s1
        let locale := if row.locale % 256 ≥ TOTAL_LOCALES then LOCALE_enUS else row.locale % 256
        if w.CONFIG_WARDEN_ENABLED = true ∧ row.os ≠ "Win" ∧ row.os ≠ "OSX" then
          replyAndFail alg s2 (authResponse AUTH_REJECT) []
        else
          let security := match w.gmLevelByRealm id with
            | none => 0
            | some g => g % 256
          let skipQueue := (w.gmLevelByRealm id).isSome
          if w.bans id address then
            replyAndFail alg s2 (authResponse AUTH_BANNED) [ExternalCall.OnFailedAccountLogin id]
          else if security < w.PlayerSecurityLimit then
            replyAndFail alg s2 { opcode := NULL_OPCODE, data := [] }
              [ExternalCall.OnFailedAccountLogin id]
          else if expectedDigest w s2 f row.sessionkey ≠ f.digest then
            replyAndFail alg s2 (authResponse AUTH_FAILED) []
          else
            authAccepted alg w s2 recvPacket f row security skipQueue expansion mutetime locale

/-- The member `WorldSocket::ProcessIncoming` (lines 651-728). -/
def ProcessIncoming (alg : CipherAlg σ) (w : World) (s : WorldSocket σ) (new_pct : WorldPacket) :
    Except Fault (WorldSocket σ × Int) :=
  let opcode := new_pct.opcode
  if s.closing_ then .ok (s, -1)
  else if opcode = CMSG_PING then
    match HandlePing alg w s new_pct with
    | .error f => .error f
    | .ok (Handled.returned s1 ret) => .ok (s1, ret)
    | .ok (Handled.threw s1) => .ok (s1, -1)
  else if opcode = CMSG_AUTH_SESSION then
    if s.m_Session.isSome then .ok (s, -1)
    else
      match HandleAuthSession alg w s new_pct with
      | .error f => .error f
      | .ok (Handled.returned s1 ret) => .ok (s1, ret)
      | .ok (Handled.threw s1) => .ok (s1, -1)
  else if opcode = CMSG_KEEP_ALIVE then
    .ok ({ s with m_Session :=
            s.m_Session.map (fun sess => sess.call (SessionCall.ResetTimeOutTime true)) }, 0)
  else
    match s.m_Session with
    | some sess =>
        let sess1 := (sess.call (SessionCall.ResetTimeOutTime false)).QueuePacket new_pct
        .ok ({ s with m_Session := some sess1 }, 0)
    | none => .ok (s, -1)

end WorldSocket

/-! ## Inbound path -/

/-- Where a block of the read loop of `handle_input_missing_data` leaves the function: it
returns `ret`, or it goes on with the unread rest of the read. -/
inductive Stage (σ : Type) where
  | done (s : WorldSocket σ) (ret : Int)
  | go (s : WorldSocket σ) (rest : List Nat)

/-- How one iteration of the read loop ends: the function returns `ret`, or the loop goes
on with the unread rest; `d` lists the packets dispatched so far. -/
inductive Iter (σ : Type) where
  | ret (s : WorldSocket σ) (r : Int) (d : List WorldPacket)
  | next (s : WorldSocket σ) (rest : List Nat) (d : List WorldPacket)

/-- What one call of `handle_input_missing_data` leaves: the socket, the return value and
the packets it passed to `ProcessIncoming`, in order. -/
structure InputResult (σ : Type) where
  sock : WorldSocket σ
  ret : Int
  dispatched : List WorldPacket

namespace WorldSocket

variable {σ : Type}

/-- The six header bytes after `DecryptRecv` (lines 470-471) and the cipher state they
leave; without a cipher the bytes are as received. -/
def decryptHeader (alg : CipherAlg σ) (crypt : Option (AuthCrypt σ)) (hdr : List Nat) :
    Option (AuthCrypt σ) × List Nat :=
  match crypt with
  | some c =>
      let r := c.DecryptRecv alg hdr
      (some r.1, r.2)
  | none => (none, hdr)

/-- The member `WorldSocket::handle_input_header` (lines 465-502).  The header struct is
converted in place, so the header block holds the converted fields afterwards. -/
def handle_input_header (alg : CipherAlg σ) (s : WorldSocket σ) :
    Except Fault (WorldSocket σ × Int) :=
  if s.m_RecvWPct.isSome then .error Fault.assertFailed
  else if s.m_Header.length ≠ 6 then .error Fault.assertFailed
  else
    let dec := decryptHeader alg s.m_Crypt (s.m_Header.unsent.take 6)
    let size := headerSize dec.2
    let cmd := headerCmd dec.2
    let inPlace (sz : Nat) : MsgBlock :=
      { s.m_Header with data := s.m_Header.data.take s.m_Header.rd ++ storeU16 sz ++ dec.2.drop 2 }
    if headerRejected size cmd then
      .ok ({ s with m_Crypt := dec.1, m_Header := inPlace size, errno := Errno.EINVAL }, -1)
    else
      let size4 := size - 4
      let s1 := { s with m_Crypt := dec.1, m_Header := inPlace size4 }
      if size4 > 0 then
        .ok ({ s1 with
                m_RecvWPct := some { opcode := cmd % 2 ^ 16, data := List.replicate size4 0 },
                m_RecvPct := s1.m_RecvPct.base size4 }, 0)
      else if s1.m_RecvPct.space ≠ 0 then .error Fault.assertFailed
      else .ok ({ s1 with m_RecvWPct := some { opcode := cmd % 2 ^ 16, data := [] } }, 0)

/-- The call `m_RecvPct.copy(...)` of line 593.  The data area of `m_RecvPct` is the
contents of the pending packet (line 494), so the bytes land in the packet. -/
def recvPctCopy (s : WorldSocket σ) (src : List Nat) : WorldSocket σ :=
  match s.m_RecvPct.copy src with
  | none => s
  | some b =>
      { s with
        m_RecvPct := b
        m_RecvWPct := s.m_RecvWPct.map
          (fun p => { p with data := b.data ++ List.replicate b.space 0 }) }

/-- The member `WorldSocket::handle_input_payload` (lines 504-525); the third component is
the packet passed to `ProcessIncoming`. -/
def handle_input_payload (alg : CipherAlg σ) (w : World) (s : WorldSocket σ) :
    Except Fault (WorldSocket σ × Int × WorldPacket) :=
  if s.m_RecvPct.space ≠ 0 then .error Fault.assertFailed
  else if s.m_Header.space ≠ 0 then .error Fault.assertFailed
  else
    match s.m_RecvWPct with
    | none => .error Fault.assertFailed
    | some pkt =>
        match ProcessIncoming alg w s pkt with
        | .error f => .error f
        | .ok (s1, ret) =>
            let s2 := { s1 with
              m_RecvPct := (s1.m_RecvPct.base 0).reset
              m_RecvWPct := none
              m_Header := s1.m_Header.reset }
            .ok ({ s2 with errno := if ret = -1 then Errno.EINVAL else s2.errno }, ret, pkt)

/-- Lines 555-576 of the read loop: top up the header block and decode it when full. -/
def headerStage (alg : CipherAlg σ) (s : WorldSocket σ) (mb : List Nat) :
    Except Fault (Stage σ) :=
  if s.m_Header.space > 0 then
    let to_header := if mb.length > s.m_Header.space then s.m_Header.space else mb.length
    let s1 := { s with m_Header := (s.m_Header.copy (mb.take to_header)).getD s.m_Header }
    let rest := mb.drop to_header
    if s1.m_Header.space > 0 then
      if rest.length ≠ 0 then .error Fault.assertFailed
      else .ok (Stage.done { s1 with errno := Errno.EWOULDBLOCK } (-1))
    else
      match handle_input_header alg s1 with
      | .error f => .error f
      | .ok (s2, ret) =>
          if ret = -1 then
            if wouldBlock s2.errno then .error Fault.assertFailed else .ok (Stage.done s2 (-1))
          else .ok (Stage.go s2 rest)
  else .ok (Stage.go s mb)

/-- Lines 589-603 of the read loop: top up the payload block. -/
def payloadStage (s : WorldSocket σ) (mb : List Nat) : Except Fault (Stage σ) :=
  if s.m_RecvPct.space > 0 then
    let to_data := if mb.length > s.m_RecvPct.space then s.m_RecvPct.space else mb.length
    let s1 := recvPctCopy s (mb.take to_data)
    let rest := mb.drop to_data
    if s1.m_RecvPct.space > 0 then
      if rest.length ≠ 0 then .error Fault.assertFailed
      else .ok (Stage.done { s1 with errno := Errno.EWOULDBLOCK } (-1))
    else .ok (Stage.go s1 rest)
  else .ok (Stage.go s mb)

/-- Lines 578-610 of the read loop, what follows the header block: the check of the
pending packet, the payload block, the dispatch.  `d` lists the packets dispatched so far. -/
def afterHeader (alg : CipherAlg σ) (w : World) (s1 : WorldSocket σ) (mb1 : List Nat)
    (d : List WorldPacket) : Except Fault (Iter σ) :=
  match s1.m_RecvWPct with
  | none => .ok (Iter.ret { s1 with errno := Errno.EINVAL } (-1) d)
  | some _ =>
      match payloadStage s1 mb1 with
      | .error f => .error f
      | .ok (Stage.done s2 ret) => .ok (Iter.ret s2 ret d)
      | .ok (Stage.go s2 mb2) =>
          match handle_input_payload alg w s2 with
          | .error f => .error f
          | .ok (s3, ret, pkt) =>
              if ret = -1 then
                if wouldBlock s3.errno then .error Fault.assertFailed
                else .ok (Iter.ret s3 (-1) (d ++ [pkt]))
              else .ok (Iter.next s3 mb2 (d ++ [pkt]))

/-- One iteration of the read loop (lines 555-610). -/
def iteration (alg : CipherAlg σ) (w : World) (s : WorldSocket σ) (mb : List Nat)
    (d : List WorldPacket) : Except Fault (Iter σ) :=
  match headerStage alg s mb with
  | .error f => .error f
  | .ok (Stage.done s1 ret) => .ok (Iter.ret s1 ret d)
  | .ok (Stage.go s1 mb1) => afterHeader alg w s1 mb1 d

/-- The `while (message_block.length() > 0)` loop of lines 553-611.  `mb` is the unread
part of the read and `d` the packets dispatched so far.  The result carries `some ret`
when the loop is left by a `return`, `none` when its condition becomes false.  The first
argument bounds the number of iterations. -/
def inputLoop (alg : CipherAlg σ) (w : World) :
    Nat → WorldSocket σ → List Nat → List WorldPacket →
      Except Fault (WorldSocket σ × Option Int × List WorldPacket)
  | 0, s, mb, d => if mb.length > 0 then .error Fault.outOfFuel else .ok (s, none, d)
  | fuel + 1, s, mb, d =>
      if mb.length > 0 then
        match iteration alg w s mb d with
        | .error f => .error f
        | .ok (Iter.ret s1 ret d1) => .ok (s1, some ret, d1)
        | .ok (Iter.next s1 mb1 d1) => inputLoop alg w fuel s1 mb1 d1
      else .ok (s, none, d)

/-- The member `WorldSocket::handle_input_missing_data` (lines 527-614); `ans` is the
answer to its `recv` into the 4096-byte buffer (a real `recv` returns at most 4096 bytes;
the loop itself does not depend on that bound).  Each iteration but the first consumes at
least one byte, so `n + 1` iterations are enough for a read of `n` bytes. -/
def handle_input_missing_data (alg : CipherAlg σ) (w : World) (s : WorldSocket σ)
    (ans : RecvAnswer) : Except Fault (InputResult σ) :=
  let recv_size := 4096
  match ans with
  | RecvAnswer.error e => .ok { sock := { s with errno := e }, ret := -1, dispatched := [] }
  | RecvAnswer.closed => .ok { sock := s, ret := 0, dispatched := [] }
  | RecvAnswer.bytes bs =>
      if bs.length = 0 then .ok { sock := s, ret := 0, dispatched := [] }
      else
        match inputLoop alg w (bs.length + 1) s bs [] with
        | .error f => .error f
        | .ok (s1, some ret, d) => .ok { sock := s1, ret := ret, dispatched := d }
        | .ok (s1, none, d) =>
            .ok { sock := s1, ret := if bs.length = recv_size then 1 else 2, dispatched := d }

end WorldSocket

/-! ## Runs of the outbound side and of the inbound side -/

/-- An event of the outbound side: a call of `SendPacket`, or a write-ready event, that
is a call of `handle_output` in which the operating system has room for `room` bytes at the
`send` of `handle_output` and for `roomQueue` bytes at the `send` of `handle_output_queue`
(no room is the would-block answer). -/
inductive OutEvent where
  | send (pct : WorldPacket)
  | writeReady (room roomQueue : Nat)
deriving DecidableEq, Repr

namespace WorldSocket

variable {σ : Type}

/-- The unsent bytes of the socket: those of the direct buffer, then those of the queued
blocks in queue order. -/
def pending (s : WorldSocket σ) : List Nat :=
  s.m_OutBuffer.unsent ++ (s.msg_queue.blocks.map MsgBlock.unsent).flatten

/-- One event of the outbound side: the new state and the value returned. -/
def outStep (alg : CipherAlg σ) (s : WorldSocket σ) : OutEvent → Except Fault (WorldSocket σ × Int)
  | OutEvent.send pct => SendPacket alg s pct
  | OutEvent.writeReady room roomQueue =>
      .ok (handle_output s (SendAnswer.room room) (SendAnswer.room roomQueue))

/-- A run of the outbound side: the events in order, from `s`. -/
def outRun (alg : CipherAlg σ) : WorldSocket σ → List OutEvent → Except Fault (WorldSocket σ)
  | s, [] => .ok s
  | s, ev :: evs =>
      match outStep alg s ev with
      | .error f => .error f
      | .ok r => outRun alg r.1 evs

/-- The frame of a packet submitted in state `s`: the header bytes as `SendPacket` builds
them there, then the payload. -/
def frameOf (alg : CipherAlg σ) (s : WorldSocket σ) (pct : WorldPacket) : List Nat :=
  (sendHeaderBytes alg s.m_Crypt pct).2 ++ pct.data

/-- The frames of the `SendPacket` calls of a run that returned `0`, concatenated in the
order of submission. -/
def acceptedFrames (alg : CipherAlg σ) : WorldSocket σ → List OutEvent → List Nat
  | _, [] => []
  | s, ev :: evs =>
      match outStep alg s ev with
      | .error _ => []
      | .ok r =>
          (match ev with
            | OutEvent.send pct => if r.2 = 0 then frameOf alg s pct else []
            | OutEvent.writeReady _ _ => []) ++ acceptedFrames alg r.1 evs

/-- The queue, once its head block is taken out, is below its high water mark, so it
takes the block back at the head. -/
def headRoom (s : WorldSocket σ) : Bool :=
  match s.msg_queue.dequeue_head with
  | none => true
  | some (_, q) => !q.is_full

/-- At each write-ready event of the run the queue has `headRoom`. -/
def requeueRoom (alg : CipherAlg σ) : WorldSocket σ → List OutEvent → Bool
  | _, [] => true
  | s, ev :: evs =>
      (match ev with
        | OutEvent.send _ => true
        | OutEvent.writeReady _ _ => headRoom s) &&
      (match outStep alg s ev with
        | .error _ => true
        | .ok r => requeueRoom alg r.1 evs)

/-- A run of the inbound side: one `handle_input_missing_data` per chunk, each chunk being
what one `recv` returns; the result lists, per read, the value returned and the packets
passed to `ProcessIncoming`.  A read that returns `-1` with `EWOULDBLOCK` is followed by
the next read, as the reactor does. -/
def feedReads (alg : CipherAlg σ) (w : World) :
    WorldSocket σ → List (List Nat) → Except Fault (WorldSocket σ × List (Int × List WorldPacket))
  | s, [] => .ok (s, [])
  | s, c :: cs =>
      match handle_input_missing_data alg w s (RecvAnswer.bytes c) with
      | .error f => .error f
      | .ok r =>
          match feedReads alg w r.sock cs with
          | .error f => .error f
          | .ok rest => .ok (rest.1, (r.ret, r.dispatched) :: rest.2)

end WorldSocket

/-- The assembler of `s` has consumed exactly the bytes `A`, a proper prefix of the frame
`hdr ++ payload`, with no cipher: while `A` is shorter than a header it is in the header
block and no packet is pending; afterwards the header block is full, the packet is pending
and the bytes of `A` after the header are in the payload block. -/
def WorldSocket.assembled {σ : Type} (s : WorldSocket σ) (hdr payload A : List Nat) : Prop :=
  if A.length < 6 then
    s.m_Header = { data := A, rd := 0, size := 6 } ∧ s.m_RecvWPct = none ∧
      s.m_RecvPct = { data := [], rd := 0, size := 0 } ∧ s.m_Crypt = none
  else
    s.m_Header.space = 0 ∧
      s.m_RecvWPct = some
        { opcode := headerCmd hdr
          data := A.drop 6 ++ List.replicate (payload.length - (A.drop 6).length) 0 } ∧
      s.m_RecvPct = { data := A.drop 6, rd := 0, size := payload.length }

/-! ## Sample instances used to exhibit concrete cases -/

/-- A small stream cipher: the state is a counter, a byte is xor-ed with it. -/
def sampleCipher : CipherAlg Nat :=
  { init := fun K => (K.sum % 256, (K.sum + 1) % 256)
    step := fun st b => ((st + 1) % 256, (b ^^^ st) % 256) }

/-- A world that is open, with one account `[97]` whose session key is `[1, 2, 3]`. -/
def sampleWorld : World :=
  { IsClosed := false
    IsClosedAtLine983 := false
    CONFIG_WARDEN_ENABLED := false
    CONFIG_EXPANSION := 2
    CONFIG_MAX_OVERSPEED_PINGS := 5
    PlayerSecurityLimit := 0
    realmID := 1
    accountInfoByName := fun name =>
      if name = [97] then
        some { id := 7, sessionkey := [1, 2, 3], last_ip := "10.0.0.1", locked := 0,
               expansion := 2, mutetime := 0, locale := 0, recruiter := 0, os := "Win",
               totaltime := 0 }
      else none
    gmLevelByRealm := fun _ => none
    bans := fun _ _ => false
    accountRecruiter := fun _ => false
    sha1 := fun bytes => List.replicate 20 (bytes.sum % 256)
    clockNow := 0
    clockTicksPerSecond := 1000000000
    time := 0 }

/-- A connection just opened, for the sample cipher. -/
def sampleSocket : WorldSocket Nat := WorldSocket.opened [1, 2, 3, 4] "10.0.0.1"

/-- The sample connection with a complete client header in its header block: declared size
4 (no payload), opcode `0x1DC`. -/
def sampleHeaderSocket : WorldSocket Nat :=
  { sampleSocket with m_Header := { data := [0, 4, 0xDC, 1, 0, 0], rd := 0, size := 6 } }

/-- An authentication request for account `[97]` of the sample world, with client seed
`09 09 09 09`, for the realm `realm` and carrying the digest `digest`. -/
def sampleAuthRequest (realm : Nat) (digest : List Nat) : WorldPacket :=
  { opcode := CMSG_AUTH_SESSION
    data := [0, 0, 0, 0] ++ [0, 0, 0, 0] ++ [97, 0] ++ [0, 0, 0, 0] ++ [9, 9, 9, 9] ++
      [0, 0, 0, 0] ++ [0, 0, 0, 0] ++ [realm % 256, 0, 0, 0] ++ [0, 0, 0, 0, 0, 0, 0, 0] ++ digest }

/-- The fields read from `sampleAuthRequest realm digest` when `digest` has 20 bytes. -/
def sampleAuthFields (realm : Nat) (digest : List Nat) : AuthSessionFields :=
  { BuiltNumberClient := 0, loginServerID := 0, account := [97], loginServerType := 0,
    clientSeed := [9, 9, 9, 9], regionID := 0, battlegroupID := 0, realm := realm % 256,
    DosResponse := 0, digest := digest }

/-- The account row of the sample world. -/
def sampleRow : AccountRow :=
  { id := 7, sessionkey := [1, 2, 3], last_ip := "10.0.0.1", locked := 0, expansion := 2,
    mutetime := 0, locale := 0, recruiter := 0, os := "Win", totaltime := 0 }

/-- A payload of `n` zero bytes. -/
def zeros (n : Nat) : List Nat := List.replicate n 0

/-- A run that fills the queue beyond its high water mark: a packet too large for the
direct buffer, then two packets of 4 MiB each, then a write-ready event at which the
socket takes one byte. -/
def overflowRun : List OutEvent :=
  [OutEvent.send { opcode := 0x1F6, data := zeros 65533 },
   OutEvent.send { opcode := 0x1F6, data := zeros 4194304 },
   OutEvent.send { opcode := 0x1F6, data := zeros 4194304 },
   OutEvent.writeReady 0 1]

/-- A short run: two packets, written one byte at a time at first. -/
def shortRun : List OutEvent :=
  [OutEvent.send { opcode := SMSG_AUTH_CHALLENGE, data := [1, 2, 3] },
   OutEvent.writeReady 1 0,
   OutEvent.send { opcode := SMSG_PONG, data := [9] },
   OutEvent.writeReady 1 1,
   OutEvent.writeReady 100 100]

/-! ## Runs of pings, frames read together -/

/-- The socket a handler leaves behind, however it ends. -/
def Handled.sock {σ : Type} : Handled σ → WorldSocket σ
  | Handled.returned s _ => s
  | Handled.threw s => s

/-- A client frame as it arrives: the six header bytes, then the payload. -/
structure ClientFrame where
  header : List Nat
  payload : List Nat
deriving DecidableEq, Repr

/-- The bytes of a frame in arrival order. -/
def ClientFrame.bytes (f : ClientFrame) : List Nat := f.header ++ f.payload

namespace WorldSocket

variable {σ : Type}

/-- Whether `HandlePing` leaves by the `return -1` of line 1062, the over-speed kick: the
packet holds both fields and the cadence bookkeeping takes that branch. -/
def overSpeedKick (w : World) (s : WorldSocket σ) (recvPacket : WorldPacket) : Bool :=
  match readU32 recvPacket.data with
  | none => false
  | some (_, rest) =>
      match readU32 rest with
      | none => false
      | some _ => (pingCadence w s).2

/-- The whole seconds from `last` to `now`, as `duration_cast<Seconds>(now - last)` counts
them (line 1040): the quotient truncated towards zero. -/
def elapsedSeconds (w : World) (last now : Int) : Int :=
  Int.tdiv (now - last) (w.clockTicksPerSecond : Int)

/-- The clock readings of a list are each less than 27 whole seconds after the one before. -/
def allFast (w : World) : List Int → Bool
  | a :: b :: l => decide (elapsedSeconds w a b < 27) && allFast w (b :: l)
  | _ => true

/-- Whether the result `h` of `HandlePing` on the socket `s` is the over-speed kick, told
from what the call leaves: `-1` is returned while a session is attached, and the session is
as it was.  With a session attached the only other `return -1` is that of `SendPacket` at
the end, and by then `SetLatency` and `ResetClientTimeDelay` have been called on the
session. -/
def kickReturned (s : WorldSocket σ) : Handled σ → Bool
  | Handled.returned s1 r => decide (r = -1) && s.m_Session.isSome &&
      decide (s1.m_Session = s.m_Session)
  | Handled.threw _ => false

/-- A run of pings on one connection, as `pingRun`; per ping, in order: the socket the ping
found and what `HandlePing` returned on it. -/
def pingOutcomes (alg : CipherAlg σ) (w : World) :
    WorldSocket σ → List (Int × WorldPacket) → Except Fault (List (WorldSocket σ × Handled σ))
  | _, [] => .ok []
  | s, p :: ps =>
      match HandlePing alg { w with clockNow := p.1 } s p.2 with
      | .error f => .error f
      | .ok h =>
          match pingOutcomes alg w h.sock ps with
          | .error f => .error f
          | .ok rest => .ok ((s, h) :: rest)

/-- The value a handler returned; a handler left by an exception returns none. -/
def returnValue : Handled σ → Option Int
  | Handled.returned _ r => some r
  | Handled.threw _ => none

/-- The packet a frame carries on a connection whose cipher is `crypt` when the header is
read: the opcode of the decrypted header, and the payload. -/
def framePacket (alg : CipherAlg σ) (crypt : Option (AuthCrypt σ)) (f : ClientFrame) :
    WorldPacket :=
  { opcode := headerCmd (decryptHeader alg crypt f.header).2, data := f.payload }

/-- A frame is well formed for a connection whose cipher is `crypt`: six header bytes that
decrypt to a size and an opcode `handle_input_header` accepts, then as many payload bytes
as the size declares. -/
def frameWellFormed (alg : CipherAlg σ) (crypt : Option (AuthCrypt σ)) (f : ClientFrame) : Bool :=
  decide (f.header.length = 6) &&
  !headerRejected (headerSize (decryptHeader alg crypt f.header).2)
      (headerCmd (decryptHeader alg crypt f.header).2) &&
  decide (f.payload.length = headerSize (decryptHeader alg crypt f.header).2 - 4)

/-- The frames read one per `recv`, in order: each is well formed for the cipher state in
which its header is read, and its read does not return `-1` (the dispatch succeeds); the
result lists the packets the frames carry.  `none` when a frame is malformed or a read
fails. -/
def frameRun (alg : CipherAlg σ) (w : World) :
    WorldSocket σ → List ClientFrame → Option (List WorldPacket)
  | _, [] => some []
  | s, f :: fs =>
      if frameWellFormed alg s.m_Crypt f then
        match handle_input_missing_data alg w s (RecvAnswer.bytes f.bytes) with
        | .error _ => none
        | .ok r =>
            if r.ret = -1 then none
            else (frameRun alg w r.sock fs).map (fun l => framePacket alg s.m_Crypt f :: l)
      else none

end WorldSocket

/-- The sample world with the player security limit raised to 1, so that plain player
accounts are not let in. -/
def lockedWorld : World := { sampleWorld with PlayerSecurityLimit := 1 }

/-- The sample connection once authenticated: what `HandleAuthSession` leaves of the sample
connection for the request of account `[97]` with the right digest; a player session is
attached, the cipher is set up, no ping has arrived yet. -/
def sampleAuthedSocket : WorldSocket Nat :=
  match WorldSocket.HandleAuthSession sampleCipher sampleWorld sampleSocket
      (sampleAuthRequest 1 (List.replicate 20 149)) with
  | .ok h => h.sock
  | .error _ => sampleSocket

/-- A ping packet: the value 1 to echo, a latency of 20. -/
def samplePing : WorldPacket := { opcode := CMSG_PING, data := [1, 0, 0, 0, 20, 0, 0, 0] }

/-- A run of `n` sample pings, the first at clock reading 0, each `gap` ticks after the
previous one. -/
def pingsEvery (gap : Int) (n : Nat) : List (Int × WorldPacket) :=
  (List.range n).map (fun i => ((i : Int) * gap, samplePing))

/-- The three submissions of `overflowRun`: they leave more than 8 MiB in the queue. -/
def fillRun : List OutEvent :=
  [OutEvent.send { opcode := 0x1F6, data := zeros 65533 },
   OutEvent.send { opcode := 0x1F6, data := zeros 4194304 },
   OutEvent.send { opcode := 0x1F6, data := zeros 4194304 }]

/-- Three frames as a client sends them before the cipher is set up: a keepalive with a
two-byte payload, a keepalive without payload, a keepalive with one byte. -/
def sampleFrames : List ClientFrame :=
  [{ header := [0, 6, 7, 4, 0, 0], payload := [7, 8] },
   { header := [0, 4, 7, 4, 0, 0], payload := [] },
   { header := [0, 5, 7, 4, 0, 0], payload := [9] }]

/-! ## Teardown, the reactor callbacks, runs of operations -/

/-- The call `peer().close_writer()`: the write half is shut down; the calls are counted. -/
def Peer.close_writer (p : Peer) : Peer :=
  { p with writerClosed := true, closeWriterCalls := p.closeWriterCalls + 1 }

namespace WorldSocket

variable {σ : Type}

/-- The member `WorldSocket::CloseSocket` (lines 123-143); the reason is only logged.  The
`return` of line 133 leaves the function, so the session pointer is cleared only on the
call that sets the flag. -/
def CloseSocket (s : WorldSocket σ) (_reason : String) : WorldSocket σ :=
  if s.closing_ then s
  else { s with closing_ := true, peer := s.peer.close_writer, m_Session := none }

/-- The member `WorldSocket::close` (lines 261-270).  `shutdown()` and `remove_reference()`
are calls into the reactor framework; of the fields kept here they touch none. -/
def close (s : WorldSocket σ) : WorldSocket σ × Int :=
  ({ s with closing_ := true }, 0)

/-- The member `WorldSocket::handle_close` (lines 419-440); `invalidHandle` tells whether
`h == ACE_INVALID_HANDLE`. -/
def handle_close (s : WorldSocket σ) (invalidHandle : Bool) : WorldSocket σ × Int :=
  let s1 := { s with closing_ := true
                     peer := if invalidHandle then s.peer.close_writer else s.peer }
  ({ s1 with m_Session := none }, 0)

/-- The loop `do ret = handle_output(); while (ret > 0)` of `Update` (lines 457-460).
`answers i` holds what the operating system answers to the two `send` calls of the `i`-th
`handle_output`; the first argument bounds the number of iterations. -/
def updateLoop (answers : Nat → SendAnswer × SendAnswer) :
    Nat → Nat → WorldSocket σ → Except Fault (WorldSocket σ × Int)
  | 0, _, _ => .error Fault.outOfFuel
  | fuel + 1, i, s =>
      let r := handle_output s (answers i).1 (answers i).2
      if r.2 > 0 then updateLoop answers fuel (i + 1) r.1 else .ok r

/-- The member `WorldSocket::Update` (lines 442-463).  `handle_output` returns a positive
value only after it has taken a whole block out of the queue, so the number of queued
blocks plus two bounds the iterations. -/
def Update (s : WorldSocket σ) (answers : Nat → SendAnswer × SendAnswer) :
    Except Fault (WorldSocket σ × Int) :=
  if s.closing_ then .ok (s, -1)
  else if s.m_OutActive then .ok (s, 0)
  else if s.m_OutBuffer.length = 0 ∧ s.msg_queue.is_empty = true then .ok (s, 0)
  else updateLoop answers (s.msg_queue.blocks.length + 2) 0 s

/-- The member `WorldSocket::handle_input` (lines 272-310); `ans` is the answer to the
`recv` of `handle_input_missing_data`, `answers` those to the `send` calls of `Update`. -/
def handle_input (alg : CipherAlg σ) (w : World) (s : WorldSocket σ) (ans : RecvAnswer)
    (answers : Nat → SendAnswer × SendAnswer) : Except Fault (WorldSocket σ × Int) :=
  if s.closing_ then .ok (s, -1)
  else
    match handle_input_missing_data alg w s ans with
    | .error f => .error f
    | .ok r =>
        if r.ret = -1 then
          if wouldBlock r.sock.errno then Update r.sock answers
          else .ok ({ r.sock with errno := Errno.ECONNRESET }, -1)
        else if r.ret = 0 then .ok ({ r.sock with errno := Errno.ECONNRESET }, -1)
        else if r.ret = 1 then .ok (r.sock, 1)
        else Update r.sock answers

/-- The packets passed to `ProcessIncoming` one after the other, as the read loop does:
the socket left and the values returned. -/
def processAll (alg : CipherAlg σ) (w : World) :
    WorldSocket σ → List WorldPacket → Except Fault (WorldSocket σ × List Int)
  | s, [] => .ok (s, [])
  | s, pkt :: pkts =>
      match ProcessIncoming alg w s pkt with
      | .error f => .error f
      | .ok r =>
          match processAll alg w r.1 pkts with
          | .error f => .error f
          | .ok rest => .ok (rest.1, r.2 :: rest.2)

end WorldSocket

/-- An operation on a connection, with what the environment supplies to it. -/
inductive ConnOp where
  | SendPacket (pct : WorldPacket)
  | CloseSocket (reason : String)
  | close
  | handle_input (w : World) (ans : RecvAnswer) (answers : Nat → SendAnswer × SendAnswer)
  | handle_output (ans ansQueue : SendAnswer)
  | handle_output_queue (ans : SendAnswer)
  | handle_close (invalidHandle : Bool)
  | Update (answers : Nat → SendAnswer × SendAnswer)
  | ProcessIncoming (w : World) (pkt : WorldPacket)
  | HandlePing (w : World) (pkt : WorldPacket)
  | HandleAuthSession (w : World) (pkt : WorldPacket)

namespace WorldSocket

variable {σ : Type}

/-- One operation: the socket it leaves. -/
def connStep (alg : CipherAlg σ) (s : WorldSocket σ) : ConnOp → Except Fault (WorldSocket σ)
  | ConnOp.SendPacket pct => (SendPacket alg s pct).map Prod.fst
  | ConnOp.CloseSocket reason => .ok (CloseSocket s reason)
  | ConnOp.close => .ok (close s).1
  | ConnOp.handle_input w ans answers => (handle_input alg w s ans answers).map Prod.fst
  | ConnOp.handle_output ans ansQueue => .ok (handle_output s ans ansQueue).1
  | ConnOp.handle_output_queue ans => .ok (handle_output_queue s ans).1
  | ConnOp.handle_close invalidHandle => .ok (handle_close s invalidHandle).1
  | ConnOp.Update answers => (Update s answers).map Prod.fst
  | ConnOp.ProcessIncoming w pkt => (ProcessIncoming alg w s pkt).map Prod.fst
  | ConnOp.HandlePing w pkt => (HandlePing alg w s pkt).map Handled.sock
  | ConnOp.HandleAuthSession w pkt => (HandleAuthSession alg w s pkt).map Handled.sock

/-- A run of operations, in order, from `s`. -/
def connRun (alg : CipherAlg σ) : WorldSocket σ → List ConnOp → Except Fault (WorldSocket σ)
  | s, [] => .ok s
  | s, op :: ops =>
      match connStep alg s op with
      | .error f => .error f
      | .ok s1 => connRun alg s1 ops

end WorldSocket

/-- What holds of the assembler between two iterations of the read loop: the header block
is the six-byte block of the constructor, read from its start; while the header is
incomplete no packet is pending and the payload block has no room; once the header is
complete and a packet is pending, the payload is still incomplete. -/
def WorldSocket.inboundInv {σ : Type} (s : WorldSocket σ) : Prop :=
  s.m_Header.size = 6 ∧ s.m_Header.rd = 0 ∧ s.m_Header.data.length ≤ 6 ∧
  (s.m_Header.data.length < 6 → s.m_RecvWPct = none ∧ s.m_RecvPct.space = 0) ∧
  (s.m_Header.data.length = 6 → s.m_RecvWPct ≠ none → s.m_RecvPct.space > 0)

/-- What holds of the direct buffer: it is the 65536-byte block allocated by `open`, and
its pointers are in order. -/
def WorldSocket.outboundInv {σ : Type} (s : WorldSocket σ) : Prop :=
  s.m_OutBuffer.size = 65536 ∧ s.m_OutBuffer.data.length ≤ 65536 ∧
  s.m_OutBuffer.rd ≤ s.m_OutBuffer.data.length

/-! ## Calendar ids (`CalendarMgr.cpp`, lines 27 and 323-357) -/

/-- The id bookkeeping of `CalendarMgr`: the two counters and the two free lists (the
members `_maxEventId`, `_freeEventIds`, `_maxInviteId`, `_freeInviteIds`; ids are `uint64`,
the free lists are deques used first in, first out). -/
structure CalendarMgr where
  _maxEventId : Nat
  _freeEventIds : List Nat
  _maxInviteId : Nat
  _freeInviteIds : List Nat
deriving DecidableEq, Repr

namespace CalendarMgr

/-- The constructor (line 27) of a manager that holds no event and no invite. -/
def new : CalendarMgr :=
  { _maxEventId := 0, _freeEventIds := [], _maxInviteId := 0, _freeInviteIds := [] }

/-- The member `CalendarMgr::FreeEventId` (lines 323-329). -/
def FreeEventId (m : CalendarMgr) (id : Nat) : CalendarMgr :=
  if id = m._maxEventId then { m with _maxEventId := (m._maxEventId + (2 ^ 64 - 1)) % 2 ^ 64 }
  else { m with _freeEventIds := m._freeEventIds ++ [id] }

/-- The member `CalendarMgr::GetFreeEventId` (lines 331-339): the manager left and the id
returned. -/
def GetFreeEventId (m : CalendarMgr) : CalendarMgr × Nat :=
  match m._freeEventIds with
  | [] => ({ m with _maxEventId := (m._maxEventId + 1) % 2 ^ 64 }, (m._maxEventId + 1) % 2 ^ 64)
  | eventId :: rest => ({ m with _freeEventIds := rest }, eventId)

/-- The member `CalendarMgr::FreeInviteId` (lines 341-347). -/
def FreeInviteId (m : CalendarMgr) (id : Nat) : CalendarMgr :=
  if id = m._maxInviteId then { m with _maxInviteId := (m._maxInviteId + (2 ^ 64 - 1)) % 2 ^ 64 }
  else { m with _freeInviteIds := m._freeInviteIds ++ [id] }

/-- The member `CalendarMgr::GetFreeInviteId` (lines 349-357). -/
def GetFreeInviteId (m : CalendarMgr) : CalendarMgr × Nat :=
  match m._freeInviteIds with
  | [] => ({ m with _maxInviteId := (m._maxInviteId + 1) % 2 ^ 64 }, (m._maxInviteId + 1) % 2 ^ 64)
  | inviteId :: rest => ({ m with _freeInviteIds := rest }, inviteId)

end CalendarMgr

/-- A call on the id bookkeeping of the calendar. -/
inductive CalOp where
  | getEvent
  | freeEvent (id : Nat)
  | getInvite
  | freeInvite (id : Nat)
deriving DecidableEq, Repr

/-- The manager together with the ids that are issued and not yet freed. -/
structure CalState where
  mgr : CalendarMgr
  events : List Nat
  invites : List Nat
deriving DecidableEq, Repr

/-- One call; `none` when it frees an id that is not currently issued. -/
def calStep (st : CalState) : CalOp → Option CalState
  | CalOp.getEvent =>
      some { st with mgr := st.mgr.GetFreeEventId.1, events := st.mgr.GetFreeEventId.2 :: st.events }
  | CalOp.freeEvent id =>
      if id ∈ st.events then
        some { st with mgr := st.mgr.FreeEventId id, events := st.events.erase id }
      else none
  | CalOp.getInvite =>
      some { st with mgr := st.mgr.GetFreeInviteId.1
                     invites := st.mgr.GetFreeInviteId.2 :: st.invites }
  | CalOp.freeInvite id =>
      if id ∈ st.invites then
        some { st with mgr := st.mgr.FreeInviteId id, invites := st.invites.erase id }
      else none

/-- A sequence of calls, in order; `none` when one of them frees an id that is not
currently issued. -/
def calRun : CalState → List CalOp → Option CalState
  | st, [] => some st
  | st, op :: ops =>
      match calStep st op with
      | none => none
      | some st1 => calRun st1 ops

/-- What holds of one pool of ids, with counter `max`, free list `free` and the ids `issued`
that are handed out and not yet freed: no id is listed twice, none is both issued and free,
and the ids issued or free are exactly `1 .. max`. -/
def idPoolInv (max : Nat) (free issued : List Nat) : Prop :=
  issued.Nodup ∧ free.Nodup ∧ (∀ x ∈ issued, x ∉ free) ∧
  ∀ x, (x ∈ issued ∨ x ∈ free) ↔ (1 ≤ x ∧ x ≤ max)

/-- What holds of the calendar bookkeeping after at most `n` calls: both pools are in
order and neither counter is above `n`. -/
def CalState.inv (st : CalState) (n : Nat) : Prop :=
  idPoolInv st.mgr._maxEventId st.mgr._freeEventIds st.events ∧ st.mgr._maxEventId ≤ n ∧
  idPoolInv st.mgr._maxInviteId st.mgr._freeInviteIds st.invites ∧ st.mgr._maxInviteId ≤ n

/-! # Theorems -/

/-! ## Byte arithmetic -/

theorem and_ff_eq_mod (x : Nat) : 0xFF &&& x = x % 256 := by
  rw [Nat.and_comm]
  exact Nat.and_pow_two_sub_one_eq_mod x 8

theorem shr8_eq_div (x : Nat) : x >>> 8 = x / 256 := by
  rw [Nat.shiftRight_eq_div_pow]

theorem shr16_eq_div (x : Nat) : x >>> 16 = x / 65536 := by
  rw [Nat.shiftRight_eq_div_pow]

set_option maxRecDepth 100000 in
theorem flag_or_and_7f : ∀ y : Nat, y < 256 → (0x80 ||| y) &&& 0x7F = y % 128 := by
  decide

set_option maxRecDepth 100000 in
theorem flag_or_and_80 : ∀ y : Nat, y < 256 → (0x80 ||| y) &&& 0x80 = 0x80 := by
  decide

theorem and_80_small : ∀ y : Nat, y < 128 → y &&& 0x80 = 0 := by
  decide

/-! ## Server header: layout and decoding -/

/-- The header list of a `ServerPktHeader` has exactly `getHeaderLength` entries. -/
theorem ServerPktHeader.header_length (size cmd : Nat) :
    (ServerPktHeader.new size cmd).header.length =
      (ServerPktHeader.new size cmd).getHeaderLength := by
  unfold ServerPktHeader.getHeaderLength ServerPktHeader.isLargePacket ServerPktHeader.new
  by_cases h : ServerPktHeader.isLargePacketSize (size % 4294967296) = true <;> simp [h]

/-- C5: for a payload of `p` bytes and a 16-bit opcode `c` (`p + 2` fitting the `uint32`
parameter), `SendPacket` builds a header of declared size `p + 2`; up to `0x7FFF` it is the
4 bytes `[size >> 8, size & 0xFF, c & 0xFF, c >> 8]`, above it is the 5 bytes
`[0x80 | ((size >> 16) & 0xFF), (size >> 8) & 0xFF, size & 0xFF, c & 0xFF, c >> 8]`, and
`getHeaderLength` is 4 and 5 respectively. -/
theorem sendPacketHeader_layout (p c : Nat) (hp : p + 2 < 2 ^ 32) (hc : c < 2 ^ 16) :
    (sendPacketHeader p c).size = p + 2 ∧
    (p + 2 ≤ 0x7FFF →
      (sendPacketHeader p c).header =
        [(p + 2) >>> 8, (p + 2) &&& 0xFF, c &&& 0xFF, c >>> 8] ∧
      (sendPacketHeader p c).getHeaderLength = 4) ∧
    (p + 2 > 0x7FFF →
      (sendPacketHeader p c).header =
        [0x80 ||| (((p + 2) >>> 16) &&& 0xFF), ((p + 2) >>> 8) &&& 0xFF, (p + 2) &&& 0xFF,
          c &&& 0xFF, c >>> 8] ∧
      (sendPacketHeader p c).getHeaderLength = 5) := by
  have hsz : (p + 2) % 4294967296 = p + 2 := Nat.mod_eq_of_lt hp
  have hcm : c % 65536 = c := Nat.mod_eq_of_lt hc
  have hc8 : 0xFF &&& (c >>> 8) = c >>> 8 := by
    rw [and_ff_eq_mod, shr8_eq_div]
    apply Nat.mod_eq_of_lt
    norm_num at hc
    omega
  refine ⟨?_, ?_, ?_⟩
  · simp [sendPacketHeader, ServerPktHeader.new, hsz]
  · intro hsmall
    have hnl : ServerPktHeader.isLargePacketSize (p + 2) = false := by
      simp [ServerPktHeader.isLargePacketSize]; omega
    have hs8 : 0xFF &&& ((p + 2) >>> 8) = (p + 2) >>> 8 := by
      rw [and_ff_eq_mod, shr8_eq_div]
      apply Nat.mod_eq_of_lt
      omega
    constructor
    · simp [sendPacketHeader, ServerPktHeader.new, hsz, hcm, hnl, hc8, hs8, Nat.and_comm 255]
    · simp [sendPacketHeader, ServerPktHeader.getHeaderLength, ServerPktHeader.isLargePacket,
        ServerPktHeader.new, hsz, hnl]
  · intro hlarge
    have hl : ServerPktHeader.isLargePacketSize (p + 2) = true := by
      simp [ServerPktHeader.isLargePacketSize]; omega
    constructor
    · simp [sendPacketHeader, ServerPktHeader.new, hsz, hcm, hl, hc8, Nat.and_comm 255]
    · simp [sendPacketHeader, ServerPktHeader.getHeaderLength, ServerPktHeader.isLargePacket,
        ServerPktHeader.new, hsz, hl]

/-- Witness of C5 at a payload of 3 bytes and opcode `0x1EE`. -/
theorem sendPacketHeader_layout_witness :
    (sendPacketHeader 3 0x1EE).size = 3 + 2 ∧
    (3 + 2 ≤ 0x7FFF →
      (sendPacketHeader 3 0x1EE).header =
        [(3 + 2) >>> 8, (3 + 2) &&& 0xFF, 0x1EE &&& 0xFF, 0x1EE >>> 8] ∧
      (sendPacketHeader 3 0x1EE).getHeaderLength = 4) ∧
    (3 + 2 > 0x7FFF →
      (sendPacketHeader 3 0x1EE).header =
        [0x80 ||| (((3 + 2) >>> 16) &&& 0xFF), ((3 + 2) >>> 8) &&& 0xFF, (3 + 2) &&& 0xFF,
          0x1EE &&& 0xFF, 0x1EE >>> 8] ∧
      (sendPacketHeader 3 0x1EE).getHeaderLength = 5) :=
  sendPacketHeader_layout 3 0x1EE (by decide) (by decide)

/-- The header bytes of a small packet, in terms of division and remainder. -/
theorem ServerPktHeader.header_small (size cmd : Nat) (hs : size ≤ 0x7FFF) :
    (ServerPktHeader.new size cmd).header =
      [size / 256, size % 256, cmd % 65536 % 256, cmd % 65536 / 256 % 256] := by
  have hsz : size % 4294967296 = size := Nat.mod_eq_of_lt (by omega)
  have hnl : ServerPktHeader.isLargePacketSize size = false := by
    simp [ServerPktHeader.isLargePacketSize]; omega
  have h8 : size / 256 % 256 = size / 256 := Nat.mod_eq_of_lt (by omega)
  simp [ServerPktHeader.new, hsz, hnl, and_ff_eq_mod, shr8_eq_div, h8]

/-- The header bytes of a large packet, in terms of division and remainder. -/
theorem ServerPktHeader.header_large (size cmd : Nat) (hs : 0x7FFF < size)
    (h32 : size < 2 ^ 32) :
    (ServerPktHeader.new size cmd).header =
      [0x80 ||| (size / 65536 % 256), size / 256 % 256, size % 256,
        cmd % 65536 % 256, cmd % 65536 / 256 % 256] := by
  have hsz : size % 4294967296 = size := Nat.mod_eq_of_lt h32
  have hl : ServerPktHeader.isLargePacketSize size = true := by
    simp [ServerPktHeader.isLargePacketSize]; omega
  simp [ServerPktHeader.new, hsz, hl, and_ff_eq_mod, shr8_eq_div, shr16_eq_div]

/-- C6: for a payload of `n ≤ 0x7FFF` bytes and a 16-bit opcode, the header `SendPacket`
builds is read back by the client-side reading of the format as the same `(n, opcode)`. -/
theorem server_header_roundtrip (n c : Nat) (hn : n ≤ 0x7FFF) (hc : c < 2 ^ 16) :
    clientReadServerHeader (sendPacketHeader n c).header = some (n, c) := by
  have hcm : c % 65536 = c := Nat.mod_eq_of_lt hc
  by_cases hs : n + 2 ≤ 0x7FFF
  · have hb : (n + 2) / 256 < 128 := by omega
    rw [sendPacketHeader, ServerPktHeader.header_small _ _ hs]
    simp only [clientReadServerHeader, and_80_small _ hb, hcm, if_true]
    congr 2 <;> omega
  · have hlt : (n + 2) / 65536 % 256 < 256 := Nat.mod_lt _ (by decide)
    have hz : (n + 2) / 65536 % 256 % 128 = 0 := by omega
    rw [sendPacketHeader, ServerPktHeader.header_large _ _ (by omega) (by omega)]
    simp only [clientReadServerHeader, flag_or_and_80 _ hlt, flag_or_and_7f _ hlt, hcm, hz]
    simp only [ne_eq, OfNat.ofNat_ne_zero, not_false_eq_true, if_true]
    congr 2 <;> omega

/-- Witness of C6 at the largest payload it covers, `0x7FFF` bytes. -/
theorem server_header_roundtrip_witness :
    clientReadServerHeader (sendPacketHeader 0x7FFF 0x1DD).header = some (0x7FFF, 0x1DD) :=
  server_header_roundtrip 0x7FFF 0x1DD (by decide) (by decide)

/-- C7, as stated, fails at `n = 0x800000`: the header keeps only 23 size bits, so the
size read back is `0`. -/
theorem large_header_roundtrip_fails :
    0x7FFF < 0x800000 ∧ 0x800000 < 2 ^ 32 ∧
      readLargeSize (ServerPktHeader.new 0x800000 0).header ≠ 0x800000 := by
  decide

/-- C7, amended: for every `uint32` size `n > 0x7FFF` the header is 5 bytes long and its
first byte has the flag bit `0x80`; the 23 size bits read back give `n` modulo `2 ^ 23`,
which is `n` itself when `n < 0x800000`. -/
theorem large_header_roundtrip (n cmd : Nat) (hn : 0x7FFF < n) (h32 : n < 2 ^ 32) :
    (ServerPktHeader.new n cmd).header.length = 5 ∧
    (ServerPktHeader.new n cmd).getHeaderLength = 5 ∧
    (ServerPktHeader.new n cmd).header.getD 0 0 &&& 0x80 = 0x80 ∧
    readLargeSize (ServerPktHeader.new n cmd).header = n % 2 ^ 23 ∧
    (n < 0x800000 → readLargeSize (ServerPktHeader.new n cmd).header = n) := by
  have hlt : n / 65536 % 256 < 256 := Nat.mod_lt _ (by decide)
  have hlen : (ServerPktHeader.new n cmd).header.length = 5 := by
    rw [ServerPktHeader.header_large _ _ hn h32]; rfl
  have hrd : readLargeSize (ServerPktHeader.new n cmd).header = n % 2 ^ 23 := by
    rw [ServerPktHeader.header_large _ _ hn h32]
    simp only [readLargeSize, List.getD_cons_zero, List.getD_cons_succ, flag_or_and_7f _ hlt]
    omega
  refine ⟨hlen, ?_, ?_, hrd, ?_⟩
  · rw [← ServerPktHeader.header_length, hlen]
  · rw [ServerPktHeader.header_large _ _ hn h32]
    simp only [List.getD_cons_zero, flag_or_and_80 _ hlt]
  · intro h23
    rw [hrd]
    exact Nat.mod_eq_of_lt h23

/-- Witness of the amended C7 at the smallest large size, `0x8000`. -/
theorem large_header_roundtrip_witness :
    (ServerPktHeader.new 0x8000 0x1DD).header.length = 5 ∧
    (ServerPktHeader.new 0x8000 0x1DD).getHeaderLength = 5 ∧
    (ServerPktHeader.new 0x8000 0x1DD).header.getD 0 0 &&& 0x80 = 0x80 ∧
    readLargeSize (ServerPktHeader.new 0x8000 0x1DD).header = 0x8000 % 2 ^ 23 ∧
    (0x8000 < 0x800000 → readLargeSize (ServerPktHeader.new 0x8000 0x1DD).header = 0x8000) :=
  large_header_roundtrip 0x8000 0x1DD (by decide) (by decide)

/-! ## Client header decoding -/

theorem headerRejected_iff (size cmd : Nat) :
    headerRejected size cmd = true ↔ (size < 4 ∨ size > 10240 ∨ cmd > 10240) := by
  simp [headerRejected, or_assoc]

/-- C3: when the entry assertions of `handle_input_header` hold (no packet pending, six
header bytes, no free space in the payload block), it returns `-1` with `errno = EINVAL`
and no packet allocated exactly when the decoded size is below 4 or above 10240 or the
decoded opcode is above 10240; in every other case it returns `0` with a packet. -/
theorem handle_input_header_fails_iff {σ : Type} (alg : CipherAlg σ) (s : WorldSocket σ)
    (h1 : s.m_RecvWPct = none) (h2 : s.m_Header.length = 6) (h3 : s.m_RecvPct.space = 0) :
    ((∃ s', WorldSocket.handle_input_header alg s = .ok (s', -1) ∧ s'.errno = Errno.EINVAL ∧
          s'.m_RecvWPct = none) ↔
      (headerSize (WorldSocket.decryptHeader alg s.m_Crypt (s.m_Header.unsent.take 6)).2 < 4 ∨
       headerSize (WorldSocket.decryptHeader alg s.m_Crypt (s.m_Header.unsent.take 6)).2 > 10240 ∨
       headerCmd (WorldSocket.decryptHeader alg s.m_Crypt (s.m_Header.unsent.take 6)).2 > 10240)) ∧
    (¬ (headerSize (WorldSocket.decryptHeader alg s.m_Crypt (s.m_Header.unsent.take 6)).2 < 4 ∨
        headerSize (WorldSocket.decryptHeader alg s.m_Crypt (s.m_Header.unsent.take 6)).2 > 10240 ∨
        headerCmd (WorldSocket.decryptHeader alg s.m_Crypt (s.m_Header.unsent.take 6)).2 > 10240) →
      ∃ s', WorldSocket.handle_input_header alg s = .ok (s', 0) ∧ s'.m_RecvWPct.isSome = true) := by
  rw [← headerRejected_iff]
  by_cases hr : headerRejected
      (headerSize (WorldSocket.decryptHeader alg s.m_Crypt (s.m_Header.unsent.take 6)).2)
      (headerCmd (WorldSocket.decryptHeader alg s.m_Crypt (s.m_Header.unsent.take 6)).2) = true
  · refine ⟨⟨fun _ => hr, fun _ => ?_⟩, fun h => absurd hr h⟩
    simp [WorldSocket.handle_input_header, h1, h2, hr]
  · refine ⟨⟨?_, fun h => absurd h hr⟩, fun _ => ?_⟩
    · rintro ⟨s', hs', -, -⟩
      exfalso
      simp only [WorldSocket.handle_input_header, h1, h2, hr] at hs'
      simp at hs'
      split at hs'
      · simp at hs'
      · simp [h3] at hs'
    · simp only [WorldSocket.handle_input_header, h1, h2, hr]
      simp
      split
      · simp
      · simp [h3]

/-- Witness of C3: the sample connection holding the header `00 04 DC 01 00 00`, which is
accepted. -/
theorem handle_input_header_fails_iff_witness :
    sampleHeaderSocket.m_RecvWPct = none ∧ sampleHeaderSocket.m_Header.length = 6 ∧
    sampleHeaderSocket.m_RecvPct.space = 0 ∧
    ∃ s', WorldSocket.handle_input_header sampleCipher sampleHeaderSocket = .ok (s', 0) ∧
      s'.m_RecvWPct.isSome = true :=
  ⟨rfl, by decide, by decide,
    (handle_input_header_fails_iff sampleCipher sampleHeaderSocket rfl (by decide)
      (by decide)).2 (by decide)⟩

theorem headerSize_bytes (b0 b1 : Nat) (rest : List Nat) (h0 : b0 < 256) (h1 : b1 < 256) :
    headerSize (b0 :: b1 :: rest) = 256 * b0 + b1 := by
  have e1 : (b0 + 256 * b1) % 65536 = b0 + 256 * b1 := Nat.mod_eq_of_lt (by omega)
  have e2 : (b0 + 256 * b1) % 256 = b0 := by omega
  have e3 : (b0 + 256 * b1) / 256 = b1 := by omega
  simp only [headerSize, EndianConvertReverse, loadU16, List.getD_cons_zero, List.getD_cons_succ,
    Nat.reducePow, e1, e2, e3]
  omega

theorem headerCmd_bytes (b0 b1 b2 b3 b4 b5 : Nat) (h2 : b2 < 256) (h3 : b3 < 256)
    (h4 : b4 < 256) (h5 : b5 < 256) :
    headerCmd [b0, b1, b2, b3, b4, b5] = b2 + 256 * b3 + 65536 * b4 + 16777216 * b5 := by
  simp only [headerCmd, EndianConvert, loadU32, List.getD_cons_zero, List.getD_cons_succ,
    Nat.reducePow]
  omega

/-- C4: with no cipher, for six header bytes `b0..b5` that pass the validation of line 478,
`handle_input_header` reads the size as `256*b0 + b1` and the opcode as
`b2 + 256*b3 + 65536*b4 + 16777216*b5`, and creates a packet with exactly that opcode and
with a payload of size minus 4 bytes. -/
theorem handle_input_header_decodes {σ : Type} (alg : CipherAlg σ) (s : WorldSocket σ)
    (b0 b1 b2 b3 b4 b5 : Nat)
    (hb : b0 < 256 ∧ b1 < 256 ∧ b2 < 256 ∧ b3 < 256 ∧ b4 < 256 ∧ b5 < 256)
    (hc : s.m_Crypt = none) (h1 : s.m_RecvWPct = none)
    (hh : s.m_Header.unsent = [b0, b1, b2, b3, b4, b5]) (h3 : s.m_RecvPct.space = 0)
    (hv : ¬ (256 * b0 + b1 < 4 ∨ 256 * b0 + b1 > 10240 ∨
             b2 + 256 * b3 + 65536 * b4 + 16777216 * b5 > 10240)) :
    headerSize [b0, b1, b2, b3, b4, b5] = 256 * b0 + b1 ∧
    headerCmd [b0, b1, b2, b3, b4, b5] = b2 + 256 * b3 + 65536 * b4 + 16777216 * b5 ∧
    ∃ s' pkt, WorldSocket.handle_input_header alg s = .ok (s', 0) ∧
      s'.m_RecvWPct = some pkt ∧
      pkt.opcode = b2 + 256 * b3 + 65536 * b4 + 16777216 * b5 ∧
      pkt.data.length = 256 * b0 + b1 - 4 := by
  obtain ⟨h0, hb1, hb2, hb3, hb4, hb5⟩ := hb
  have hsize := headerSize_bytes b0 b1 [b2, b3, b4, b5] h0 hb1
  have hcmd := headerCmd_bytes b0 b1 b2 b3 b4 b5 hb2 hb3 hb4 hb5
  refine ⟨hsize, hcmd, ?_⟩
  have hlen : s.m_Header.length = 6 := by
    have := congrArg List.length hh
    simpa [MsgBlock.unsent, MsgBlock.length] using this
  have hrej : headerRejected (256 * b0 + b1)
      (b2 + 256 * b3 + 65536 * b4 + 16777216 * b5) = false := by
    rw [Bool.eq_false_iff, Ne, headerRejected_iff]
    exact hv
  have hop : (b2 + 256 * b3 + 65536 * b4 + 16777216 * b5) % 65536 =
      b2 + 256 * b3 + 65536 * b4 + 16777216 * b5 := by
    apply Nat.mod_eq_of_lt
    omega
  cases hres : WorldSocket.handle_input_header alg s with
  | error f =>
      exfalso
      by_cases hz : 256 * b0 + b1 - 4 > 0
      · simp [WorldSocket.handle_input_header, WorldSocket.decryptHeader, h1, hlen, hc, hh,
          hsize, hcmd, hrej, hz] at hres
      · simp [WorldSocket.handle_input_header, WorldSocket.decryptHeader, h1, hlen, hc, hh,
          hsize, hcmd, hrej, hz, h3] at hres
  | ok r =>
      by_cases hz : 256 * b0 + b1 - 4 > 0
      · simp [WorldSocket.handle_input_header, WorldSocket.decryptHeader, h1, hlen, hc, hh,
          hsize, hcmd, hrej, hz, hop] at hres
        subst hres
        exact ⟨_, _, rfl, rfl, rfl, by simp⟩
      · simp [WorldSocket.handle_input_header, WorldSocket.decryptHeader, h1, hlen, hc, hh,
          hsize, hcmd, hrej, hz, hop, h3] at hres
        subst hres
        exact ⟨_, _, rfl, rfl, rfl, by simp; omega⟩

/-- Witness of C4: the header `00 04 DC 01 00 00` on the sample connection. -/
theorem handle_input_header_decodes_witness :
    headerSize [0, 4, 0xDC, 1, 0, 0] = 256 * 0 + 4 ∧
    headerCmd [0, 4, 0xDC, 1, 0, 0] = 0xDC + 256 * 1 + 65536 * 0 + 16777216 * 0 ∧
    ∃ s' pkt, WorldSocket.handle_input_header sampleCipher sampleHeaderSocket = .ok (s', 0) ∧
      s'.m_RecvWPct = some pkt ∧
      pkt.opcode = 0xDC + 256 * 1 + 65536 * 0 + 16777216 * 0 ∧
      pkt.data.length = 256 * 0 + 4 - 4 :=
  handle_input_header_decodes sampleCipher sampleHeaderSocket 0 4 0xDC 1 0 0 (by decide) rfl rfl
    rfl (by decide) (by decide)

/-! ## Dispatch without a session -/

/-- C8, as stated, fails for `CMSG_KEEP_ALIVE`: on the sample connection, which has no
session, `ProcessIncoming` returns `0` for it. -/
theorem keep_alive_without_session_returns_zero :
    sampleSocket.m_Session = none ∧ CMSG_KEEP_ALIVE ≠ CMSG_AUTH_SESSION ∧
    CMSG_KEEP_ALIVE ≠ CMSG_PING ∧
    ∃ s', WorldSocket.ProcessIncoming sampleCipher sampleWorld sampleSocket
            { opcode := CMSG_KEEP_ALIVE, data := [] } = .ok (s', 0) ∧
      (0 : Int) ≠ -1 :=
  ⟨rfl, by decide, by decide, _, rfl, by decide⟩

/-- C8, amended: with no session attached, `ProcessIncoming` returns `-1` and leaves the
socket as it was (so no packet reaches a session queue) for every opcode other than
`CMSG_AUTH_SESSION`, `CMSG_PING` and `CMSG_KEEP_ALIVE`; for `CMSG_KEEP_ALIVE` it also leaves
the socket as it was, and returns `0` unless the socket is closing. -/
theorem ProcessIncoming_without_session {σ : Type} (alg : CipherAlg σ) (w : World)
    (s : WorldSocket σ) (pkt : WorldPacket) (hs : s.m_Session = none)
    (ha : pkt.opcode ≠ CMSG_AUTH_SESSION) (hp : pkt.opcode ≠ CMSG_PING) :
    (pkt.opcode ≠ CMSG_KEEP_ALIVE →
      WorldSocket.ProcessIncoming alg w s pkt = .ok (s, -1)) ∧
    (pkt.opcode = CMSG_KEEP_ALIVE →
      WorldSocket.ProcessIncoming alg w s pkt = .ok (s, if s.closing_ then -1 else 0)) := by
  cases s
  simp only at hs
  subst hs
  constructor
  · intro hk
    simp [WorldSocket.ProcessIncoming, ha, hp, hk]
  · intro hk
    simp only [WorldSocket.ProcessIncoming, ha, hp, hk, if_true, if_false, Option.map_none']
    split <;> rfl

/-- Witness of the amended C8: opcode `0x100` on the sample connection. -/
theorem ProcessIncoming_without_session_witness :
    sampleSocket.m_Session = none ∧ (0x100 : Nat) ≠ CMSG_AUTH_SESSION ∧ (0x100 : Nat) ≠ CMSG_PING ∧
    ((0x100 : Nat) ≠ CMSG_KEEP_ALIVE →
      WorldSocket.ProcessIncoming sampleCipher sampleWorld sampleSocket
        { opcode := 0x100, data := [1, 2] } = .ok (sampleSocket, -1)) :=
  ⟨rfl, by decide, by decide,
    (ProcessIncoming_without_session sampleCipher sampleWorld sampleSocket
      { opcode := 0x100, data := [1, 2] } rfl (by decide) (by decide)).1⟩

/-! ## `SendPacket` in closed form -/

theorem CipherAlg.update_length {σ : Type} (alg : CipherAlg σ) (st : σ) (l : List Nat) :
    (alg.update st l).2.length = l.length := by
  induction l generalizing st with
  | nil => rfl
  | cons b bs ih => simp [CipherAlg.update, ih]

theorem WorldSocket.sendHeaderBytes_length {σ : Type} (alg : CipherAlg σ)
    (c : Option (AuthCrypt σ)) (pct : WorldPacket) :
    (WorldSocket.sendHeaderBytes alg c pct).2.length =
      (sendPacketHeader pct.data.length pct.opcode).getHeaderLength := by
  have hl := ServerPktHeader.header_length (pct.data.length + 2) pct.opcode
  cases c with
  | none => simp [WorldSocket.sendHeaderBytes, sendPacketHeader, hl]
  | some c =>
      simp [WorldSocket.sendHeaderBytes, AuthCrypt.EncryptSend, CipherAlg.update_length,
        sendPacketHeader, hl]

theorem WorldSocket.sendHeaderBytes_isSome {σ : Type} (alg : CipherAlg σ)
    (c : Option (AuthCrypt σ)) (pct : WorldPacket) :
    (WorldSocket.sendHeaderBytes alg c pct).1.isSome = c.isSome := by
  cases c <;> rfl

theorem MsgBlock.copy_of_le (b : MsgBlock) (src : List Nat) (h : src.length ≤ b.space) :
    b.copy src = some { b with data := b.data ++ src } := by
  simp [MsgBlock.copy]
  omega

/-- The four outcomes of `SendPacket`: refused because closing; appended to the direct
buffer; refused by the queue (the cipher has advanced); appended to the queue. -/
theorem WorldSocket.SendPacket_eq {σ : Type} (alg : CipherAlg σ) (s : WorldSocket σ)
    (pct : WorldPacket) :
    WorldSocket.SendPacket alg s pct = .ok
      (if s.closing_ = true then (s, -1)
       else if s.m_OutBuffer.space ≥
            pct.data.length + (sendPacketHeader pct.data.length pct.opcode).getHeaderLength
            ∧ s.msg_queue.is_empty = true then
         ({ s with
            m_Crypt := (WorldSocket.sendHeaderBytes alg s.m_Crypt pct).1
            m_OutBuffer := { s.m_OutBuffer with
              data := s.m_OutBuffer.data ++
                ((WorldSocket.sendHeaderBytes alg s.m_Crypt pct).2 ++ pct.data) } }, 0)
       else if s.msg_queue.is_full = true then
         ({ s with m_Crypt := (WorldSocket.sendHeaderBytes alg s.m_Crypt pct).1 }, -1)
       else
         ({ s with
            m_Crypt := (WorldSocket.sendHeaderBytes alg s.m_Crypt pct).1
            msg_queue := { s.msg_queue with
              blocks := s.msg_queue.blocks ++
                [{ data := (WorldSocket.sendHeaderBytes alg s.m_Crypt pct).2 ++ pct.data
                   rd := 0
                   size := pct.data.length +
                     (sendPacketHeader pct.data.length pct.opcode).getHeaderLength }] } }, 0)) := by
  have hlen := WorldSocket.sendHeaderBytes_length alg s.m_Crypt pct
  unfold WorldSocket.SendPacket
  by_cases hc : s.closing_ = true
  · simp [hc]
  · simp only [hc, if_false]
    by_cases hd : s.m_OutBuffer.space ≥
        pct.data.length + (sendPacketHeader pct.data.length pct.opcode).getHeaderLength
        ∧ s.msg_queue.is_empty = true
    · have h1 : (WorldSocket.sendHeaderBytes alg s.m_Crypt pct).2.length ≤ s.m_OutBuffer.space := by
        omega
      simp only [hd, and_self, if_true, ge_iff_le]
      rw [MsgBlock.copy_of_le _ _ h1]
      by_cases hp : pct.data = []
      · simp [hp]
      · have h2 : pct.data.length ≤ ({ s.m_OutBuffer with
            data := s.m_OutBuffer.data ++ (WorldSocket.sendHeaderBytes alg s.m_Crypt pct).2 } :
              MsgBlock).space := by
          simp only [MsgBlock.space, List.length_append] at hd ⊢
          omega
        simp only [hp, ne_eq, not_false_eq_true, if_true]
        rw [MsgBlock.copy_of_le _ _ h2]
        simp
    · simp only [hd, if_false]
      have h1 : (MsgBlock.alloc (pct.data.length +
          (sendPacketHeader pct.data.length pct.opcode).getHeaderLength)).copy
            (WorldSocket.sendHeaderBytes alg s.m_Crypt pct).2 =
          some { data := (WorldSocket.sendHeaderBytes alg s.m_Crypt pct).2, rd := 0,
                 size := pct.data.length +
                   (sendPacketHeader pct.data.length pct.opcode).getHeaderLength } := by
        rw [MsgBlock.copy_of_le]
        · simp [MsgBlock.alloc]
        · simp [MsgBlock.alloc, MsgBlock.space]; omega
      rw [h1]
      simp only [Option.getD_some]
      have h2 : (if pct.data ≠ [] then
          ((⟨(WorldSocket.sendHeaderBytes alg s.m_Crypt pct).2, 0, pct.data.length +
              (sendPacketHeader pct.data.length pct.opcode).getHeaderLength⟩ : MsgBlock).copy
                pct.data).getD
            ⟨(WorldSocket.sendHeaderBytes alg s.m_Crypt pct).2, 0, pct.data.length +
              (sendPacketHeader pct.data.length pct.opcode).getHeaderLength⟩
          else ⟨(WorldSocket.sendHeaderBytes alg s.m_Crypt pct).2, 0, pct.data.length +
              (sendPacketHeader pct.data.length pct.opcode).getHeaderLength⟩) =
          (⟨(WorldSocket.sendHeaderBytes alg s.m_Crypt pct).2 ++ pct.data, 0, pct.data.length +
              (sendPacketHeader pct.data.length pct.opcode).getHeaderLength⟩ : MsgBlock) := by
        by_cases hp : pct.data = []
        · simp [hp]
        · simp only [hp, ne_eq, not_false_eq_true, if_true]
          rw [MsgBlock.copy_of_le]
          · simp
          · simp [MsgBlock.space]; omega
      rw [h2]
      by_cases hf : s.msg_queue.is_full = true
      · simp [MsgQueue.enqueue_tail, hf]
      · simp [MsgQueue.enqueue_tail, hf]

/-- `SendPacket` always returns, and leaves the session pointer and the initialisation
state of the cipher as they were. -/
theorem WorldSocket.SendPacket_frame {σ : Type} (alg : CipherAlg σ) (s : WorldSocket σ)
    (pct : WorldPacket) :
    ∃ r, WorldSocket.SendPacket alg s pct = .ok r ∧ r.1.m_Session = s.m_Session ∧
      r.1.m_Crypt.isSome = s.m_Crypt.isSome := by
  refine ⟨_, WorldSocket.SendPacket_eq alg s pct, ?_, ?_⟩
  · split_ifs <;> rfl
  · split_ifs <;> simp [WorldSocket.sendHeaderBytes_isSome]

/-! ## Authentication failures -/

/-- C9: when the world is open, the request parses, the account exists, and the IP-lock,
client OS, ban and security checks pass, a digest different from
`SHA1(account, 00 00 00 00, clientSeed, m_Seed, sessionKey)` makes `HandleAuthSession`
send `SMSG_AUTH_RESPONSE` with status `AUTH_FAILED` and return `-1`; the session pointer
is as before (no session is attached) and the cipher is initialised only if it was before. -/
theorem HandleAuthSession_digest_mismatch {σ : Type} (alg : CipherAlg σ) (w : World)
    (s : WorldSocket σ) (pkt : WorldPacket) (f : AuthSessionFields) (row : AccountRow)
    (hopen : w.IsClosed = false)
    (hread : readAuthSession pkt.data = some f)
    (hacc : w.accountInfoByName f.account = some row)
    (hip : ¬ (row.locked % 256 = 1 ∧ row.last_ip ≠ s.m_Address))
    (hos : ¬ (w.CONFIG_WARDEN_ENABLED = true ∧ row.os ≠ "Win" ∧ row.os ≠ "OSX"))
    (hban : w.bans row.id s.m_Address = false)
    (hsec : ¬ ((match w.gmLevelByRealm row.id with
                | none => 0
                | some g => g % 256) < w.PlayerSecurityLimit))
    (hdig : w.sha1 (f.account ++ [0, 0, 0, 0] ++ f.clientSeed ++ s.m_Seed ++ row.sessionkey)
              ≠ f.digest) :
    ∃ calls s' r,
      WorldSocket.SendPacket alg { s with externalCalls := calls }
        { opcode := SMSG_AUTH_RESPONSE, data := [AUTH_FAILED] } = .ok (s', r) ∧
      WorldSocket.HandleAuthSession alg w s pkt = .ok (Handled.returned s' (-1)) ∧
      s'.m_Session = s.m_Session ∧ s'.m_Crypt.isSome = s.m_Crypt.isSome := by
  obtain ⟨r, hr, hsess, hcr⟩ := WorldSocket.SendPacket_frame alg
    { s with externalCalls :=
        if row.mutetime < 0 then
          (s.externalCalls ++ [ExternalCall.UpdLastAttemptIp s.m_Address f.account]) ++
            [ExternalCall.UpdMuteTimeLogin (w.time + |row.mutetime|) row.id]
        else s.externalCalls ++ [ExternalCall.UpdLastAttemptIp s.m_Address f.account] }
    { opcode := SMSG_AUTH_RESPONSE, data := [AUTH_FAILED] }
  refine ⟨_, r.1, r.2, hr, ?_, hsess, hcr⟩
  unfold WorldSocket.HandleAuthSession
  simp only [hopen, hread, hacc, hip, hos, hban, hsec, WorldSocket.expectedDigest,
    Bool.false_eq_true, if_false]
  by_cases hm : row.mutetime < 0
  · simp only [hm, if_true] at hr ⊢
    simp only [List.append_assoc, List.cons_append, List.nil_append, List.singleton_append]
      at hr hdig ⊢
    simp [hdig, WorldSocket.replyAndFail, WorldSocket.authResponse, hr]
  · simp only [hm, if_false] at hr ⊢
    simp only [List.append_assoc, List.cons_append, List.nil_append, List.singleton_append]
      at hr hdig ⊢
    simp [hdig, WorldSocket.replyAndFail, WorldSocket.authResponse, hr]

/-- Witness of C9: the sample request with an all-zero digest. -/
theorem HandleAuthSession_digest_mismatch_witness :
    sampleWorld.IsClosed = false ∧
    readAuthSession (sampleAuthRequest 1 (List.replicate 20 0)).data =
      some (sampleAuthFields 1 (List.replicate 20 0)) ∧
    sampleWorld.sha1 ([97] ++ [0, 0, 0, 0] ++ [9, 9, 9, 9] ++ sampleSocket.m_Seed ++
      sampleRow.sessionkey) ≠ List.replicate 20 0 ∧
    ∃ calls s' r,
      WorldSocket.SendPacket sampleCipher { sampleSocket with externalCalls := calls }
        { opcode := SMSG_AUTH_RESPONSE, data := [AUTH_FAILED] } = .ok (s', r) ∧
      WorldSocket.HandleAuthSession sampleCipher sampleWorld sampleSocket
        (sampleAuthRequest 1 (List.replicate 20 0)) = .ok (Handled.returned s' (-1)) ∧
      s'.m_Session = sampleSocket.m_Session ∧
      s'.m_Crypt.isSome = sampleSocket.m_Crypt.isSome :=
  ⟨rfl, by decide, by decide,
    HandleAuthSession_digest_mismatch sampleCipher sampleWorld sampleSocket
      (sampleAuthRequest 1 (List.replicate 20 0)) (sampleAuthFields 1 (List.replicate 20 0))
      sampleRow rfl (by decide) (by decide) (by decide) (by decide) (by decide) (by decide)
      (by decide)⟩

/-- A failure path of `HandleAuthSession` ends with `-1`, the session pointer and the
initialisation state of the cipher being those of the state the reply was sent from. -/
theorem WorldSocket.replyAndFail_frame {σ : Type} (alg : CipherAlg σ) (s : WorldSocket σ)
    (pkt : WorldPacket) (after : List ExternalCall) :
    ∃ s', WorldSocket.replyAndFail alg s pkt after = .ok (Handled.returned s' (-1)) ∧
      s'.m_Session = s.m_Session ∧ s'.m_Crypt.isSome = s.m_Crypt.isSome := by
  obtain ⟨r, hr, hs, hc⟩ := WorldSocket.SendPacket_frame alg s pkt
  refine ⟨{ r.1 with externalCalls := r.1.externalCalls ++ after }, ?_, hs, hc⟩
  simp only [WorldSocket.replyAndFail, hr]

/-- C10, as stated, fails on the realm-mismatch path: the sample request carries the right
digest but asks for realm 2 on a server whose realm is 1; `HandleAuthSession` returns `-1`
with a session attached and the cipher initialised, on a connection that had neither. -/
theorem realm_mismatch_leaves_session_and_cipher :
    sampleSocket.m_Session = none ∧ sampleSocket.m_Crypt.isSome = false ∧
    ∃ s', WorldSocket.HandleAuthSession sampleCipher sampleWorld sampleSocket
            (sampleAuthRequest 2 (List.replicate 20 149)) = .ok (Handled.returned s' (-1)) ∧
      s'.m_Session.isSome = true ∧ s'.m_Crypt.isSome = true :=
  ⟨rfl, rfl, _, rfl, rfl, rfl⟩

/-! ## Outbound byte order -/

theorem MsgBlock.unsent_eq_nil_of_length_zero (b : MsgBlock) (h : b.length = 0) :
    b.unsent = [] := by
  simp only [MsgBlock.length] at h
  simp only [MsgBlock.unsent, List.drop_eq_nil_iff]
  omega

theorem MsgBlock.unsent_length (b : MsgBlock) : b.unsent.length = b.length := by
  simp [MsgBlock.unsent, MsgBlock.length]

theorem MsgBlock.take_length_unsent (b : MsgBlock) : b.unsent.take b.length = b.unsent := by
  rw [← MsgBlock.unsent_length]
  exact List.take_length _

theorem MsgBlock.unsent_rd_ptr (b : MsgBlock) (n : Nat) :
    (b.rd_ptr n).unsent = b.unsent.drop n := by
  simp [MsgBlock.unsent, MsgBlock.rd_ptr, List.drop_drop, Nat.add_comm]

theorem MsgBlock.unsent_crunch (b : MsgBlock) : b.crunch.unsent = b.unsent := by
  unfold MsgBlock.crunch
  split_ifs with h1 h2
  · rfl
  · simp [MsgBlock.unsent]
  · rfl

theorem MsgBlock.rd_crunch_le (b : MsgBlock) (h : b.rd ≤ b.data.length) :
    b.crunch.rd ≤ b.crunch.data.length := by
  unfold MsgBlock.crunch
  split_ifs with h1 h2
  · exact h
  · simp
  · exact h

/-- The answer of the operating system that has room for `r > 0` bytes: the first
`min r len` bytes are taken. -/
theorem WorldSocket.peerSend_room {σ : Type} (s : WorldSocket σ) (buf : List Nat) (r : Nat)
    (hr : r ≠ 0) :
    WorldSocket.peerSend s buf (SendAnswer.room r) =
      ({ s with peer := { s.peer with sent := s.peer.sent ++ buf.take (min r buf.length) } },
        ((min r buf.length : Nat) : Int)) := by
  simp [WorldSocket.peerSend, hr]

theorem WorldSocket.peerSend_noroom {σ : Type} (s : WorldSocket σ) (buf : List Nat) :
    WorldSocket.peerSend s buf (SendAnswer.room 0) =
      ({ s with errno := Errno.EWOULDBLOCK }, -1) := by
  simp [WorldSocket.peerSend]

/-- A write-ready event at the queue stage, answered with room for `r` bytes, moves bytes
from the head of the queue to the peer and nothing else, as long as the queue takes the
head block back (`headRoom`). -/
theorem WorldSocket.handle_output_queue_wire {σ : Type} (s : WorldSocket σ) (r : Nat)
    (h : WorldSocket.headRoom s = true) :
    (WorldSocket.handle_output_queue s (SendAnswer.room r)).1.peer.sent ++
        ((WorldSocket.handle_output_queue s (SendAnswer.room r)).1.msg_queue.blocks.map
          MsgBlock.unsent).flatten =
      s.peer.sent ++ (s.msg_queue.blocks.map MsgBlock.unsent).flatten ∧
    (WorldSocket.handle_output_queue s (SendAnswer.room r)).1.m_OutBuffer = s.m_OutBuffer := by
  unfold WorldSocket.handle_output_queue
  rcases hb : s.msg_queue.blocks with _ | ⟨mb, rest⟩
  · have he : s.msg_queue.is_empty = true := by simp [MsgQueue.is_empty, hb]
    simp only [he, if_true, WorldSocket.cancel_wakeup_output]
    split <;> simp [hb]
  · have he : s.msg_queue.is_empty = false := by simp [MsgQueue.is_empty, hb]
    have hd : s.msg_queue.dequeue_head = some (mb, { s.msg_queue with blocks := rest }) := by
      simp [MsgQueue.dequeue_head, hb]
    have hfull : ({ s.msg_queue with blocks := rest } : MsgQueue).is_full = false := by
      simpa [WorldSocket.headRoom, hd] using h
    simp only [he, hd, Bool.false_eq_true, if_false, MsgBlock.take_length_unsent]
    by_cases hr : r = 0
    · subst hr
      rw [WorldSocket.peerSend_noroom]
      simp [WorldSocket.wouldBlock, MsgQueue.enqueue_head, hfull,
        WorldSocket.schedule_wakeup_output]
      split <;> simp
    · rw [WorldSocket.peerSend_room _ _ _ hr]
      have hlen := MsgBlock.unsent_length mb
      have hmin : min r mb.unsent.length ≤ mb.length := by omega
      have hmin0 : min r mb.unsent.length = 0 → mb.length = 0 := by omega
      generalize min r mb.unsent.length = k at hmin hmin0 ⊢
      by_cases h0 : k = 0
      · subst h0
        have hnil := MsgBlock.unsent_eq_nil_of_length_zero mb (hmin0 rfl)
        simp [hnil]
      · have hne : ((k : Nat) : Int) ≠ 0 := by omega
        have hne1 : ((k : Nat) : Int) ≠ -1 := by omega
        simp only [hne, hne1, if_false]
        by_cases hlt : k < mb.length
        · have hlt2 : ((k : Nat) : Int) < ((mb.length : Nat) : Int) := by omega
          simp only [hlt2, if_true, Int.toNat_ofNat, MsgQueue.enqueue_head, hfull,
            Bool.false_eq_true, if_false, WorldSocket.schedule_wakeup_output]
          have htd : ∀ tail : List Nat,
              mb.unsent.take k ++ (mb.unsent.drop k ++ tail) = mb.unsent ++ tail := by
            intro tail
            rw [← List.append_assoc, List.take_append_drop]
          split <;> simp [MsgBlock.unsent_rd_ptr, htd]
        · have hlt2 : ¬ ((k : Nat) : Int) < ((mb.length : Nat) : Int) := by omega
          have hkk : mb.unsent.length ≤ k := by omega
          simp only [hlt2, if_false, WorldSocket.cancel_wakeup_output]
          split_ifs <;> simp [List.take_of_length_le hkk]

/-- A write-ready event answered with room for `r` and `rq` bytes moves bytes from the
front of the unsent bytes to the peer and nothing else, as long as the queue takes its
head block back; the read pointer of the direct buffer stays within the written bytes. -/
theorem WorldSocket.handle_output_wire {σ : Type} (s : WorldSocket σ) (r rq : Nat)
    (h : WorldSocket.headRoom s = true) :
    (WorldSocket.handle_output s (SendAnswer.room r) (SendAnswer.room rq)).1.peer.sent ++
        (WorldSocket.handle_output s (SendAnswer.room r) (SendAnswer.room rq)).1.pending =
      s.peer.sent ++ s.pending ∧
    (s.m_OutBuffer.rd ≤ s.m_OutBuffer.data.length →
      (WorldSocket.handle_output s (SendAnswer.room r) (SendAnswer.room rq)).1.m_OutBuffer.rd ≤
        (WorldSocket.handle_output s (SendAnswer.room r)
          (SendAnswer.room rq)).1.m_OutBuffer.data.length) := by
  unfold WorldSocket.handle_output
  by_cases hc : s.closing_ = true
  · simp [hc]
  · simp only [hc, Bool.false_eq_true, if_false]
    by_cases hz : s.m_OutBuffer.length = 0
    · obtain ⟨hw, hb⟩ := WorldSocket.handle_output_queue_wire s rq h
      have hnil := MsgBlock.unsent_eq_nil_of_length_zero _ hz
      simp only [hz, if_true, WorldSocket.pending, hb, hnil, List.nil_append]
      exact ⟨hw, fun x => x⟩
    · simp only [hz, if_false, MsgBlock.take_length_unsent]
      by_cases hr : r = 0
      · subst hr
        rw [WorldSocket.peerSend_noroom]
        by_cases ha : s.m_OutActive = true <;>
          simp [WorldSocket.wouldBlock, WorldSocket.schedule_wakeup_output, WorldSocket.pending, ha]
      · rw [WorldSocket.peerSend_room _ _ _ hr]
        have hlen := MsgBlock.unsent_length s.m_OutBuffer
        have hmin : min r s.m_OutBuffer.unsent.length ≤ s.m_OutBuffer.length := by omega
        have hmin0 : min r s.m_OutBuffer.unsent.length ≠ 0 := by omega
        generalize min r s.m_OutBuffer.unsent.length = k at hmin hmin0 ⊢
        have hne : ((k : Nat) : Int) ≠ 0 := by omega
        have hne1 : ((k : Nat) : Int) ≠ -1 := by omega
        simp only [hne, hne1, if_false]
        by_cases hlt : k < s.m_OutBuffer.length
        · have hlt2 : ((k : Nat) : Int) < ((s.m_OutBuffer.length : Nat) : Int) := by omega
          have htd : ∀ tail : List Nat,
              s.m_OutBuffer.unsent.take k ++ (s.m_OutBuffer.unsent.drop k ++ tail) =
                s.m_OutBuffer.unsent ++ tail := by
            intro tail
            rw [← List.append_assoc, List.take_append_drop]
          have hwf : (s.m_OutBuffer.rd_ptr k).rd ≤ (s.m_OutBuffer.rd_ptr k).data.length := by
            simp only [MsgBlock.rd_ptr, MsgBlock.length] at hlt ⊢
            omega
          have hwf2 := MsgBlock.rd_crunch_le _ hwf
          simp only [hlt2, if_true, Int.toNat_ofNat, WorldSocket.schedule_wakeup_output]
          split <;>
            simp [WorldSocket.pending, MsgBlock.unsent_crunch, MsgBlock.unsent_rd_ptr, htd, hwf2]
        · have hlt2 : ¬ ((k : Nat) : Int) < ((s.m_OutBuffer.length : Nat) : Int) := by omega
          have hkk : s.m_OutBuffer.unsent.length ≤ k := by omega
          simp only [hlt2, if_false]
          obtain ⟨hw, hb⟩ := WorldSocket.handle_output_queue_wire
            { s with
              peer := { s.peer with sent := s.peer.sent ++ s.m_OutBuffer.unsent.take k }
              m_OutBuffer := s.m_OutBuffer.reset } rq h
          simp only [WorldSocket.pending, hb]
          simp only [List.take_of_length_le hkk] at hw ⊢
          simp only [MsgBlock.reset, MsgBlock.unsent, List.drop_nil, List.nil_append,
            List.length_nil, Nat.le_refl, implies_true, and_true] at hw ⊢
          rw [hw]
          simp [MsgBlock.unsent]

/-- A `SendPacket` call always returns; when it returns `0` the frame of the packet is
appended to the unsent bytes, and otherwise the unsent bytes are as before. -/
theorem WorldSocket.SendPacket_wire {σ : Type} (alg : CipherAlg σ) (s : WorldSocket σ)
    (pct : WorldPacket) (hwf : s.m_OutBuffer.rd ≤ s.m_OutBuffer.data.length) :
    ∃ r, WorldSocket.SendPacket alg s pct = .ok r ∧
      r.1.peer.sent ++ r.1.pending =
        s.peer.sent ++ s.pending ++ (if r.2 = 0 then WorldSocket.frameOf alg s pct else []) ∧
      r.1.m_OutBuffer.rd ≤ r.1.m_OutBuffer.data.length := by
  refine ⟨_, WorldSocket.SendPacket_eq alg s pct, ?_, ?_⟩
  · by_cases h1 : s.closing_ = true
    · simp [h1]
    · by_cases h2 : s.m_OutBuffer.space ≥
          pct.data.length + (sendPacketHeader pct.data.length pct.opcode).getHeaderLength
          ∧ s.msg_queue.is_empty = true
      · have hb : s.msg_queue.blocks = [] := by
          have := h2.2
          simpa [MsgQueue.is_empty] using this
        simp only [h1, h2, and_self, if_true, if_false, Bool.false_eq_true]
        simp [WorldSocket.pending, WorldSocket.frameOf, MsgBlock.unsent, hb,
          List.drop_append_of_le_length hwf]
      · by_cases h3 : s.msg_queue.is_full = true
        · simp only [h1, h2, h3, if_true, if_false, Bool.false_eq_true]
          simp [WorldSocket.pending]
        · simp only [h1, h2, h3, if_true, if_false, Bool.false_eq_true]
          simp [WorldSocket.pending, WorldSocket.frameOf, MsgBlock.unsent]
  · split_ifs with h1 h2 h3
    · exact hwf
    · simp only [List.length_append]
      omega
    · exact hwf
    · exact hwf

/-- One event of the outbound side keeps the equation between the bytes at the peer, the
unsent bytes and the accepted frames. -/
theorem WorldSocket.outStep_wire {σ : Type} (alg : CipherAlg σ) (s : WorldSocket σ)
    (ev : OutEvent) (hwf : s.m_OutBuffer.rd ≤ s.m_OutBuffer.data.length)
    (hroom : WorldSocket.requeueRoom alg s [ev] = true) :
    ∃ r, WorldSocket.outStep alg s ev = .ok r ∧
      r.1.peer.sent ++ r.1.pending =
        s.peer.sent ++ s.pending ++ WorldSocket.acceptedFrames alg s [ev] ∧
      r.1.m_OutBuffer.rd ≤ r.1.m_OutBuffer.data.length := by
  cases ev with
  | send pct =>
      obtain ⟨r, hr, hw, hwf2⟩ := WorldSocket.SendPacket_wire alg s pct hwf
      refine ⟨r, hr, ?_, hwf2⟩
      simp only [WorldSocket.acceptedFrames, WorldSocket.outStep, hr, List.append_nil]
      exact hw
  | writeReady room roomQueue =>
      have hh : WorldSocket.headRoom s = true := by
        simpa [WorldSocket.requeueRoom, WorldSocket.outStep] using hroom
      obtain ⟨hw, hwf2⟩ := WorldSocket.handle_output_wire s room roomQueue hh
      refine ⟨_, rfl, ?_, hwf2 hwf⟩
      simp only [WorldSocket.acceptedFrames, WorldSocket.outStep, List.append_nil]
      exact hw

/-- C1, amended: from any state whose direct buffer has its read pointer within the
written bytes (the opened connection is one), for every interleaving of `SendPacket` calls
and write-ready events in which each socket write accepts an arbitrary number of bytes
(none, some, or all), and in which at each write-ready event the queue without its head
block is below the high water mark, the run returns, and the bytes written to the socket,
followed by the unsent bytes of the direct buffer, followed by the unsent bytes of the
queued blocks in queue order, are the bytes written and unsent at the start followed by
the frames of the `SendPacket` calls that returned `0`, in submission order. -/
theorem outbound_order_preserved {σ : Type} (alg : CipherAlg σ) (evs : List OutEvent)
    (s : WorldSocket σ) (hwf : s.m_OutBuffer.rd ≤ s.m_OutBuffer.data.length)
    (hroom : WorldSocket.requeueRoom alg s evs = true) :
    ∃ s', WorldSocket.outRun alg s evs = .ok s' ∧
      s'.peer.sent ++ s'.pending =
        s.peer.sent ++ s.pending ++ WorldSocket.acceptedFrames alg s evs := by
  induction evs generalizing s with
  | nil => exact ⟨s, rfl, by simp [WorldSocket.acceptedFrames]⟩
  | cons ev evs ih =>
      have hroom1 : WorldSocket.requeueRoom alg s [ev] = true := by
        simp only [WorldSocket.requeueRoom, Bool.and_eq_true] at hroom ⊢
        refine ⟨hroom.1, ?_⟩
        split <;> rfl
      obtain ⟨r, hr, hw, hwf2⟩ := WorldSocket.outStep_wire alg s ev hwf hroom1
      have hroom2 : WorldSocket.requeueRoom alg r.1 evs = true := by
        simp only [WorldSocket.requeueRoom, Bool.and_eq_true, hr] at hroom
        exact hroom.2
      obtain ⟨s', hs', hw'⟩ := ih r.1 hwf2 hroom2
      refine ⟨s', ?_, ?_⟩
      · simp only [WorldSocket.outRun, hr]
        exact hs'
      · rw [hw', hw]
        simp only [WorldSocket.acceptedFrames, hr, List.append_nil, List.append_assoc]

/-- Witness of the amended C1: the short run on the sample connection. -/
theorem outbound_order_preserved_witness :
    sampleSocket.m_OutBuffer.rd ≤ sampleSocket.m_OutBuffer.data.length ∧
    WorldSocket.requeueRoom sampleCipher sampleSocket shortRun = true ∧
    ∃ s', WorldSocket.outRun sampleCipher sampleSocket shortRun = .ok s' ∧
      s'.peer.sent ++ s'.pending =
        sampleSocket.peer.sent ++ sampleSocket.pending ++
          WorldSocket.acceptedFrames sampleCipher sampleSocket shortRun :=
  ⟨by decide, by decide,
    outbound_order_preserved sampleCipher shortRun sampleSocket (by decide) (by decide)⟩

theorem zeros_length (n : Nat) : (zeros n).length = n := by
  simp [zeros]

theorem ServerPktHeader.getHeaderLength_bounds (size cmd : Nat) :
    4 ≤ (ServerPktHeader.new size cmd).getHeaderLength ∧
      (ServerPktHeader.new size cmd).getHeaderLength ≤ 5 := by
  unfold ServerPktHeader.getHeaderLength
  split <;> omega

/-- A packet submitted while the queue is not empty, or that does not fit the direct
buffer, is appended to the queue when the queue is below its high water mark. -/
theorem WorldSocket.SendPacket_enqueued {σ : Type} (alg : CipherAlg σ) (s : WorldSocket σ)
    (pct : WorldPacket) (hc : s.closing_ = false)
    (hq : s.msg_queue.blocks ≠ [] ∨ s.m_OutBuffer.space < pct.data.length + 4)
    (hf : s.msg_queue.cur_bytes < s.msg_queue.high_water_mark) :
    ∃ s' size, WorldSocket.SendPacket alg s pct = .ok (s', 0) ∧ s'.closing_ = false ∧
      s'.m_OutBuffer = s.m_OutBuffer ∧ s'.peer = s.peer ∧
      s'.msg_queue.high_water_mark = s.msg_queue.high_water_mark ∧
      s'.msg_queue.blocks = s.msg_queue.blocks ++
        [{ data := WorldSocket.frameOf alg s pct, rd := 0, size := size }] ∧
      pct.data.length + 4 ≤ size ∧ size ≤ pct.data.length + 5 := by
  have hb := ServerPktHeader.getHeaderLength_bounds (pct.data.length + 2) pct.opcode
  have hnd : ¬ (s.m_OutBuffer.space ≥
      pct.data.length + (sendPacketHeader pct.data.length pct.opcode).getHeaderLength
      ∧ s.msg_queue.is_empty = true) := by
    rintro ⟨h1, h2⟩
    rcases hq with hq | hq
    · exact hq (by simpa [MsgQueue.is_empty] using h2)
    · simp only [sendPacketHeader] at h1
      omega
  have hnf : ¬ s.msg_queue.is_full = true := by
    simp only [MsgQueue.is_full, decide_eq_true_eq]
    omega
  refine ⟨{ s with
      m_Crypt := (WorldSocket.sendHeaderBytes alg s.m_Crypt pct).1
      msg_queue := { s.msg_queue with
        blocks := s.msg_queue.blocks ++
          [{ data := (WorldSocket.sendHeaderBytes alg s.m_Crypt pct).2 ++ pct.data
             rd := 0
             size := pct.data.length +
               (sendPacketHeader pct.data.length pct.opcode).getHeaderLength }] } },
    pct.data.length + (sendPacketHeader pct.data.length pct.opcode).getHeaderLength, ?_, ?_⟩
  · rw [WorldSocket.SendPacket_eq]
    simp only [hc, hnd, hnf, Bool.false_eq_true, if_false]
  · refine ⟨hc, rfl, rfl, rfl, rfl, ?_, ?_⟩ <;> simp only [sendPacketHeader] <;> omega

/-- A write-ready event that finds the direct buffer empty, a socket that takes one byte of
a longer head block, and the queue without its head block at or above the high water mark:
the queue refuses the block (line 400), the block is released and `-1` returned. -/
theorem WorldSocket.handle_output_requeue_refused {σ : Type} (s : WorldSocket σ)
    (mb : MsgBlock) (rest : List MsgBlock) (hc : s.closing_ = false)
    (hl : s.m_OutBuffer.length = 0) (hb : s.msg_queue.blocks = mb :: rest)
    (hfull : s.msg_queue.high_water_mark ≤ (rest.map MsgBlock.size).sum)
    (hlen : 1 < mb.length) :
    (WorldSocket.handle_output s (SendAnswer.room 0) (SendAnswer.room 1)).2 = -1 ∧
    (WorldSocket.handle_output s (SendAnswer.room 0) (SendAnswer.room 1)).1.msg_queue.blocks =
      rest ∧
    (WorldSocket.handle_output s (SendAnswer.room 0) (SendAnswer.room 1)).1.peer.sent =
      s.peer.sent ++ mb.unsent.take 1 ∧
    (WorldSocket.handle_output s (SendAnswer.room 0) (SendAnswer.room 1)).1.m_OutBuffer =
      s.m_OutBuffer := by
  have he : s.msg_queue.is_empty = false := by simp [MsgQueue.is_empty, hb]
  have hd : s.msg_queue.dequeue_head = some (mb, { s.msg_queue with blocks := rest }) := by
    simp [MsgQueue.dequeue_head, hb]
  have hf : ({ s.msg_queue with blocks := rest } : MsgQueue).is_full = true := by
    simp [MsgQueue.is_full, MsgQueue.cur_bytes, hfull]
  have hul := MsgBlock.unsent_length mb
  have hmin : min 1 mb.unsent.length = 1 := by omega
  have hlt : (1 : Int) < ((mb.length : Nat) : Int) := by omega
  unfold WorldSocket.handle_output WorldSocket.handle_output_queue
  simp only [hc, hl, he, hd, Bool.false_eq_true, if_false, if_true,
    MsgBlock.take_length_unsent, WorldSocket.peerSend_room _ _ 1 (by decide), hmin]
  simp [hlt, MsgQueue.enqueue_head, hf]

theorem WorldSocket.frameOf_length_ge {σ : Type} (alg : CipherAlg σ) (s : WorldSocket σ)
    (pct : WorldPacket) : pct.data.length ≤ (WorldSocket.frameOf alg s pct).length := by
  simp [WorldSocket.frameOf]

/-- The run of `overflowRun` for arbitrary payloads of its three sizes: all but the first
byte of the frame of the first packet is lost. -/
theorem WorldSocket.overflow_loses_frame (a b c : List Nat) (ha : a.length = 65533)
    (hb : b.length = 4194304) (hc : c.length = 4194304) :
    ∃ s', WorldSocket.outRun sampleCipher sampleSocket
        [OutEvent.send { opcode := 0x1F6, data := a },
         OutEvent.send { opcode := 0x1F6, data := b },
         OutEvent.send { opcode := 0x1F6, data := c },
         OutEvent.writeReady 0 1] = .ok s' ∧
      s'.peer.sent ++ s'.pending ≠
        sampleSocket.peer.sent ++ sampleSocket.pending ++
          WorldSocket.acceptedFrames sampleCipher sampleSocket
            [OutEvent.send { opcode := 0x1F6, data := a },
             OutEvent.send { opcode := 0x1F6, data := b },
             OutEvent.send { opcode := 0x1F6, data := c },
             OutEvent.writeReady 0 1] := by
  have hw0 : sampleSocket.msg_queue.high_water_mark = 8388608 := rfl
  have hun : sampleSocket.m_OutBuffer.unsent = [] := rfl
  have hs0 : sampleSocket.peer.sent = [] := rfl
  have hq0 : sampleSocket.msg_queue.blocks = [] := rfl
  obtain ⟨s1, z1, h1, c1, b1, p1, w1, q1, l1, u1⟩ :=
    WorldSocket.SendPacket_enqueued sampleCipher sampleSocket
      { opcode := 0x1F6, data := a } rfl
      (Or.inr (by simp only [ha]; decide)) (by decide)
  simp only [ha] at l1 u1
  obtain ⟨s2, z2, h2, c2, b2, p2, w2, q2, l2, u2⟩ :=
    WorldSocket.SendPacket_enqueued sampleCipher s1
      { opcode := 0x1F6, data := b } c1
      (Or.inl (by rw [q1]; simp))
      (by simp only [MsgQueue.cur_bytes, q1, w1, hw0, hq0]; simp [MsgBlock.size]; omega)
  simp only [hb] at l2 u2
  obtain ⟨s3, z3, h3, c3, b3, p3, w3, q3, l3, u3⟩ :=
    WorldSocket.SendPacket_enqueued sampleCipher s2
      { opcode := 0x1F6, data := c } c2
      (Or.inl (by rw [q2]; simp))
      (by simp only [MsgQueue.cur_bytes, q2, q1, w2, w1, hw0, hq0]; simp [MsgBlock.size]; omega)
  simp only [hc] at l3 u3
  have hlen0 : s3.m_OutBuffer.length = 0 := by rw [b3, b2, b1]; rfl
  have hA := WorldSocket.frameOf_length_ge sampleCipher sampleSocket
    { opcode := 0x1F6, data := a }
  simp only [ha] at hA
  obtain ⟨-, hq4, hp4, hb4⟩ := WorldSocket.handle_output_requeue_refused s3 _ _ c3 hlen0
    (by rw [q3, q2, q1, hq0]; rfl)
    (by simp only [w3, w2, w1, hw0]; simp [MsgBlock.size]; omega)
    (by simp only [MsgBlock.length]; omega)
  refine ⟨(WorldSocket.handle_output s3 (SendAnswer.room 0) (SendAnswer.room 1)).1, ?_, ?_⟩
  · simp only [WorldSocket.outRun, WorldSocket.outStep, h1, h2, h3]
  · intro heq
    have := congrArg List.length heq
    simp only [WorldSocket.acceptedFrames, WorldSocket.outStep, h1, h2, h3,
      WorldSocket.pending, hq4, hp4, hb4, p3, p2, p1, b3, b2, b1, hun, hs0, hq0] at this
    simp [MsgBlock.unsent] at this
    omega

/-- C1, as stated, fails once the queue holds more than its high water mark: on the sample
connection the run `overflowRun` submits three packets, all accepted (`SendPacket` returns
`0`), and then writes one byte; the queue refuses to take the rest of the first block back,
so the bytes written followed by the unsent bytes are no longer the accepted frames. -/
theorem outbound_order_fails_above_high_water_mark :
    ∃ s', WorldSocket.outRun sampleCipher sampleSocket overflowRun = .ok s' ∧
      s'.peer.sent ++ s'.pending ≠
        sampleSocket.peer.sent ++ sampleSocket.pending ++
          WorldSocket.acceptedFrames sampleCipher sampleSocket overflowRun :=
  WorldSocket.overflow_loses_frame (zeros 65533) (zeros 4194304) (zeros 4194304)
    (zeros_length _) (zeros_length _) (zeros_length _)

/-! ## The inbound assembler -/

theorem WorldSocket.replyAndFail_ok {σ : Type} (alg : CipherAlg σ) (s : WorldSocket σ)
    (pkt : WorldPacket) (after : List ExternalCall) :
    ∃ h, WorldSocket.replyAndFail alg s pkt after = .ok h := by
  obtain ⟨t, ht, -, -⟩ := WorldSocket.replyAndFail_frame alg s pkt after
  exact ⟨_, ht⟩

theorem WorldSocket.authAccepted_ok {σ : Type} (alg : CipherAlg σ) (w : World)
    (s : WorldSocket σ) (pkt : WorldPacket) (f : AuthSessionFields) (row : AccountRow)
    (security : Nat) (skipQueue : Bool) (expansion : Nat) (mutetime : Int) (locale : Nat) :
    ∃ h, WorldSocket.authAccepted alg w s pkt f row security skipQueue expansion mutetime
      locale = .ok h := by
  unfold WorldSocket.authAccepted
  by_cases hcl : w.IsClosedAtLine983 = true
  · simp only [if_pos hcl]
    exact WorldSocket.replyAndFail_ok alg _ _ _
  · simp only [if_neg hcl]
    by_cases hrealm : f.realm ≠ w.realmID
    · simp only [if_pos hrealm]
      exact WorldSocket.replyAndFail_ok alg _ _ _
    · simp only [if_neg hrealm]
      exact ⟨_, rfl⟩

theorem WorldSocket.HandleAuthSession_ok {σ : Type} (alg : CipherAlg σ) (w : World)
    (s : WorldSocket σ) (pkt : WorldPacket) :
    ∃ h, WorldSocket.HandleAuthSession alg w s pkt = .ok h := by
  unfold WorldSocket.HandleAuthSession
  by_cases hcl : w.IsClosed = true
  · simp only [if_pos hcl]
    exact WorldSocket.replyAndFail_ok alg _ _ _
  · simp only [if_neg hcl]
    rcases hrd : readAuthSession pkt.data with _ | f
    · exact ⟨_, rfl⟩
    · simp only []
      rcases hacc : w.accountInfoByName f.account with _ | row
      · exact WorldSocket.replyAndFail_ok alg _ _ _
      · simp only []
        by_cases h1 : row.locked % 256 = 1 ∧ row.last_ip ≠ s.m_Address
        · simp only [if_pos h1]
          exact WorldSocket.replyAndFail_ok alg _ _ _
        · simp only [if_neg h1]
          by_cases h2 : w.CONFIG_WARDEN_ENABLED = true ∧ row.os ≠ "Win" ∧ row.os ≠ "OSX"
          · simp only [if_pos h2]
            exact WorldSocket.replyAndFail_ok alg _ _ _
          · simp only [if_neg h2]
            by_cases h3 : w.bans row.id s.m_Address = true
            · simp only [if_pos h3]
              exact WorldSocket.replyAndFail_ok alg _ _ _
            · simp only [if_neg h3]
              split_ifs
              all_goals first
                | exact WorldSocket.replyAndFail_ok alg _ _ _
                | exact WorldSocket.authAccepted_ok alg w _ pkt f row _ _ _ _ _

theorem WorldSocket.HandlePing_ok {σ : Type} (alg : CipherAlg σ) (w : World)
    (s : WorldSocket σ) (pkt : WorldPacket) :
    ∃ h, WorldSocket.HandlePing alg w s pkt = .ok h := by
  unfold WorldSocket.HandlePing
  rcases h1 : readU32 pkt.data with _ | ⟨ping, rest⟩
  · exact ⟨_, rfl⟩
  · simp only []
    rcases h2 : readU32 rest with _ | ⟨latency, rest2⟩
    · exact ⟨_, rfl⟩
    · simp only []
      by_cases hc : (WorldSocket.pingCadence w s).2 = true
      · simp only [if_pos hc]
        exact ⟨_, rfl⟩
      · simp only [if_neg hc]
        rcases hs : (WorldSocket.pingCadence w s).1.m_Session with _ | sess
        · exact ⟨_, rfl⟩
        · simp only [WorldSocket.SendPacket_eq]
          exact ⟨_, rfl⟩

/-- `ProcessIncoming` always returns. -/
theorem WorldSocket.ProcessIncoming_ok {σ : Type} (alg : CipherAlg σ) (w : World)
    (s : WorldSocket σ) (pkt : WorldPacket) :
    ∃ r, WorldSocket.ProcessIncoming alg w s pkt = .ok r := by
  unfold WorldSocket.ProcessIncoming
  simp only []
  by_cases hc : s.closing_ = true
  · simp only [if_pos hc]
    exact ⟨_, rfl⟩
  · simp only [if_neg hc]
    by_cases hp : pkt.opcode = CMSG_PING
    · simp only [if_pos hp]
      obtain ⟨h, hh⟩ := WorldSocket.HandlePing_ok alg w s pkt
      rw [hh]
      cases h <;> exact ⟨_, rfl⟩
    · simp only [if_neg hp]
      by_cases ha : pkt.opcode = CMSG_AUTH_SESSION
      · simp only [if_pos ha]
        by_cases hs : s.m_Session.isSome = true
        · simp only [if_pos hs]
          exact ⟨_, rfl⟩
        · simp only [if_neg hs]
          obtain ⟨h, hh⟩ := WorldSocket.HandleAuthSession_ok alg w s pkt
          rw [hh]
          cases h <;> exact ⟨_, rfl⟩
      · simp only [if_neg ha]
        by_cases hk : pkt.opcode = CMSG_KEEP_ALIVE
        · simp only [if_pos hk]
          exact ⟨_, rfl⟩
        · simp only [if_neg hk]
          rcases hs : s.m_Session with _ | sess <;> exact ⟨_, rfl⟩

/-- With header and payload complete and a packet pending, `handle_input_payload` passes
that packet to `ProcessIncoming`, empties the assembler, and leaves `EINVAL` in `errno`
when it returns `-1`. -/
theorem WorldSocket.handle_input_payload_complete {σ : Type} (alg : CipherAlg σ) (w : World)
    (s : WorldSocket σ) (pkt : WorldPacket) (h1 : s.m_RecvPct.space = 0)
    (h2 : s.m_Header.space = 0) (h3 : s.m_RecvWPct = some pkt) :
    ∃ s3 ret, WorldSocket.handle_input_payload alg w s = .ok (s3, ret, pkt) ∧
      (ret = -1 → WorldSocket.wouldBlock s3.errno = false) := by
  obtain ⟨r, hr⟩ := WorldSocket.ProcessIncoming_ok alg w s pkt
  unfold WorldSocket.handle_input_payload
  simp only [h1, h2, h3, hr, ne_eq, not_true_eq_false, if_false]
  refine ⟨_, _, rfl, ?_⟩
  intro hret
  simp [hret, WorldSocket.wouldBlock]

/-- The payload stage and the dispatch when the read does not complete the payload: the
bytes are added to the payload block and to the pending packet, and the read ends with
`-1` and `EWOULDBLOCK`. -/
theorem WorldSocket.afterHeader_partial {σ : Type} (alg : CipherAlg σ) (w : World)
    (s : WorldSocket σ) (cmd n : Nat) (Q r : List Nat) (d : List WorldPacket)
    (hw : s.m_RecvWPct = some { opcode := cmd, data := Q ++ List.replicate (n - Q.length) 0 })
    (hp : s.m_RecvPct = { data := Q, rd := 0, size := n })
    (hlt : Q.length + r.length < n) :
    WorldSocket.afterHeader alg w s r d = .ok (Iter.ret
      { s with
        m_RecvPct := { data := Q ++ r, rd := 0, size := n }
        m_RecvWPct := some { opcode := cmd,
                             data := (Q ++ r) ++ List.replicate (n - (Q ++ r).length) 0 }
        errno := Errno.EWOULDBLOCK } (-1) d) := by
  have hsp : s.m_RecvPct.space = n - Q.length := by simp [hp, MsgBlock.space]
  have hto : (if r.length > s.m_RecvPct.space then s.m_RecvPct.space else r.length) = r.length := by
    rw [hsp]
    split_ifs <;> omega
  have hcopy : s.m_RecvPct.copy r = some { data := Q ++ r, rd := 0, size := n } := by
    rw [MsgBlock.copy_of_le _ _ (by rw [hsp]; omega), hp]
  unfold WorldSocket.afterHeader WorldSocket.payloadStage
  simp only [hw, hto, List.take_length, List.drop_length, WorldSocket.recvPctCopy, hcopy]
  have h1 : s.m_RecvPct.data.length < s.m_RecvPct.size := by
    rw [hp]
    simp only
    omega
  simp [h1, MsgBlock.space, hlt]

/-- The dispatch at the end of an iteration, for a complete packet: the packet is
dispatched, and the iteration ends with `-1` or goes on with the unread rest. -/
theorem WorldSocket.dispatch_complete {σ : Type} (alg : CipherAlg σ) (w : World)
    (s2 : WorldSocket σ) (pkt : WorldPacket) (mb2 : List Nat) (d : List WorldPacket)
    (h1 : s2.m_RecvPct.space = 0) (h2 : s2.m_Header.space = 0) (h3 : s2.m_RecvWPct = some pkt) :
    ∃ s3,
      (match WorldSocket.handle_input_payload alg w s2 with
        | Except.error f => (Except.error f : Except Fault (Iter σ))
        | Except.ok (s3, ret, pkt) =>
            if ret = -1 then
              if WorldSocket.wouldBlock s3.errno then Except.error Fault.assertFailed
              else Except.ok (Iter.ret s3 (-1) (d ++ [pkt]))
            else Except.ok (Iter.next s3 mb2 (d ++ [pkt]))) =
          Except.ok (Iter.ret s3 (-1) (d ++ [pkt])) ∨
      (match WorldSocket.handle_input_payload alg w s2 with
        | Except.error f => (Except.error f : Except Fault (Iter σ))
        | Except.ok (s3, ret, pkt) =>
            if ret = -1 then
              if WorldSocket.wouldBlock s3.errno then Except.error Fault.assertFailed
              else Except.ok (Iter.ret s3 (-1) (d ++ [pkt]))
            else Except.ok (Iter.next s3 mb2 (d ++ [pkt]))) =
          Except.ok (Iter.next s3 mb2 (d ++ [pkt])) := by
  obtain ⟨s3, ret, hr, herr⟩ := WorldSocket.handle_input_payload_complete alg w s2 _ h1 h2 h3
  refine ⟨s3, ?_⟩
  rw [hr]
  by_cases hret : ret = -1
  · left
    simp [hret, herr hret]
  · right
    simp [hret]

/-- The payload stage and the dispatch when the read completes the payload: exactly the
assembled packet is passed to `ProcessIncoming`, and the iteration ends either with `-1` or
with nothing left to read. -/
theorem WorldSocket.afterHeader_complete {σ : Type} (alg : CipherAlg σ) (w : World)
    (s : WorldSocket σ) (cmd n : Nat) (Q r : List Nat) (d : List WorldPacket)
    (hh : s.m_Header.space = 0)
    (hw : s.m_RecvWPct = some { opcode := cmd, data := Q ++ List.replicate (n - Q.length) 0 })
    (hp : s.m_RecvPct = { data := Q, rd := 0, size := n })
    (heq : Q.length + r.length = n) :
    ∃ s3, WorldSocket.afterHeader alg w s r d =
        .ok (Iter.ret s3 (-1) (d ++ [{ opcode := cmd, data := Q ++ r }])) ∨
      WorldSocket.afterHeader alg w s r d =
        .ok (Iter.next s3 [] (d ++ [{ opcode := cmd, data := Q ++ r }])) := by
  have hsp : s.m_RecvPct.space = n - Q.length := by simp [hp, MsgBlock.space]
  unfold WorldSocket.afterHeader WorldSocket.payloadStage
  simp only [hw]
  by_cases hfull : Q.length = n
  · have hr : r = [] := List.eq_nil_of_length_eq_zero (by omega)
    have h0 : ¬ s.m_RecvPct.space > 0 := by rw [hsp]; omega
    subst hr
    simp only [h0, if_false]
    have h3 : s.m_RecvWPct = some { opcode := cmd, data := Q ++ [] } := by
      rw [hw]
      simp [hfull]
    exact WorldSocket.dispatch_complete alg w s _ [] d (by omega) hh h3
  · have hto : (if r.length > s.m_RecvPct.space then s.m_RecvPct.space else r.length) =
        r.length := by
      rw [hsp]
      split_ifs <;> omega
    have hcopy : s.m_RecvPct.copy r = some { data := Q ++ r, rd := 0, size := n } := by
      rw [MsgBlock.copy_of_le _ _ (by rw [hsp]; omega), hp]
    have h1 : s.m_RecvPct.space > 0 := by rw [hsp]; omega
    have h2 : ¬ ({ data := Q ++ r, rd := 0, size := n } : MsgBlock).space > 0 := by
      simp [MsgBlock.space]; omega
    simp only [h1, if_true, hto, List.take_length, List.drop_length, WorldSocket.recvPctCopy,
      hcopy, hw, Option.map_some', h2, if_false]
    refine WorldSocket.dispatch_complete alg w _ _ [] d ?_ hh ?_
    · simp [MsgBlock.space]; omega
    · simp [MsgBlock.space]; omega

/-- A read that leaves the header incomplete: the bytes are added to the header block and
the read ends with `-1` and `EWOULDBLOCK`. -/
theorem WorldSocket.iteration_header_partial {σ : Type} (alg : CipherAlg σ) (w : World)
    (s : WorldSocket σ) (P c : List Nat) (d : List WorldPacket)
    (hh : s.m_Header = { data := P, rd := 0, size := 6 })
    (hlt : P.length + c.length < 6) :
    WorldSocket.iteration alg w s c d = .ok (Iter.ret
      { s with m_Header := { data := P ++ c, rd := 0, size := 6 }
               errno := Errno.EWOULDBLOCK } (-1) d) := by
  have hsp : s.m_Header.space = 6 - P.length := by simp [hh, MsgBlock.space]
  have hto : (if c.length > s.m_Header.space then s.m_Header.space else c.length) =
      c.length := by
    rw [hsp]
    split_ifs <;> omega
  have hcopy : s.m_Header.copy c = some { data := P ++ c, rd := 0, size := 6 } := by
    rw [MsgBlock.copy_of_le _ _ (by rw [hsp]; omega), hh]
  have h1 : s.m_Header.space > 0 := by rw [hsp]; omega
  have h2 : ({ data := P ++ c, rd := 0, size := 6 } : MsgBlock).space > 0 := by
    simp [MsgBlock.space]; omega
  unfold WorldSocket.iteration WorldSocket.headerStage
  simp only [h1, if_true, hto, List.take_length, List.drop_length, hcopy, Option.getD_some, h2,
    List.length_nil, ne_eq, not_true_eq_false, if_false]

/-- A read that completes a valid header, with no cipher: the header is decoded, a packet
of the declared payload size is pending, and the iteration goes on with the bytes that
follow the header. -/
theorem WorldSocket.iteration_header_complete {σ : Type} (alg : CipherAlg σ) (w : World)
    (s : WorldSocket σ) (P c : List Nat) (d : List WorldPacket)
    (hh : s.m_Header = { data := P, rd := 0, size := 6 })
    (hw : s.m_RecvWPct = none) (hp : s.m_RecvPct = { data := [], rd := 0, size := 0 })
    (hc : s.m_Crypt = none) (hP : P.length < 6) (hge : 6 ≤ P.length + c.length)
    (hrej : headerRejected (headerSize (P ++ c.take (6 - P.length)))
      (headerCmd (P ++ c.take (6 - P.length))) = false) :
    WorldSocket.iteration alg w s c d = WorldSocket.afterHeader alg w
      { s with
        m_Crypt := none
        m_Header := { data := storeU16 (headerSize (P ++ c.take (6 - P.length)) - 4) ++
                        (P ++ c.take (6 - P.length)).drop 2
                      rd := 0, size := 6 }
        m_RecvWPct := some
          { opcode := headerCmd (P ++ c.take (6 - P.length)) % 2 ^ 16
            data := List.replicate (headerSize (P ++ c.take (6 - P.length)) - 4) 0 }
        m_RecvPct := { data := [], rd := 0
                       size := headerSize (P ++ c.take (6 - P.length)) - 4 } }
      (c.drop (6 - P.length)) d := by
  have hsp : s.m_Header.space = 6 - P.length := by simp [hh, MsgBlock.space]
  have hto : (if c.length > s.m_Header.space then s.m_Header.space else c.length) =
      6 - P.length := by
    rw [hsp]
    split_ifs <;> omega
  have hlen : (c.take (6 - P.length)).length = 6 - P.length := by
    rw [List.length_take]
    omega
  have hcopy : s.m_Header.copy (c.take (6 - P.length)) =
      some { data := P ++ c.take (6 - P.length), rd := 0, size := 6 } := by
    rw [MsgBlock.copy_of_le _ _ (by rw [hsp, hlen]), hh]
  have h1 : s.m_Header.space > 0 := by rw [hsp]; omega
  have h2 : ¬ ({ data := P ++ c.take (6 - P.length), rd := 0, size := 6 } : MsgBlock).space > 0 := by
    simp only [MsgBlock.space, List.length_append, hlen]
    omega
  have hl6 : (P ++ c.take (6 - P.length)).length = 6 := by
    rw [List.length_append, hlen]
    omega
  unfold WorldSocket.iteration WorldSocket.headerStage
  simp only [h1, if_true, hto, hcopy, Option.getD_some, h2, if_false]
  unfold WorldSocket.handle_input_header
  simp only [hw, Option.isSome_none, Bool.false_eq_true, if_false, MsgBlock.length,
    MsgBlock.unsent, List.drop_zero, hl6, ne_eq, not_true_eq_false, hc,
    WorldSocket.decryptHeader, List.take_of_length_le (Nat.le_of_eq hl6), hrej, List.take_zero,
    List.nil_append, Nat.sub_zero]
  by_cases hz : headerSize (P ++ c.take (6 - P.length)) - 4 > 0
  · simp [hz, MsgBlock.base]
  · have hz0 : headerSize (P ++ c.take (6 - P.length)) - 4 = 0 := by omega
    simp [hz0, hp, MsgBlock.space]

/-- The state after a read has completed a valid header, in the form the payload stage
needs. -/
theorem WorldSocket.iteration_header_done {σ : Type} (alg : CipherAlg σ) (w : World)
    (s : WorldSocket σ) (P c : List Nat) (d : List WorldPacket)
    (hh : s.m_Header = { data := P, rd := 0, size := 6 })
    (hw : s.m_RecvWPct = none) (hp : s.m_RecvPct = { data := [], rd := 0, size := 0 })
    (hc : s.m_Crypt = none) (hP : P.length < 6) (hge : 6 ≤ P.length + c.length)
    (hrej : headerRejected (headerSize (P ++ c.take (6 - P.length)))
      (headerCmd (P ++ c.take (6 - P.length))) = false) :
    ∃ s1, WorldSocket.iteration alg w s c d =
        WorldSocket.afterHeader alg w s1 (c.drop (6 - P.length)) d ∧
      s1.m_Header.space = 0 ∧
      s1.m_RecvWPct = some
        { opcode := headerCmd (P ++ c.take (6 - P.length)) % 2 ^ 16
          data := [] ++ List.replicate
            (headerSize (P ++ c.take (6 - P.length)) - 4 - ([] : List Nat).length) 0 } ∧
      s1.m_RecvPct = { data := [], rd := 0
                       size := headerSize (P ++ c.take (6 - P.length)) - 4 } := by
  have hlen : (c.take (6 - P.length)).length = 6 - P.length := by
    rw [List.length_take]
    omega
  refine ⟨_, WorldSocket.iteration_header_complete alg w s P c d hh hw hp hc hP hge hrej,
    ?_, ?_, rfl⟩
  · simp only [MsgBlock.space, storeU16, List.length_append, List.length_cons, List.length_nil,
      List.length_drop, hlen]
    omega
  · simp

/-- One iteration of the read loop on the next bytes `c` of a valid frame
`hdr ++ payload = A ++ c ++ B`, from an assembler that has consumed `A`: when bytes of the
frame remain (`B`), the read ends with `-1`, nothing dispatched and `A ++ c` consumed; when
`c` ends the frame, exactly the packet of the frame is dispatched. -/
theorem WorldSocket.iteration_frame {σ : Type} (alg : CipherAlg σ) (w : World)
    (s : WorldSocket σ) (hdr payload A c B : List Nat) (hl : hdr.length = 6)
    (hrej : headerRejected (headerSize hdr) (headerCmd hdr) = false)
    (hn : headerSize hdr - 4 = payload.length) (hF : hdr ++ payload = A ++ c ++ B)
    (hs : s.assembled hdr payload A) :
    (B ≠ [] → ∃ s', WorldSocket.iteration alg w s c [] = .ok (Iter.ret s' (-1) []) ∧
        s'.assembled hdr payload (A ++ c)) ∧
    (B = [] → ∃ s',
        WorldSocket.iteration alg w s c [] =
          .ok (Iter.ret s' (-1) [{ opcode := headerCmd hdr, data := payload }]) ∨
        WorldSocket.iteration alg w s c [] =
          .ok (Iter.next s' [] [{ opcode := headerCmd hdr, data := payload }])) := by
  have hlenF : 6 + payload.length = A.length + c.length + B.length := by
    have := congrArg List.length hF
    simp only [List.length_append, hl] at this
    exact this
  have hT6 : (A ++ c ++ B).take 6 = hdr := by
    rw [← hF, List.take_append_of_le_length (by omega), List.take_of_length_le (by omega)]
  have hD6 : (A ++ c ++ B).drop 6 = payload := by
    rw [← hF, List.drop_append_of_le_length (by omega), List.drop_of_length_le (by omega),
      List.nil_append]
  have hcmd : headerCmd hdr % 2 ^ 16 = headerCmd hdr := by
    have h := (headerRejected_iff (headerSize hdr) (headerCmd hdr)).not.mp (by simp [hrej])
    apply Nat.mod_eq_of_lt
    omega
  have hBlen : B ≠ [] ↔ 0 < B.length := by
    rw [List.length_pos]
  unfold WorldSocket.assembled at hs
  by_cases hA : A.length < 6
  · simp only [hA, if_true] at hs
    obtain ⟨hh, hw, hp, hcr⟩ := hs
    by_cases hAc : A.length + c.length < 6
    · -- the header stays incomplete
      rw [WorldSocket.iteration_header_partial alg w s A c [] hh hAc]
      constructor
      · intro _
        refine ⟨_, rfl, ?_⟩
        unfold WorldSocket.assembled
        rw [if_pos (by simp only [List.length_append]; exact hAc)]
        exact ⟨rfl, hw, hp, hcr⟩
      · intro hB
        subst hB
        simp only [List.length_nil] at hlenF
        omega
    · -- the header is completed by this read
      have hhdr : A ++ c.take (6 - A.length) = hdr := by
        rw [← hT6, List.append_assoc, List.take_append_eq_append_take,
          List.take_of_length_le (by omega : A.length ≤ 6),
          List.take_append_of_le_length (by omega)]
      have hrest : c.drop (6 - A.length) = (A ++ c).drop 6 := by
        rw [List.drop_append_eq_append_drop, List.drop_of_length_le (by omega : A.length ≤ 6),
          List.nil_append]
      obtain ⟨s1, hit, h1h, h1w, h1p⟩ := WorldSocket.iteration_header_done alg w s A c [] hh hw
        hp hcr hA (by omega) (by rw [hhdr]; exact hrej)
      rw [hhdr, hcmd, hn] at h1w
      rw [hhdr, hn] at h1p
      rw [hit, hrest]
      constructor
      · intro hB
        have hBl := hBlen.mp hB
        have hlt : ([] : List Nat).length + ((A ++ c).drop 6).length < payload.length := by
          simp only [List.length_nil, List.length_drop, List.length_append]
          omega
        rw [WorldSocket.afterHeader_partial alg w s1 (headerCmd hdr) payload.length []
          ((A ++ c).drop 6) [] h1w h1p hlt]
        refine ⟨_, rfl, ?_⟩
        unfold WorldSocket.assembled
        have hnot : ¬ (A ++ c).length < 6 := by
          simp only [List.length_append]
          omega
        rw [if_neg hnot]
        exact ⟨h1h, rfl, rfl⟩
      · intro hB
        subst hB
        simp only [List.append_nil, List.length_nil, Nat.add_zero] at hD6 hlenF
        have heq : ([] : List Nat).length + ((A ++ c).drop 6).length = payload.length := by
          simp only [List.length_nil, List.length_drop, List.length_append]
          omega
        obtain ⟨s3, h3⟩ := WorldSocket.afterHeader_complete alg w s1 (headerCmd hdr)
          payload.length [] ((A ++ c).drop 6) [] h1h h1w h1p heq
        simp only [List.nil_append, hD6] at h3 ⊢
        exact ⟨s3, h3⟩
  · simp only [hA, if_false] at hs
    obtain ⟨hh, hw, hp⟩ := hs
    have hit : WorldSocket.iteration alg w s c [] = WorldSocket.afterHeader alg w s c [] := by
      unfold WorldSocket.iteration WorldSocket.headerStage
      simp [hh]
    have hQr : A.drop 6 ++ c = (A ++ c).drop 6 := by
      rw [List.drop_append_of_le_length (by omega)]
    rw [hit]
    constructor
    · intro hB
      have hBl := hBlen.mp hB
      have hlt : (A.drop 6).length + c.length < payload.length := by
        simp only [List.length_drop]
        omega
      rw [WorldSocket.afterHeader_partial alg w s (headerCmd hdr) payload.length (A.drop 6) c []
        hw hp hlt]
      refine ⟨_, rfl, ?_⟩
      unfold WorldSocket.assembled
      have hnot : ¬ (A ++ c).length < 6 := by
        simp only [List.length_append]
        omega
      rw [if_neg hnot, ← hQr]
      exact ⟨hh, rfl, rfl⟩
    · intro hB
      subst hB
      simp only [List.append_nil, List.length_nil, Nat.add_zero] at hD6 hlenF
      have heq : (A.drop 6).length + c.length = payload.length := by
        simp only [List.length_drop]
        omega
      obtain ⟨s3, h3⟩ := WorldSocket.afterHeader_complete alg w s (headerCmd hdr)
        payload.length (A.drop 6) c [] hh hw hp heq
      simp only [List.nil_append, hQr, hD6] at h3
      exact ⟨s3, h3⟩

theorem WorldSocket.inputLoop_nil {σ : Type} (alg : CipherAlg σ) (w : World) (fuel : Nat)
    (s : WorldSocket σ) (d : List WorldPacket) :
    WorldSocket.inputLoop alg w fuel s [] d = .ok (s, none, d) := by
  cases fuel <;> simp [WorldSocket.inputLoop]

/-- One read carrying the next bytes `c` of a valid frame `hdr ++ payload = A ++ c ++ B`,
from an assembler that has consumed `A`: when bytes of the frame remain, the read returns
`-1`, dispatches nothing and leaves `A ++ c` consumed; when `c` ends the frame, the read
dispatches exactly the packet of the frame. -/
theorem WorldSocket.read_frame {σ : Type} (alg : CipherAlg σ) (w : World)
    (s : WorldSocket σ) (hdr payload A c B : List Nat) (hl : hdr.length = 6)
    (hrej : headerRejected (headerSize hdr) (headerCmd hdr) = false)
    (hn : headerSize hdr - 4 = payload.length) (hF : hdr ++ payload = A ++ c ++ B)
    (hc : c ≠ []) (hs : s.assembled hdr payload A) :
    (B ≠ [] → ∃ s', WorldSocket.handle_input_missing_data alg w s (RecvAnswer.bytes c) =
          .ok { sock := s', ret := -1, dispatched := [] } ∧
        s'.assembled hdr payload (A ++ c)) ∧
    (B = [] → ∃ s' r, WorldSocket.handle_input_missing_data alg w s (RecvAnswer.bytes c) =
          .ok { sock := s', ret := r,
                dispatched := [{ opcode := headerCmd hdr, data := payload }] }) := by
  have hcl : c.length ≠ 0 := by
    intro h
    exact hc (List.eq_nil_of_length_eq_zero h)
  have hcl2 : c.length > 0 := by omega
  obtain ⟨h1, h2⟩ := WorldSocket.iteration_frame alg w s hdr payload A c B hl hrej hn hF hs
  unfold WorldSocket.handle_input_missing_data
  simp only [hcl, if_false, WorldSocket.inputLoop, hcl2, if_true]
  constructor
  · intro hB
    obtain ⟨s', hit, hs'⟩ := h1 hB
    exact ⟨s', by rw [hit], hs'⟩
  · intro hB
    obtain ⟨s', hit | hit⟩ := h2 hB
    · exact ⟨s', -1, by rw [hit]⟩
    · exact ⟨s', if c.length = 4096 then 1 else 2,
        by simp only [hit, WorldSocket.inputLoop_nil]⟩

/-- Feeding the rest of a valid frame in non-empty chunks, one per read, to an assembler
that has consumed the bytes before: every read but the last returns `-1` and dispatches
nothing, the last read dispatches exactly the packet of the frame. -/
theorem WorldSocket.feedReads_frame {σ : Type} (alg : CipherAlg σ) (w : World)
    (hdr payload : List Nat) (hl : hdr.length = 6)
    (hrej : headerRejected (headerSize hdr) (headerCmd hdr) = false)
    (hn : headerSize hdr - 4 = payload.length) (chunks : List (List Nat)) :
    ∀ (s : WorldSocket σ) (A : List Nat), chunks ≠ [] → (∀ c ∈ chunks, c ≠ []) →
      hdr ++ payload = A ++ chunks.flatten → s.assembled hdr payload A →
      ∃ s' r, WorldSocket.feedReads alg w s chunks =
        .ok (s', List.replicate (chunks.length - 1) (-1, []) ++
          [(r, [{ opcode := headerCmd hdr, data := payload }])]) := by
  induction chunks with
  | nil => intro s A h; exact absurd rfl h
  | cons c cs ih =>
      intro s A _ hne hF hs
      have hc : c ≠ [] := hne c (List.mem_cons_self _ _)
      have hF2 : hdr ++ payload = A ++ c ++ cs.flatten := by
        rw [hF, List.flatten_cons, List.append_assoc]
      obtain ⟨h1, h2⟩ := WorldSocket.read_frame alg w s hdr payload A c cs.flatten hl hrej hn
        hF2 hc hs
      by_cases hcs : cs = []
      · subst hcs
        obtain ⟨s', r, hr⟩ := h2 rfl
        exact ⟨s', r, by simp [WorldSocket.feedReads, hr]⟩
      · have hB : cs.flatten ≠ [] := by
          obtain ⟨x, xs, rfl⟩ := List.exists_cons_of_ne_nil hcs
          have hx : x ≠ [] := hne x (by simp)
          simp [hx]
        obtain ⟨s1, hr1, hs1⟩ := h1 hB
        obtain ⟨s', r, hr⟩ := ih s1 (A ++ c) hcs
          (fun x hx => hne x (List.mem_cons_of_mem _ hx)) hF2 hs1
        refine ⟨s', r, ?_⟩
        have hlen : cs.length - 1 + 1 = cs.length := by
          have := List.length_pos.mpr hcs
          omega
        simp only [WorldSocket.feedReads, hr1, hr, List.length_cons, Nat.add_sub_cancel]
        rw [← hlen, List.replicate_succ]
        simp

/-- C2: from an empty assembler with no cipher, for every well-formed client frame (a
6-byte header whose declared size is between 4 and 10240 and whose opcode is at most 10240,
followed by declared size minus 4 payload bytes, possibly none) and every split of its
bytes into non-empty chunks fed one per read, every read before the last returns `-1` and
dispatches nothing, and the last read dispatches exactly one packet, with the opcode and
the payload of the frame; feeding the whole frame in a single read dispatches that same
packet. -/
theorem split_feed_dispatches_once {σ : Type} (alg : CipherAlg σ) (w : World)
    (s : WorldSocket σ) (hdr payload : List Nat) (chunks : List (List Nat))
    (hempty : s.m_Header = MsgBlock.alloc 6 ∧ s.m_RecvWPct = none ∧
      s.m_RecvPct = MsgBlock.alloc 0)
    (hcr : s.m_Crypt = none) (hl : hdr.length = 6)
    (hsize : 4 ≤ headerSize hdr ∧ headerSize hdr ≤ 10240) (hop : headerCmd hdr ≤ 10240)
    (hpl : payload.length = headerSize hdr - 4)
    (hne : ∀ c ∈ chunks, c ≠ []) (hsplit : chunks.flatten = hdr ++ payload) :
    (∃ s' r, WorldSocket.feedReads alg w s chunks =
      .ok (s', List.replicate (chunks.length - 1) (-1, []) ++
        [(r, [{ opcode := headerCmd hdr, data := payload }])])) ∧
    (∃ s' r, WorldSocket.feedReads alg w s [hdr ++ payload] =
      .ok (s', [(r, [{ opcode := headerCmd hdr, data := payload }])])) := by
  have hrej : headerRejected (headerSize hdr) (headerCmd hdr) = false := by
    rw [Bool.eq_false_iff, Ne, headerRejected_iff]
    omega
  have hs : s.assembled hdr payload [] := by
    unfold WorldSocket.assembled
    simp only [List.length_nil, Nat.lt_add_one, Nat.zero_lt_succ, if_true]
    exact ⟨hempty.1, hempty.2.1, hempty.2.2, hcr⟩
  have hfne : hdr ++ payload ≠ [] := by
    intro h
    have := congrArg List.length h
    simp [hl] at this
  constructor
  · have hch : chunks ≠ [] := by
      intro h
      rw [h] at hsplit
      exact hfne hsplit.symm
    exact WorldSocket.feedReads_frame alg w hdr payload hl hrej hpl.symm chunks s [] hch hne
      (by simp [hsplit]) hs
  · obtain ⟨s', r, h⟩ := WorldSocket.feedReads_frame alg w hdr payload hl hrej hpl.symm
      [hdr ++ payload] s [] (by simp) (by simpa using hfne) (by simp) hs
    exact ⟨s', r, by simpa using h⟩

/-- Witness of C2: a keepalive frame with a 2-byte payload, fed to the sample connection in
four chunks that cut the header and the payload. -/
theorem split_feed_dispatches_once_witness :
    ([[0], [6, 7], [4, 0, 0, 7], [8]] : List (List Nat)).flatten = [0, 6, 7, 4, 0, 0] ++ [7, 8] ∧
    (∃ s' r, WorldSocket.feedReads sampleCipher sampleWorld sampleSocket
        [[0], [6, 7], [4, 0, 0, 7], [8]] =
      .ok (s', List.replicate (([[0], [6, 7], [4, 0, 0, 7], [8]] : List (List Nat)).length - 1)
          (-1, []) ++
        [(r, [{ opcode := headerCmd [0, 6, 7, 4, 0, 0], data := [7, 8] }])])) ∧
    (∃ s' r, WorldSocket.feedReads sampleCipher sampleWorld sampleSocket
        [[0, 6, 7, 4, 0, 0] ++ [7, 8]] =
      .ok (s', [(r, [{ opcode := headerCmd [0, 6, 7, 4, 0, 0], data := [7, 8] }])])) :=
  ⟨by decide,
    split_feed_dispatches_once sampleCipher sampleWorld sampleSocket [0, 6, 7, 4, 0, 0] [7, 8]
      [[0], [6, 7], [4, 0, 0, 7], [8]] ⟨rfl, rfl, rfl⟩ rfl (by decide) (by decide) (by decide)
      (by decide) (by decide) (by decide)⟩


/-! ## The reply on the security-limit path -/

/-- C11 does not hold of the code: the sample account has security level 0 and, in
`lockedWorld`, the player security limit is 1, every earlier check passing.
`HandleAuthSession` returns `-1` after sending the default-constructed `packet` of line
742 (opcode 0, no payload; its frame is `00 02 00 00`), the call of line 920 naming
`packet` where lines 917-918 built `Packet`: the frame of an `SMSG_AUTH_RESPONSE` carrying
`AUTH_UNAVAILABLE`, `00 03 EE 01 10`, is not sent. -/
theorem security_too_low_sends_default_packet :
    (∃ s1, WorldSocket.HandleAuthSession sampleCipher lockedWorld sampleSocket
        (sampleAuthRequest 1 (List.replicate 20 0)) = .ok (Handled.returned s1 (-1)) ∧
      s1.m_OutBuffer.data = [0, 2, 0, 0] ∧
      s1.externalCalls = [ExternalCall.UpdLastAttemptIp "10.0.0.1" [97],
        ExternalCall.OnFailedAccountLogin 7]) ∧
    (∃ s2, WorldSocket.SendPacket sampleCipher sampleSocket
        (WorldSocket.authResponse AUTH_UNAVAILABLE) = .ok (s2, 0) ∧
      s2.m_OutBuffer.data = [0, 3, 0xEE, 1, 0x10]) :=
  ⟨⟨_, rfl, rfl, rfl⟩, ⟨_, rfl, rfl⟩⟩

/-! ## `SendPacket` on a closing connection, a second authentication request -/

/-- C16: while the closing flag is set, `SendPacket` returns `-1` and leaves the whole
connection as it was: direct buffer, queue, cipher and everything else. -/
theorem SendPacket_closing {σ : Type} (alg : CipherAlg σ) (s : WorldSocket σ)
    (pct : WorldPacket) (hc : s.closing_ = true) :
    WorldSocket.SendPacket alg s pct = .ok (s, -1) := by
  unfold WorldSocket.SendPacket
  simp [hc]

/-- Witness of C16: the sample connection with the closing flag set. -/
theorem SendPacket_closing_witness :
    WorldSocket.SendPacket sampleCipher { sampleSocket with closing_ := true }
        { opcode := SMSG_PONG, data := [1, 0, 0, 0] } =
      .ok ({ sampleSocket with closing_ := true }, -1) :=
  SendPacket_closing sampleCipher { sampleSocket with closing_ := true }
    { opcode := SMSG_PONG, data := [1, 0, 0, 0] } rfl

/-- C20: with a session attached, `ProcessIncoming` of a `CMSG_AUTH_SESSION` packet returns
`-1` and leaves the connection exactly as it was, whatever the world holds: the handler
`HandleAuthSession` and its account lookup are not reached, the session, the cipher and the
list of external calls are unchanged. -/
theorem ProcessIncoming_second_auth {σ : Type} (alg : CipherAlg σ) (w : World)
    (s : WorldSocket σ) (pkt : WorldPacket) (hs : s.m_Session.isSome = true)
    (hop : pkt.opcode = CMSG_AUTH_SESSION) :
    WorldSocket.ProcessIncoming alg w s pkt = .ok (s, -1) := by
  have hp : ¬ CMSG_AUTH_SESSION = CMSG_PING := by decide
  unfold WorldSocket.ProcessIncoming
  by_cases hc : s.closing_ = true
  · simp [hc]
  · simp [hc, hop, hp, hs]

/-- Witness of C20: the authenticated sample connection receives the sample request. -/
theorem ProcessIncoming_second_auth_witness :
    WorldSocket.ProcessIncoming sampleCipher sampleWorld sampleAuthedSocket
        (sampleAuthRequest 1 (List.replicate 20 0)) = .ok (sampleAuthedSocket, -1) :=
  ProcessIncoming_second_auth sampleCipher sampleWorld sampleAuthedSocket
    (sampleAuthRequest 1 (List.replicate 20 0)) rfl rfl


/-! ## The ping tracker -/

theorem readU32_of_length (data : List Nat) (h : 4 ≤ data.length) :
    ∃ v, readU32 data = some (v, data.drop 4) := by
  match data, h with
  | b0 :: b1 :: b2 :: b3 :: rest, _ => exact ⟨_, rfl⟩

/-- `HandlePing` on a packet that holds both fields, in terms of the cadence bookkeeping. -/
theorem WorldSocket.HandlePing_parsed {σ : Type} (alg : CipherAlg σ) (w : World)
    (s : WorldSocket σ) (pkt : WorldPacket) (h8 : 8 ≤ pkt.data.length) :
    ∃ ping latency,
      WorldSocket.overSpeedKick w s pkt = (WorldSocket.pingCadence w s).2 ∧
      WorldSocket.HandlePing alg w s pkt =
        (if (WorldSocket.pingCadence w s).2 = true then
          .ok (Handled.returned (WorldSocket.pingCadence w s).1 (-1))
        else
          match (WorldSocket.pingCadence w s).1.m_Session with
          | none => .ok (Handled.returned (WorldSocket.pingCadence w s).1 (-1))
          | some sess =>
              match WorldSocket.SendPacket alg
                { (WorldSocket.pingCadence w s).1 with
                  m_Session := some
                    ((sess.SetLatency latency).call SessionCall.ResetClientTimeDelay) }
                { opcode := SMSG_PONG, data := putU32 ping } with
              | .error f => .error f
              | .ok r => .ok (Handled.returned r.1 r.2)) := by
  obtain ⟨ping, h1⟩ := readU32_of_length pkt.data (by omega)
  obtain ⟨latency, h2⟩ := readU32_of_length (pkt.data.drop 4) (by simp; omega)
  refine ⟨ping, latency, ?_, ?_⟩
  · simp only [WorldSocket.overSpeedKick, h1, h2]
  · simp only [WorldSocket.HandlePing, h1, h2]

theorem WorldSocket.pingCadence_session {σ : Type} (w : World) (s : WorldSocket σ) :
    (WorldSocket.pingCadence w s).1.m_Session = s.m_Session := by
  unfold WorldSocket.pingCadence
  split
  · rfl
  · simp only []
    split_ifs <;> try rfl
    all_goals (split <;> try split_ifs) <;> rfl

theorem WorldSocket.pingCadence_first {σ : Type} (w : World) (s : WorldSocket σ)
    (hl : s.m_LastPingTime = none) :
    WorldSocket.pingCadence w s = ({ s with m_LastPingTime := some w.clockNow }, false) := by
  simp only [WorldSocket.pingCadence, hl]

/-- The cadence bookkeeping of a ping that is not the first. -/
theorem WorldSocket.pingCadence_next {σ : Type} (w : World) (s : WorldSocket σ) (last : Int)
    (hl : s.m_LastPingTime = some last) :
    (WorldSocket.pingCadence w s).1 =
      { s with
        m_LastPingTime := some w.clockNow
        m_OverSpeedPings :=
          if WorldSocket.elapsedSeconds w last w.clockNow < 27 then
            (s.m_OverSpeedPings + 1) % 2 ^ 32
          else 0 } ∧
    ((WorldSocket.pingCadence w s).2 = true ↔
      WorldSocket.elapsedSeconds w last w.clockNow < 27 ∧ w.CONFIG_MAX_OVERSPEED_PINGS ≠ 0 ∧
        w.CONFIG_MAX_OVERSPEED_PINGS < (s.m_OverSpeedPings + 1) % 2 ^ 32 ∧
        ∃ sess, s.m_Session = some sess ∧ sess.security = SEC_PLAYER) := by
  simp only [WorldSocket.pingCadence, hl, WorldSocket.elapsedSeconds]
  by_cases hs : Int.tdiv (w.clockNow - last) (w.clockTicksPerSecond : Int) < 27
  · simp only [if_pos hs]
    by_cases hm : w.CONFIG_MAX_OVERSPEED_PINGS ≠ 0 ∧
        (s.m_OverSpeedPings + 1) % 2 ^ 32 > w.CONFIG_MAX_OVERSPEED_PINGS
    · simp only [if_pos hm]
      rcases hsess : s.m_Session with _ | sess
      · simp [hm.1]
      · by_cases hp : sess.security = SEC_PLAYER
        · simp only [if_pos hp]
          refine ⟨by first | rfl | trivial, ?_⟩
          simp only [true_iff]
          exact ⟨hs, hm.1, hm.2, sess, rfl, hp⟩
        · simp only [if_neg hp]
          refine ⟨by first | rfl | trivial, ?_⟩
          simp [hp]
    · simp only [if_neg hm]
      refine ⟨by first | rfl | trivial, ?_⟩
      simp only [Bool.false_eq_true, false_iff]
      rintro ⟨-, h1, h2, -⟩
      exact hm ⟨h1, h2⟩
  · simp only [if_neg hs]
    refine ⟨by first | rfl | trivial, ?_⟩
    simp only [Bool.false_eq_true, false_iff]
    rintro ⟨h, -⟩
    exact hs h

/-- What every `HandlePing` on a packet with both fields leaves: the ping time and the
counter of the cadence bookkeeping, and a session of the same security level. -/
theorem WorldSocket.HandlePing_step {σ : Type} (alg : CipherAlg σ) (w : World)
    (s : WorldSocket σ) (pkt : WorldPacket) (h8 : 8 ≤ pkt.data.length) :
    ∃ h, WorldSocket.HandlePing alg w s pkt = .ok h ∧
      h.sock.m_LastPingTime = (WorldSocket.pingCadence w s).1.m_LastPingTime ∧
      h.sock.m_OverSpeedPings = (WorldSocket.pingCadence w s).1.m_OverSpeedPings ∧
      (∀ sess, s.m_Session = some sess →
        ∃ sess1, h.sock.m_Session = some sess1 ∧ sess1.security = sess.security) := by
  obtain ⟨ping, latency, -, hp⟩ := WorldSocket.HandlePing_parsed alg w s pkt h8
  have hsess := WorldSocket.pingCadence_session w s
  rw [hp]
  by_cases hk : (WorldSocket.pingCadence w s).2 = true
  · simp only [if_pos hk]
    refine ⟨_, rfl, rfl, rfl, ?_⟩
    intro sess hs
    exact ⟨sess, by simp only [Handled.sock, hsess, hs], rfl⟩
  · simp only [if_neg hk]
    rcases hs : (WorldSocket.pingCadence w s).1.m_Session with _ | sess
    · refine ⟨_, rfl, rfl, rfl, ?_⟩
      intro sess1 hs1
      rw [hsess, hs1] at hs
      exact absurd hs (by simp)
    · simp only [WorldSocket.SendPacket_eq]
      refine ⟨_, rfl, ?_, ?_, ?_⟩
      · simp only [Handled.sock]
        split_ifs <;> rfl
      · simp only [Handled.sock]
        split_ifs <;> rfl
      · intro sess1 hs1
        rw [hsess, hs1] at hs
        simp only [Option.some.injEq] at hs
        subst hs
        refine ⟨(sess1.SetLatency latency).call SessionCall.ResetClientTimeDelay, ?_, rfl⟩
        simp only [Handled.sock]
        split_ifs <;> rfl

/-- C15, as stated, fails without a session: the first ping on the sample connection, which
is not authenticated, records the time and then returns `-1` (lines 1079-1086). -/
theorem first_ping_without_session_fails :
    sampleSocket.m_LastPingTime = none ∧
    WorldSocket.HandlePing sampleCipher sampleWorld sampleSocket samplePing =
      .ok (Handled.returned { sampleSocket with m_LastPingTime := some 0 } (-1)) :=
  ⟨rfl, rfl⟩

/-- The three submissions of `fillRun`, for arbitrary payloads of its three sizes: all are
queued, the direct buffer stays empty, and the queue holds more than its high water mark. -/
theorem WorldSocket.fill_state (a b c : List Nat) (ha : a.length = 65533)
    (hb : b.length = 4194304) (hc : c.length = 4194304) :
    ∃ (s3 : WorldSocket Nat) (f1 f2 f3 : List Nat) (z1 z2 z3 : Nat),
      WorldSocket.outRun sampleCipher sampleSocket
        [OutEvent.send { opcode := 0x1F6, data := a },
         OutEvent.send { opcode := 0x1F6, data := b },
         OutEvent.send { opcode := 0x1F6, data := c }] = .ok s3 ∧
      s3.closing_ = false ∧ s3.m_OutBuffer = sampleSocket.m_OutBuffer ∧
      s3.peer = sampleSocket.peer ∧
      s3.msg_queue.high_water_mark = 8388608 ∧
      s3.msg_queue.blocks = [{ data := f1, rd := 0, size := z1 },
        { data := f2, rd := 0, size := z2 }, { data := f3, rd := 0, size := z3 }] ∧
      65533 ≤ f1.length ∧ 4194308 ≤ z2 ∧ 4194308 ≤ z3 := by
  have hw0 : sampleSocket.msg_queue.high_water_mark = 8388608 := rfl
  have hq0 : sampleSocket.msg_queue.blocks = [] := rfl
  obtain ⟨s1, z1, h1, c1, b1, p1, w1, q1, l1, u1⟩ :=
    WorldSocket.SendPacket_enqueued sampleCipher sampleSocket
      { opcode := 0x1F6, data := a } rfl
      (Or.inr (by simp only [ha]; decide)) (by decide)
  simp only [ha] at l1 u1
  obtain ⟨s2, z2, h2, c2, b2, p2, w2, q2, l2, u2⟩ :=
    WorldSocket.SendPacket_enqueued sampleCipher s1
      { opcode := 0x1F6, data := b } c1
      (Or.inl (by rw [q1]; simp))
      (by simp only [MsgQueue.cur_bytes, q1, w1, hw0, hq0]; simp [MsgBlock.size]; omega)
  simp only [hb] at l2 u2
  obtain ⟨s3, z3, h3, c3, b3, p3, w3, q3, l3, u3⟩ :=
    WorldSocket.SendPacket_enqueued sampleCipher s2
      { opcode := 0x1F6, data := c } c2
      (Or.inl (by rw [q2]; simp))
      (by simp only [MsgQueue.cur_bytes, q2, q1, w2, w1, hw0, hq0]; simp [MsgBlock.size]; omega)
  simp only [hc] at l3 u3
  have hA := WorldSocket.frameOf_length_ge sampleCipher sampleSocket
    { opcode := 0x1F6, data := a }
  simp only [ha] at hA
  refine ⟨s3, WorldSocket.frameOf sampleCipher sampleSocket { opcode := 0x1F6, data := a },
    WorldSocket.frameOf sampleCipher s1 { opcode := 0x1F6, data := b },
    WorldSocket.frameOf sampleCipher s2 { opcode := 0x1F6, data := c },
    z1, z2, z3, ?_, c3, ?_, ?_, ?_, ?_, hA, l2, l3⟩
  · simp only [WorldSocket.outRun, WorldSocket.outStep, h1, h2, h3]
  · rw [b3, b2, b1]
  · rw [p3, p2, p1]
  · rw [w3, w2, w1, hw0]
  · rw [q3, q2, q1, hq0]
    rfl

/-- A packet submitted to a connection that is not closing, whose queue is not empty and
is at or above its high water mark: the queue refuses the block, `SendPacket` returns `-1`,
and neither the direct buffer nor the queue has changed. -/
theorem WorldSocket.SendPacket_refused {σ : Type} (alg : CipherAlg σ) (s : WorldSocket σ)
    (pct : WorldPacket) (hc : s.closing_ = false) (hq : s.msg_queue.blocks ≠ [])
    (hf : s.msg_queue.high_water_mark ≤ s.msg_queue.cur_bytes) :
    ∃ s1, WorldSocket.SendPacket alg s pct = .ok (s1, -1) ∧
      s1.m_OutBuffer = s.m_OutBuffer ∧ s1.msg_queue = s.msg_queue := by
  have he : ¬ s.msg_queue.is_empty = true := by
    simpa [MsgQueue.is_empty] using hq
  have hfull : s.msg_queue.is_full = true := by
    simp [MsgQueue.is_full, hf]
  refine ⟨{ s with m_Crypt := (WorldSocket.sendHeaderBytes alg s.m_Crypt pct).1 }, ?_, rfl, rfl⟩
  rw [WorldSocket.SendPacket_eq]
  simp only [hc, he, hfull, and_false, Bool.false_eq_true, if_false, if_true]

theorem WorldSocket.fill_then_refused (a b c : List Nat) (ha : a.length = 65533)
    (hb : b.length = 4194304) (hc : c.length = 4194304) (pct : WorldPacket) :
    ∃ s3, WorldSocket.outRun sampleCipher sampleSocket
        [OutEvent.send { opcode := 0x1F6, data := a },
         OutEvent.send { opcode := 0x1F6, data := b },
         OutEvent.send { opcode := 0x1F6, data := c }] = .ok s3 ∧
      s3.closing_ = false ∧ s3.msg_queue.is_empty = false ∧
      ∃ s4, WorldSocket.SendPacket sampleCipher s3 pct = .ok (s4, -1) ∧
        s4.m_OutBuffer = s3.m_OutBuffer ∧ s4.msg_queue = s3.msg_queue := by
  obtain ⟨s3, f1, f2, f3, z1, z2, z3, hrun, hcl, -, -, hw, hq, -, l2, l3⟩ :=
    WorldSocket.fill_state a b c ha hb hc
  refine ⟨s3, hrun, hcl, by simp [MsgQueue.is_empty, hq], ?_⟩
  apply WorldSocket.SendPacket_refused sampleCipher s3 pct hcl (by simp [hq])
  simp only [MsgQueue.cur_bytes, hq, hw, List.map_cons, List.map_nil, List.sum_cons,
    List.sum_nil]
  omega

/-- C17, as stated, fails when the queue is full: after the three submissions of `fillRun`
the sample connection is not closing and its queue is not empty, so a pong cannot go to the
direct buffer; `SendPacket` returns `-1` and appends no block, the queue is as it was. -/
theorem SendPacket_full_queue_appends_nothing :
    ∃ s3, WorldSocket.outRun sampleCipher sampleSocket fillRun = .ok s3 ∧
      s3.closing_ = false ∧ s3.msg_queue.is_empty = false ∧
      ∃ s4, WorldSocket.SendPacket sampleCipher s3 { opcode := SMSG_PONG, data := [1, 0, 0, 0] } =
          .ok (s4, -1) ∧
        s4.m_OutBuffer = s3.m_OutBuffer ∧ s4.msg_queue = s3.msg_queue :=
  WorldSocket.fill_then_refused (zeros 65533) (zeros 4194304) (zeros 4194304)
    (zeros_length _) (zeros_length _) (zeros_length _) _

/-- C17, amended: on a connection that is not closing, `SendPacket` appends header then
payload to the direct buffer, leaving the queue as it was, when the free space of the
direct buffer is at least payload length plus header length and the queue is empty; in
every other case it leaves the direct buffer as it was and, when the queue is below its
high water mark, appends one block holding header then payload at the tail of the queue
and returns `0`; when the queue is at or above the mark it appends nothing and returns
`-1`. -/
theorem SendPacket_placement {σ : Type} (alg : CipherAlg σ) (s : WorldSocket σ)
    (pct : WorldPacket) (hc : s.closing_ = false) :
    ∃ s1 r, WorldSocket.SendPacket alg s pct = .ok (s1, r) ∧
      (s.m_OutBuffer.space ≥
          pct.data.length + (sendPacketHeader pct.data.length pct.opcode).getHeaderLength ∧
        s.msg_queue.is_empty = true →
        r = 0 ∧ s1.msg_queue = s.msg_queue ∧
        s1.m_OutBuffer = { s.m_OutBuffer with
          data := s.m_OutBuffer.data ++ WorldSocket.frameOf alg s pct }) ∧
      (¬ (s.m_OutBuffer.space ≥
          pct.data.length + (sendPacketHeader pct.data.length pct.opcode).getHeaderLength ∧
        s.msg_queue.is_empty = true) →
        s1.m_OutBuffer = s.m_OutBuffer ∧
        (s.msg_queue.is_full = false →
          r = 0 ∧ s1.msg_queue = { s.msg_queue with
            blocks := s.msg_queue.blocks ++
              [{ data := WorldSocket.frameOf alg s pct, rd := 0
                 size := pct.data.length +
                   (sendPacketHeader pct.data.length pct.opcode).getHeaderLength }] }) ∧
        (s.msg_queue.is_full = true → r = -1 ∧ s1.msg_queue = s.msg_queue)) := by
  by_cases hd : s.m_OutBuffer.space ≥
      pct.data.length + (sendPacketHeader pct.data.length pct.opcode).getHeaderLength ∧
      s.msg_queue.is_empty = true
  · refine ⟨{ s with
        m_Crypt := (WorldSocket.sendHeaderBytes alg s.m_Crypt pct).1
        m_OutBuffer := { s.m_OutBuffer with
          data := s.m_OutBuffer.data ++
            ((WorldSocket.sendHeaderBytes alg s.m_Crypt pct).2 ++ pct.data) } }, 0, ?_, ?_, ?_⟩
    · rw [WorldSocket.SendPacket_eq]
      simp only [hc, hd, and_self, Bool.false_eq_true, if_false, if_true]
    · intro _
      exact ⟨rfl, rfl, rfl⟩
    · intro h
      exact absurd hd h
  · by_cases hf : s.msg_queue.is_full = true
    · refine ⟨{ s with m_Crypt := (WorldSocket.sendHeaderBytes alg s.m_Crypt pct).1 }, -1,
        ?_, ?_, ?_⟩
      · rw [WorldSocket.SendPacket_eq]
        simp only [hc, hd, hf, Bool.false_eq_true, if_false, if_true]
      · intro h
        exact absurd h hd
      · intro _
        refine ⟨rfl, ?_, ?_⟩
        · intro h
          rw [hf] at h
          exact absurd h (by decide)
        · intro _
          exact ⟨rfl, rfl⟩
    · refine ⟨{ s with
          m_Crypt := (WorldSocket.sendHeaderBytes alg s.m_Crypt pct).1
          msg_queue := { s.msg_queue with
            blocks := s.msg_queue.blocks ++
              [{ data := (WorldSocket.sendHeaderBytes alg s.m_Crypt pct).2 ++ pct.data
                 rd := 0
                 size := pct.data.length +
                   (sendPacketHeader pct.data.length pct.opcode).getHeaderLength }] } }, 0,
        ?_, ?_, ?_⟩
      · rw [WorldSocket.SendPacket_eq]
        simp only [hc, hd, hf, Bool.false_eq_true, if_false]
      · intro h
        exact absurd h hd
      · intro _
        refine ⟨rfl, ?_, ?_⟩
        · intro _
          exact ⟨rfl, rfl⟩
        · intro h
          exact absurd h hf

/-- Witness of C17: a pong submitted to the sample connection, which is not closing. -/
theorem SendPacket_placement_witness :
    ∃ s1 r, WorldSocket.SendPacket sampleCipher sampleSocket
        { opcode := SMSG_PONG, data := [1, 0, 0, 0] } = .ok (s1, r) ∧
      (sampleSocket.m_OutBuffer.space ≥
          4 + (sendPacketHeader 4 SMSG_PONG).getHeaderLength ∧
        sampleSocket.msg_queue.is_empty = true →
        r = 0 ∧ s1.msg_queue = sampleSocket.msg_queue ∧
        s1.m_OutBuffer = { sampleSocket.m_OutBuffer with
          data := sampleSocket.m_OutBuffer.data ++
            WorldSocket.frameOf sampleCipher sampleSocket
              { opcode := SMSG_PONG, data := [1, 0, 0, 0] } }) ∧
      (¬ (sampleSocket.m_OutBuffer.space ≥
          4 + (sendPacketHeader 4 SMSG_PONG).getHeaderLength ∧
        sampleSocket.msg_queue.is_empty = true) →
        s1.m_OutBuffer = sampleSocket.m_OutBuffer ∧
        (sampleSocket.msg_queue.is_full = false →
          r = 0 ∧ s1.msg_queue = { sampleSocket.msg_queue with
            blocks := sampleSocket.msg_queue.blocks ++
              [{ data := WorldSocket.frameOf sampleCipher sampleSocket
                   { opcode := SMSG_PONG, data := [1, 0, 0, 0] }, rd := 0
                 size := 4 + (sendPacketHeader 4 SMSG_PONG).getHeaderLength }] }) ∧
        (sampleSocket.msg_queue.is_full = true →
          r = -1 ∧ s1.msg_queue = sampleSocket.msg_queue)) :=
  SendPacket_placement sampleCipher sampleSocket { opcode := SMSG_PONG, data := [1, 0, 0, 0] } rfl

/-- The `send` of `handle_output_queue` when the socket takes `n` bytes of the head block,
`0 < n < L`: what the function does next depends only on whether the queue takes the block
back. -/
theorem WorldSocket.handle_output_queue_partial_eq {σ : Type} (s : WorldSocket σ)
    (mb : MsgBlock) (rest : List MsgBlock) (n : Nat)
    (hb : s.msg_queue.blocks = mb :: rest) (hn : 0 < n) (hlt : n < mb.length) :
    WorldSocket.handle_output_queue s (SendAnswer.room n) =
      (match ({ s.msg_queue with blocks := rest } : MsgQueue).enqueue_head (mb.rd_ptr n) with
        | none =>
            ({ s with msg_queue := { s.msg_queue with blocks := rest }
                      peer := { s.peer with sent := s.peer.sent ++ mb.unsent.take n } }, -1)
        | some q2 =>
            WorldSocket.schedule_wakeup_output
              { s with msg_queue := q2
                       peer := { s.peer with sent := s.peer.sent ++ mb.unsent.take n } }) := by
  have he : s.msg_queue.is_empty = false := by simp [MsgQueue.is_empty, hb]
  have hd : s.msg_queue.dequeue_head = some (mb, { s.msg_queue with blocks := rest }) := by
    simp [MsgQueue.dequeue_head, hb]
  have hul := MsgBlock.unsent_length mb
  have hmin : min n mb.unsent.length = n := by omega
  have hn0 : ¬ n = 0 := by omega
  have h1 : ¬ ((n : Nat) : Int) = 0 := by omega
  have h2 : ¬ ((n : Nat) : Int) = -1 := by omega
  have h3 : ((n : Nat) : Int) < ((mb.length : Nat) : Int) := by omega
  unfold WorldSocket.handle_output_queue
  simp only [he, hd, Bool.false_eq_true, if_false, MsgBlock.take_length_unsent,
    WorldSocket.peerSend, hn0, hmin, h1, h2, h3, if_true, Int.toNat_ofNat]

/-- The three submissions of `fillRun`, for arbitrary payloads of its three sizes, then a
`handle_output_queue` in which the socket takes one byte: the queue refuses the head block
and the function returns `-1`. -/
theorem WorldSocket.fill_then_partial (a b c : List Nat) (ha : a.length = 65533)
    (hb : b.length = 4194304) (hc : c.length = 4194304) :
    ∃ s3 mb rest, WorldSocket.outRun sampleCipher sampleSocket
        [OutEvent.send { opcode := 0x1F6, data := a },
         OutEvent.send { opcode := 0x1F6, data := b },
         OutEvent.send { opcode := 0x1F6, data := c }] = .ok s3 ∧
      s3.m_OutBuffer.length = 0 ∧ s3.msg_queue.blocks = mb :: rest ∧ 1 < mb.length ∧
      (WorldSocket.handle_output_queue s3 (SendAnswer.room 1)).2 = -1 ∧
      (WorldSocket.handle_output_queue s3 (SendAnswer.room 1)).1.msg_queue.blocks = rest := by
  obtain ⟨s3, f1, f2, f3, z1, z2, z3, hrun, hcl, hbuf, -, hw, hq, l1, l2, l3⟩ :=
    WorldSocket.fill_state a b c ha hb hc
  have hlen : 1 < ({ data := f1, rd := 0, size := z1 } : MsgBlock).length := by
    simp only [MsgBlock.length]
    omega
  have hfull : ({ s3.msg_queue with
      blocks := [{ data := f2, rd := 0, size := z2 }, { data := f3, rd := 0, size := z3 }] } :
        MsgQueue).is_full = true := by
    simp only [MsgQueue.is_full, MsgQueue.cur_bytes, hw, List.map_cons, List.map_nil,
      List.sum_cons, List.sum_nil, decide_eq_true_eq]
    omega
  refine ⟨s3, _, _, hrun, by rw [hbuf]; rfl, hq, hlen, ?_, ?_⟩
  · rw [WorldSocket.handle_output_queue_partial_eq s3 _ _ 1 hq (by decide) hlen]
    simp only [MsgQueue.enqueue_head, hfull, if_true]
  · rw [WorldSocket.handle_output_queue_partial_eq s3 _ _ 1 hq (by decide) hlen]
    simp only [MsgQueue.enqueue_head, hfull, if_true]

/-- C18, as stated, fails above the high water mark: after the three submissions of
`fillRun` the direct buffer of the sample connection is empty and the head block of the
queue has more than one unsent byte; the socket takes one byte, the queue refuses to take
the block back (line 400), `handle_output_queue` returns `-1` and the block is gone from
the queue. -/
theorem partial_write_drops_head_block :
    ∃ s3 mb rest, WorldSocket.outRun sampleCipher sampleSocket fillRun = .ok s3 ∧
      s3.m_OutBuffer.length = 0 ∧ s3.msg_queue.blocks = mb :: rest ∧ 1 < mb.length ∧
      (WorldSocket.handle_output_queue s3 (SendAnswer.room 1)).2 = -1 ∧
      (WorldSocket.handle_output_queue s3 (SendAnswer.room 1)).1.msg_queue.blocks = rest :=
  WorldSocket.fill_then_partial (zeros 65533) (zeros 4194304) (zeros 4194304)
    (zeros_length _) (zeros_length _) (zeros_length _)

/-- C18, amended: when the socket takes only `n` bytes of the head block of the queue, of
unsent length `L` with `0 < n < L`, and the blocks behind the head are below the high water
mark of the queue, `handle_output_queue` puts that block back at the head with its read
cursor advanced by `n`, its bytes untouched, so that its unsent bytes are the last `L - n`;
the other blocks follow in their order, the `n` bytes are on the wire, the direct buffer is
as it was and the function returns `0`. -/
theorem handle_output_queue_partial {σ : Type} (s : WorldSocket σ) (mb : MsgBlock)
    (rest : List MsgBlock) (n : Nat) (hb : s.msg_queue.blocks = mb :: rest) (hn : 0 < n)
    (hlt : n < mb.length)
    (hroom : (rest.map MsgBlock.size).sum < s.msg_queue.high_water_mark) :
    (WorldSocket.handle_output_queue s (SendAnswer.room n)).2 = 0 ∧
    (WorldSocket.handle_output_queue s (SendAnswer.room n)).1.msg_queue.blocks =
      { mb with rd := mb.rd + n } :: rest ∧
    ({ mb with rd := mb.rd + n } : MsgBlock).unsent = mb.unsent.drop n ∧
    (mb.unsent.drop n).length = mb.length - n ∧
    (WorldSocket.handle_output_queue s (SendAnswer.room n)).1.peer.sent =
      s.peer.sent ++ mb.unsent.take n ∧
    (WorldSocket.handle_output_queue s (SendAnswer.room n)).1.m_OutBuffer = s.m_OutBuffer := by
  have hnf : ({ s.msg_queue with blocks := rest } : MsgQueue).is_full = false := by
    simp only [MsgQueue.is_full, MsgQueue.cur_bytes, decide_eq_false_iff_not]
    omega
  rw [WorldSocket.handle_output_queue_partial_eq s mb rest n hb hn hlt]
  simp only [MsgQueue.enqueue_head, hnf, Bool.false_eq_true, if_false,
    WorldSocket.schedule_wakeup_output, MsgBlock.rd_ptr]
  refine ⟨?_, ?_, ?_, ?_, ?_, ?_⟩
  · split_ifs <;> rfl
  · split_ifs <;> rfl
  · simp [MsgBlock.unsent, List.drop_drop, Nat.add_comm]
  · simp only [List.length_drop, MsgBlock.unsent_length]
  · split_ifs <;> rfl
  · split_ifs <;> rfl

/-- Witness of C18: a queue of two blocks, the socket takes two of the four unsent bytes of
the first. -/
theorem handle_output_queue_partial_witness :
    (WorldSocket.handle_output_queue
        { sampleSocket with msg_queue := { sampleSocket.msg_queue with
            blocks := [{ data := [1, 2, 3, 4, 5], rd := 1, size := 5 },
                       { data := [6, 7], rd := 0, size := 2 }] } }
        (SendAnswer.room 2)).2 = 0 ∧
    (WorldSocket.handle_output_queue
        { sampleSocket with msg_queue := { sampleSocket.msg_queue with
            blocks := [{ data := [1, 2, 3, 4, 5], rd := 1, size := 5 },
                       { data := [6, 7], rd := 0, size := 2 }] } }
        (SendAnswer.room 2)).1.msg_queue.blocks =
      [{ data := [1, 2, 3, 4, 5], rd := 3, size := 5 }, { data := [6, 7], rd := 0, size := 2 }] ∧
    ({ data := [1, 2, 3, 4, 5], rd := 3, size := 5 } : MsgBlock).unsent = [4, 5] ∧
    ([4, 5] : List Nat).length = 4 - 2 ∧
    (WorldSocket.handle_output_queue
        { sampleSocket with msg_queue := { sampleSocket.msg_queue with
            blocks := [{ data := [1, 2, 3, 4, 5], rd := 1, size := 5 },
                       { data := [6, 7], rd := 0, size := 2 }] } }
        (SendAnswer.room 2)).1.peer.sent = [2, 3] ∧
    (WorldSocket.handle_output_queue
        { sampleSocket with msg_queue := { sampleSocket.msg_queue with
            blocks := [{ data := [1, 2, 3, 4, 5], rd := 1, size := 5 },
                       { data := [6, 7], rd := 0, size := 2 }] } }
        (SendAnswer.room 2)).1.m_OutBuffer = sampleSocket.m_OutBuffer :=
  handle_output_queue_partial
    { sampleSocket with msg_queue := { sampleSocket.msg_queue with
        blocks := [{ data := [1, 2, 3, 4, 5], rd := 1, size := 5 },
                   { data := [6, 7], rd := 0, size := 2 }] } }
    { data := [1, 2, 3, 4, 5], rd := 1, size := 5 } [{ data := [6, 7], rd := 0, size := 2 }] 2
    rfl (by decide) (by decide) (by decide)


/-! ## Several frames in one read -/

theorem WorldSocket.SendPacket_header {σ : Type} (alg : CipherAlg σ) (s : WorldSocket σ)
    (pct : WorldPacket) :
    ∃ r, WorldSocket.SendPacket alg s pct = .ok r ∧ r.1.m_Header = s.m_Header := by
  refine ⟨_, WorldSocket.SendPacket_eq alg s pct, ?_⟩
  split_ifs <;> rfl

/-- A failure reply sent from a state that has the header block of `s` leaves that header
block. -/
theorem WorldSocket.replyAndFail_header {σ : Type} (alg : CipherAlg σ) (s s0 : WorldSocket σ)
    (pkt : WorldPacket) (after : List ExternalCall) (h0 : s0.m_Header = s.m_Header) :
    ∃ h, WorldSocket.replyAndFail alg s0 pkt after = .ok h ∧ h.sock.m_Header = s.m_Header := by
  obtain ⟨r, hr, hh⟩ := WorldSocket.SendPacket_header alg s0 pkt
  refine ⟨Handled.returned { r.1 with externalCalls := r.1.externalCalls ++ after } (-1), ?_,
    hh.trans h0⟩
  simp only [WorldSocket.replyAndFail, hr]

theorem WorldSocket.authAccepted_header {σ : Type} (alg : CipherAlg σ) (w : World)
    (s s0 : WorldSocket σ) (pkt : WorldPacket) (f : AuthSessionFields) (row : AccountRow)
    (security : Nat) (skipQueue : Bool) (expansion : Nat) (mutetime : Int) (locale : Nat)
    (h0 : s0.m_Header = s.m_Header) :
    ∃ h, WorldSocket.authAccepted alg w s0 pkt f row security skipQueue expansion mutetime
      locale = .ok h ∧ h.sock.m_Header = s.m_Header := by
  unfold WorldSocket.authAccepted
  by_cases hcl : w.IsClosedAtLine983 = true
  · simp only [if_pos hcl]
    exact WorldSocket.replyAndFail_header alg s _ _ _ h0
  · simp only [if_neg hcl]
    by_cases hrealm : f.realm ≠ w.realmID
    · simp only [if_pos hrealm]
      exact WorldSocket.replyAndFail_header alg s _ _ _ h0
    · simp only [if_neg hrealm]
      exact ⟨_, rfl, h0⟩

theorem WorldSocket.HandleAuthSession_header {σ : Type} (alg : CipherAlg σ) (w : World)
    (s : WorldSocket σ) (pkt : WorldPacket) :
    ∃ h, WorldSocket.HandleAuthSession alg w s pkt = .ok h ∧ h.sock.m_Header = s.m_Header := by
  unfold WorldSocket.HandleAuthSession
  by_cases hcl : w.IsClosed = true
  · simp only [if_pos hcl]
    exact WorldSocket.replyAndFail_header alg s _ _ _ rfl
  · simp only [if_neg hcl]
    rcases hrd : readAuthSession pkt.data with _ | f
    · exact ⟨_, rfl, rfl⟩
    · simp only []
      rcases hacc : w.accountInfoByName f.account with _ | row
      · exact WorldSocket.replyAndFail_header alg s _ _ _ rfl
      · simp only []
        by_cases h1 : row.locked % 256 = 1 ∧ row.last_ip ≠ s.m_Address
        · simp only [if_pos h1]
          exact WorldSocket.replyAndFail_header alg s _ _ _ rfl
        · simp only [if_neg h1]
          by_cases h2 : w.CONFIG_WARDEN_ENABLED = true ∧ row.os ≠ "Win" ∧ row.os ≠ "OSX"
          · simp only [if_pos h2]
            exact WorldSocket.replyAndFail_header alg s _ _ _ (by split_ifs <;> rfl)
          · simp only [if_neg h2]
            by_cases h3 : w.bans row.id s.m_Address = true
            · simp only [if_pos h3]
              exact WorldSocket.replyAndFail_header alg s _ _ _ (by split_ifs <;> rfl)
            · simp only [if_neg h3]
              split_ifs
              all_goals first
                | exact WorldSocket.replyAndFail_header alg s _ _ _ rfl
                | exact WorldSocket.authAccepted_header alg w s _ pkt f row _ _ _ _ _ rfl

theorem WorldSocket.HandlePing_header {σ : Type} (alg : CipherAlg σ) (w : World)
    (s : WorldSocket σ) (pkt : WorldPacket) :
    ∃ h, WorldSocket.HandlePing alg w s pkt = .ok h ∧ h.sock.m_Header = s.m_Header := by
  have hcad : (WorldSocket.pingCadence w s).1.m_Header = s.m_Header := by
    unfold WorldSocket.pingCadence
    split
    · rfl
    · simp only []
      split_ifs <;> try rfl
      all_goals (split <;> try split_ifs) <;> rfl
  unfold WorldSocket.HandlePing
  rcases h1 : readU32 pkt.data with _ | ⟨ping, rest⟩
  · exact ⟨_, rfl, rfl⟩
  · simp only []
    rcases h2 : readU32 rest with _ | ⟨latency, rest2⟩
    · exact ⟨_, rfl, rfl⟩
    · simp only []
      by_cases hc : (WorldSocket.pingCadence w s).2 = true
      · simp only [if_pos hc]
        exact ⟨_, rfl, hcad⟩
      · simp only [if_neg hc]
        rcases hs : (WorldSocket.pingCadence w s).1.m_Session with _ | sess
        · exact ⟨_, rfl, hcad⟩
        · simp only []
          obtain ⟨r, hr, hh⟩ := WorldSocket.SendPacket_header alg
            { (WorldSocket.pingCadence w s).1 with
              m_Session := some
                ((sess.SetLatency latency).call SessionCall.ResetClientTimeDelay) }
            { opcode := SMSG_PONG, data := putU32 ping }
          rw [hr]
          exact ⟨_, rfl, hh.trans hcad⟩

/-- `ProcessIncoming` always returns and leaves the header block as it was. -/
theorem WorldSocket.ProcessIncoming_header {σ : Type} (alg : CipherAlg σ) (w : World)
    (s : WorldSocket σ) (pkt : WorldPacket) :
    ∃ r, WorldSocket.ProcessIncoming alg w s pkt = .ok r ∧ r.1.m_Header = s.m_Header := by
  unfold WorldSocket.ProcessIncoming
  simp only []
  by_cases hc : s.closing_ = true
  · simp only [if_pos hc]
    exact ⟨_, rfl, rfl⟩
  · simp only [if_neg hc]
    by_cases hp : pkt.opcode = CMSG_PING
    · simp only [if_pos hp]
      obtain ⟨h, hh, hs⟩ := WorldSocket.HandlePing_header alg w s pkt
      rw [hh]
      cases h <;> exact ⟨_, rfl, hs⟩
    · simp only [if_neg hp]
      by_cases ha : pkt.opcode = CMSG_AUTH_SESSION
      · simp only [if_pos ha]
        by_cases hs : s.m_Session.isSome = true
        · simp only [if_pos hs]
          exact ⟨_, rfl, rfl⟩
        · simp only [if_neg hs]
          obtain ⟨h, hh, hs⟩ := WorldSocket.HandleAuthSession_header alg w s pkt
          rw [hh]
          cases h <;> exact ⟨_, rfl, hs⟩
      · simp only [if_neg ha]
        by_cases hk : pkt.opcode = CMSG_KEEP_ALIVE
        · simp only [if_pos hk]
          exact ⟨_, rfl, rfl⟩
        · simp only [if_neg hk]
          rcases hs : s.m_Session with _ | sess <;> exact ⟨_, rfl, rfl⟩


theorem WorldSocket.decryptHeader_length {σ : Type} (alg : CipherAlg σ)
    (c : Option (AuthCrypt σ)) (hdr : List Nat) :
    (WorldSocket.decryptHeader alg c hdr).2.length = hdr.length := by
  cases c with
  | none => rfl
  | some c => simp [WorldSocket.decryptHeader, AuthCrypt.DecryptRecv, CipherAlg.update_length]

/-- The header stage on an empty assembler when the read holds a whole header that
`handle_input_header` accepts: the header is decrypted and decoded, a packet of the
declared payload size is pending, and the loop goes on with the bytes after the header. -/
theorem WorldSocket.headerStage_whole {σ : Type} (alg : CipherAlg σ) (s : WorldSocket σ)
    (hdr tail : List Nat) (hh : s.m_Header = MsgBlock.alloc 6) (hw : s.m_RecvWPct = none)
    (hp : s.m_RecvPct = MsgBlock.alloc 0) (hl : hdr.length = 6)
    (hrej : headerRejected (headerSize (WorldSocket.decryptHeader alg s.m_Crypt hdr).2)
      (headerCmd (WorldSocket.decryptHeader alg s.m_Crypt hdr).2) = false) :
    WorldSocket.headerStage alg s (hdr ++ tail) = .ok (Stage.go
      { s with
        m_Crypt := (WorldSocket.decryptHeader alg s.m_Crypt hdr).1
        m_Header :=
          { data := storeU16 (headerSize (WorldSocket.decryptHeader alg s.m_Crypt hdr).2 - 4) ++
              (WorldSocket.decryptHeader alg s.m_Crypt hdr).2.drop 2
            rd := 0, size := 6 }
        m_RecvWPct := some
          { opcode := headerCmd (WorldSocket.decryptHeader alg s.m_Crypt hdr).2 % 2 ^ 16
            data := List.replicate
              (headerSize (WorldSocket.decryptHeader alg s.m_Crypt hdr).2 - 4) 0 }
        m_RecvPct := { data := [], rd := 0
                       size := headerSize (WorldSocket.decryptHeader alg s.m_Crypt hdr).2 - 4 } }
      tail) := by
  have hsp : s.m_Header.space = 6 := by simp [hh, MsgBlock.space, MsgBlock.alloc]
  have hto : (if (hdr ++ tail).length > s.m_Header.space then s.m_Header.space
      else (hdr ++ tail).length) = 6 := by
    rw [hsp]
    simp only [List.length_append, hl]
    split_ifs <;> omega
  have htake : (hdr ++ tail).take 6 = hdr := by
    rw [List.take_append_of_le_length (by omega), List.take_of_length_le (by omega)]
  have hdrop : (hdr ++ tail).drop 6 = tail := by
    rw [List.drop_append_of_le_length (by omega), List.drop_of_length_le (by omega),
      List.nil_append]
  have hcopy : s.m_Header.copy hdr = some { data := hdr, rd := 0, size := 6 } := by
    rw [MsgBlock.copy_of_le _ _ (by rw [hsp, hl]), hh]
    simp [MsgBlock.alloc]
  have h1 : s.m_Header.space > 0 := by rw [hsp]; omega
  have h2 : ¬ ({ data := hdr, rd := 0, size := 6 } : MsgBlock).space > 0 := by
    simp only [MsgBlock.space, hl]
    omega
  unfold WorldSocket.headerStage
  simp only [h1, if_true, hto, htake, hdrop, hcopy, Option.getD_some, h2, if_false]
  unfold WorldSocket.handle_input_header
  simp only [hw, Option.isSome_none, Bool.false_eq_true, if_false, MsgBlock.length,
    MsgBlock.unsent, List.drop_zero, hl, ne_eq, not_true_eq_false,
    List.take_of_length_le (Nat.le_of_eq hl), hrej, List.take_zero,
    List.nil_append, Nat.sub_zero]
  by_cases hz : headerSize (WorldSocket.decryptHeader alg s.m_Crypt hdr).2 - 4 > 0
  · simp [hz, MsgBlock.base]
  · have hz0 : headerSize (WorldSocket.decryptHeader alg s.m_Crypt hdr).2 - 4 = 0 := by omega
    simp [hz0, hp, MsgBlock.space, MsgBlock.alloc]

/-- The dispatch of a complete packet and what follows in the iteration, whatever bytes
`rest` of the read remain: the packet goes to `ProcessIncoming`, the assembler is emptied,
and the iteration ends with `-1` or goes on with `rest`. -/
theorem WorldSocket.dispatch_whole {σ : Type} (alg : CipherAlg σ) (w : World)
    (s2 : WorldSocket σ) (pkt : WorldPacket) (h1 : s2.m_RecvPct.space = 0)
    (h2 : s2.m_Header.space = 0) (h6 : s2.m_Header.size = 6) (h3 : s2.m_RecvWPct = some pkt) :
    ∃ s3 ret, (s3.m_Header = MsgBlock.alloc 6 ∧ s3.m_RecvWPct = none ∧
        s3.m_RecvPct = MsgBlock.alloc 0) ∧
      ∀ (rest : List Nat) (d : List WorldPacket),
        (match WorldSocket.handle_input_payload alg w s2 with
          | Except.error f => (Except.error f : Except Fault (Iter σ))
          | Except.ok (s3, ret, pkt) =>
              if ret = -1 then
                if WorldSocket.wouldBlock s3.errno then Except.error Fault.assertFailed
                else Except.ok (Iter.ret s3 (-1) (d ++ [pkt]))
              else Except.ok (Iter.next s3 rest (d ++ [pkt]))) =
          Except.ok (if ret = -1 then Iter.ret s3 (-1) (d ++ [pkt])
            else Iter.next s3 rest (d ++ [pkt])) := by
  obtain ⟨r, hr, hhr⟩ := WorldSocket.ProcessIncoming_header alg w s2 pkt
  refine ⟨{ r.1 with
      m_RecvPct := (r.1.m_RecvPct.base 0).reset
      m_RecvWPct := none
      m_Header := r.1.m_Header.reset
      errno := if r.2 = -1 then Errno.EINVAL else r.1.errno }, r.2, ⟨?_, rfl, rfl⟩, ?_⟩
  · simp only [hhr, MsgBlock.reset, MsgBlock.alloc, h6]
  · intro rest d
    unfold WorldSocket.handle_input_payload
    simp only [h1, h2, h3, hr, ne_eq, not_true_eq_false, if_false]
    by_cases hret : r.2 = -1
    · simp [hret, WorldSocket.wouldBlock]
    · simp [hret]

/-- The payload stage and the dispatch on a read that holds the whole payload, then
`rest`. -/
theorem WorldSocket.afterHeader_whole {σ : Type} (alg : CipherAlg σ) (w : World)
    (s : WorldSocket σ) (cmd : Nat) (payload : List Nat)
    (hh : s.m_Header.space = 0) (h6 : s.m_Header.size = 6)
    (hw : s.m_RecvWPct = some { opcode := cmd, data := List.replicate payload.length 0 })
    (hp : s.m_RecvPct = { data := [], rd := 0, size := payload.length }) :
    ∃ s3 ret, (s3.m_Header = MsgBlock.alloc 6 ∧ s3.m_RecvWPct = none ∧
        s3.m_RecvPct = MsgBlock.alloc 0) ∧
      ∀ (rest : List Nat) (d : List WorldPacket),
        WorldSocket.afterHeader alg w s (payload ++ rest) d =
          .ok (if ret = -1 then Iter.ret s3 (-1) (d ++ [{ opcode := cmd, data := payload }])
            else Iter.next s3 rest (d ++ [{ opcode := cmd, data := payload }])) := by
  have hsp : s.m_RecvPct.space = payload.length := by simp [hp, MsgBlock.space]
  by_cases hnil : payload = []
  · subst hnil
    have h0 : ¬ s.m_RecvPct.space > 0 := by rw [hsp]; simp
    obtain ⟨s3, ret, hempty, hd⟩ := WorldSocket.dispatch_whole alg w s
      { opcode := cmd, data := [] } (by rw [hsp]; rfl) hh h6 (by rw [hw]; rfl)
    refine ⟨s3, ret, hempty, ?_⟩
    intro rest d
    unfold WorldSocket.afterHeader WorldSocket.payloadStage
    simp only [hw, h0, if_false, List.nil_append]
    exact hd rest d
  · have hpos : 0 < payload.length := List.length_pos.mpr hnil
    have h1 : s.m_RecvPct.space > 0 := by rw [hsp]; exact hpos
    have hcopy : s.m_RecvPct.copy payload =
        some { data := payload, rd := 0, size := payload.length } := by
      rw [MsgBlock.copy_of_le _ _ (by rw [hsp]), hp]
      simp
    have h2 : ¬ ({ data := payload, rd := 0, size := payload.length } : MsgBlock).space > 0 := by
      simp [MsgBlock.space]
    obtain ⟨s3, ret, hempty, hd⟩ := WorldSocket.dispatch_whole alg w
      { s with
        m_RecvPct := { data := payload, rd := 0, size := payload.length }
        m_RecvWPct := some { opcode := cmd, data := payload } }
      { opcode := cmd, data := payload } (by simp [MsgBlock.space]) hh h6 rfl
    refine ⟨s3, ret, hempty, ?_⟩
    intro rest d
    have hto : (if (payload ++ rest).length > s.m_RecvPct.space then s.m_RecvPct.space
        else (payload ++ rest).length) = payload.length := by
      rw [hsp]
      simp only [List.length_append]
      split_ifs <;> omega
    have htake : (payload ++ rest).take payload.length = payload := by
      simp
    have hdrop : (payload ++ rest).drop payload.length = rest := by
      simp
    unfold WorldSocket.afterHeader WorldSocket.payloadStage
    simp only [hw, h1, if_true, hto, htake, hdrop, WorldSocket.recvPctCopy, hcopy,
      Option.map_some', h2, if_false]
    simp only [MsgBlock.space, Nat.sub_self, List.replicate_zero, List.append_nil]
    exact hd rest d

/-- What `frameWellFormed` says, as propositions. -/
theorem WorldSocket.frameWellFormed_iff {σ : Type} (alg : CipherAlg σ)
    (c : Option (AuthCrypt σ)) (f : ClientFrame) :
    WorldSocket.frameWellFormed alg c f = true ↔
      f.header.length = 6 ∧
      headerRejected (headerSize (WorldSocket.decryptHeader alg c f.header).2)
        (headerCmd (WorldSocket.decryptHeader alg c f.header).2) = false ∧
      f.payload.length = headerSize (WorldSocket.decryptHeader alg c f.header).2 - 4 := by
  simp [WorldSocket.frameWellFormed, and_assoc]

/-- One iteration of the read loop on an empty assembler, when the read starts with a
whole well-formed frame: exactly the packet of the frame is dispatched, the assembler is
empty again, and the iteration ends with `-1` or goes on with the bytes after the frame. -/
theorem WorldSocket.iteration_whole_frame {σ : Type} (alg : CipherAlg σ) (w : World)
    (s : WorldSocket σ) (f : ClientFrame)
    (hempty : s.m_Header = MsgBlock.alloc 6 ∧ s.m_RecvWPct = none ∧
      s.m_RecvPct = MsgBlock.alloc 0)
    (hwf : WorldSocket.frameWellFormed alg s.m_Crypt f = true) :
    ∃ s3 ret, (s3.m_Header = MsgBlock.alloc 6 ∧ s3.m_RecvWPct = none ∧
        s3.m_RecvPct = MsgBlock.alloc 0) ∧
      ∀ (rest : List Nat) (d : List WorldPacket),
        WorldSocket.iteration alg w s (f.bytes ++ rest) d =
          .ok (if ret = -1 then
              Iter.ret s3 (-1) (d ++ [WorldSocket.framePacket alg s.m_Crypt f])
            else Iter.next s3 rest (d ++ [WorldSocket.framePacket alg s.m_Crypt f])) := by
  obtain ⟨hl, hrej, hpl⟩ := (WorldSocket.frameWellFormed_iff alg s.m_Crypt f).mp hwf
  have hdl := WorldSocket.decryptHeader_length alg s.m_Crypt f.header
  have hcmd : headerCmd (WorldSocket.decryptHeader alg s.m_Crypt f.header).2 % 2 ^ 16 =
      headerCmd (WorldSocket.decryptHeader alg s.m_Crypt f.header).2 := by
    have h := (headerRejected_iff
      (headerSize (WorldSocket.decryptHeader alg s.m_Crypt f.header).2)
      (headerCmd (WorldSocket.decryptHeader alg s.m_Crypt f.header).2)).not.mp (by simp [hrej])
    apply Nat.mod_eq_of_lt
    omega
  obtain ⟨s3, ret, he3, hit⟩ := WorldSocket.afterHeader_whole alg w
    { s with
      m_Crypt := (WorldSocket.decryptHeader alg s.m_Crypt f.header).1
      m_Header :=
        { data := storeU16 (headerSize (WorldSocket.decryptHeader alg s.m_Crypt f.header).2 - 4) ++
            (WorldSocket.decryptHeader alg s.m_Crypt f.header).2.drop 2
          rd := 0, size := 6 }
      m_RecvWPct := some
        { opcode := headerCmd (WorldSocket.decryptHeader alg s.m_Crypt f.header).2 % 2 ^ 16
          data := List.replicate
            (headerSize (WorldSocket.decryptHeader alg s.m_Crypt f.header).2 - 4) 0 }
      m_RecvPct := { data := [], rd := 0
                     size := headerSize (WorldSocket.decryptHeader alg s.m_Crypt f.header).2 - 4 } }
    (headerCmd (WorldSocket.decryptHeader alg s.m_Crypt f.header).2 % 2 ^ 16) f.payload
    (by simp only [MsgBlock.space, storeU16, List.length_append, List.length_cons,
          List.length_nil, List.length_drop, hdl, hl])
    rfl (by rw [hpl]) (by rw [hpl])
  refine ⟨s3, ret, he3, ?_⟩
  intro rest d
  unfold WorldSocket.iteration
  rw [ClientFrame.bytes, List.append_assoc,
    WorldSocket.headerStage_whole alg s f.header (f.payload ++ rest) hempty.1 hempty.2.1
      hempty.2.2 hl hrej]
  simp only []
  rw [hit rest d, hcmd]
  rfl

/-- The read loop on an empty assembler, when the read is a sequence of frames each well
formed and dispatched with success when its turn comes: the loop dispatches the packets of
the frames in order and ends with nothing left to read. -/
theorem WorldSocket.inputLoop_frames {σ : Type} (alg : CipherAlg σ) (w : World)
    (frames : List ClientFrame) :
    ∀ (s : WorldSocket σ) (pkts d : List WorldPacket) (fuel : Nat),
      (s.m_Header = MsgBlock.alloc 6 ∧ s.m_RecvWPct = none ∧ s.m_RecvPct = MsgBlock.alloc 0) →
      WorldSocket.frameRun alg w s frames = some pkts → frames.length ≤ fuel →
      (∃ s1, WorldSocket.inputLoop alg w fuel s (frames.flatMap ClientFrame.bytes) d =
          .ok (s1, none, d ++ pkts)) ∧
        pkts.length = frames.length ∧
        pkts.map WorldPacket.data = frames.map ClientFrame.payload ∧
        frames.length ≤ (frames.flatMap ClientFrame.bytes).length := by
  induction frames with
  | nil =>
      intro s pkts d fuel _ hrun _
      simp only [WorldSocket.frameRun, Option.some.injEq] at hrun
      subst hrun
      exact ⟨⟨s, by simp [WorldSocket.inputLoop_nil]⟩, rfl, rfl, by simp⟩
  | cons f fs ih =>
      intro s pkts d fuel hempty hrun hfuel
      by_cases hwf : WorldSocket.frameWellFormed alg s.m_Crypt f = true
      · obtain ⟨hl, -, -⟩ := (WorldSocket.frameWellFormed_iff alg s.m_Crypt f).mp hwf
        obtain ⟨s3, ret, he3, hit⟩ := WorldSocket.iteration_whole_frame alg w s f hempty hwf
        have hbl : f.bytes.length ≠ 0 := by
          simp only [ClientFrame.bytes, List.length_append, hl]
          omega
        have hbpos : f.bytes.length > 0 := by omega
        have hone := hit [] []
        simp only [List.append_nil, List.nil_append] at hone
        simp only [WorldSocket.frameRun, hwf, if_true, WorldSocket.handle_input_missing_data,
          hbl, if_false, WorldSocket.inputLoop, hbpos, hone] at hrun
        by_cases hret : ret = -1
        · simp [hret] at hrun
        · simp only [hret, if_false, WorldSocket.inputLoop_nil] at hrun
          have hne : ¬ (if f.bytes.length = 4096 then (1 : Int) else 2) = -1 := by
            split_ifs <;> decide
          simp only [hne, if_false] at hrun
          rcases hrest : WorldSocket.frameRun alg w s3 fs with _ | l
          · simp [hrest] at hrun
          · simp only [hrest, Option.map_some', Option.some.injEq] at hrun
            subst hrun
            obtain ⟨fuel1, rfl⟩ : ∃ k, fuel = k + 1 := by
              cases fuel with
              | zero => simp at hfuel
              | succ k => exact ⟨k, rfl⟩
            obtain ⟨⟨s1, h1⟩, h2, h3, h4⟩ := ih s3 l
              (d ++ [WorldSocket.framePacket alg s.m_Crypt f]) fuel1 he3 hrest
              (by simpa using hfuel)
            have hpos : (f.bytes ++ fs.flatMap ClientFrame.bytes).length > 0 := by
              simp only [List.length_append]
              omega
            refine ⟨⟨s1, ?_⟩, by simp [h2], by simp [h3, WorldSocket.framePacket], ?_⟩
            rotate_left
            · simp only [List.flatMap_cons, List.length_append, List.length_cons]
              omega
            simp only [List.flatMap_cons, WorldSocket.inputLoop, hpos, if_true, hit, hret,
              if_false, h1, List.append_assoc, List.singleton_append]
      · simp [WorldSocket.frameRun, hwf] at hrun

/-- C19: a read made of `k` client frames one after the other, fed to an empty assembler,
each frame well formed for the cipher state its header is read in and each dispatch
returning other than `-1`: `handle_input_missing_data` dispatches exactly `k` packets, in
the order of the frames, each with the opcode of its (decrypted) header and with its
payload; with no frame it dispatches nothing. -/
theorem frames_in_one_read {σ : Type} (alg : CipherAlg σ) (w : World) (s : WorldSocket σ)
    (frames : List ClientFrame) (pkts : List WorldPacket)
    (hempty : s.m_Header = MsgBlock.alloc 6 ∧ s.m_RecvWPct = none ∧
      s.m_RecvPct = MsgBlock.alloc 0)
    (hrun : WorldSocket.frameRun alg w s frames = some pkts) :
    (∃ s1 r, WorldSocket.handle_input_missing_data alg w s
        (RecvAnswer.bytes (frames.flatMap ClientFrame.bytes)) =
      .ok { sock := s1, ret := r, dispatched := pkts }) ∧
    pkts.length = frames.length ∧
    pkts.map WorldPacket.data = frames.map ClientFrame.payload := by
  obtain ⟨-, h2, h3, h4⟩ := WorldSocket.inputLoop_frames alg w frames s pkts [] frames.length
    hempty hrun (Nat.le_refl _)
  obtain ⟨⟨s1, h1⟩, -⟩ := WorldSocket.inputLoop_frames alg w frames s pkts []
    ((frames.flatMap ClientFrame.bytes).length + 1) hempty hrun (by omega)
  refine ⟨?_, h2, h3⟩
  unfold WorldSocket.handle_input_missing_data
  by_cases hz : (frames.flatMap ClientFrame.bytes).length = 0
  · have hf : frames = [] := List.eq_nil_of_length_eq_zero (by omega)
    have hp : pkts = [] := List.eq_nil_of_length_eq_zero (by rw [h2, hf]; rfl)
    subst hf
    subst hp
    exact ⟨s, 0, by simp⟩
  · simp only [hz, if_false, h1, List.nil_append]
    exact ⟨s1, _, rfl⟩

/-- Witness of C19: the three keepalive frames of `sampleFrames` in one read of the sample
connection. -/
theorem frames_in_one_read_witness :
    (∃ s1 r, WorldSocket.handle_input_missing_data sampleCipher sampleWorld sampleSocket
        (RecvAnswer.bytes (sampleFrames.flatMap ClientFrame.bytes)) =
      .ok { sock := s1, ret := r
            dispatched := [{ opcode := CMSG_KEEP_ALIVE, data := [7, 8] },
              { opcode := CMSG_KEEP_ALIVE, data := [] },
              { opcode := CMSG_KEEP_ALIVE, data := [9] }] }) ∧
    ([{ opcode := CMSG_KEEP_ALIVE, data := [7, 8] }, { opcode := CMSG_KEEP_ALIVE, data := [] },
      { opcode := CMSG_KEEP_ALIVE, data := [9] }] : List WorldPacket).length =
        sampleFrames.length ∧
    ([{ opcode := CMSG_KEEP_ALIVE, data := [7, 8] }, { opcode := CMSG_KEEP_ALIVE, data := [] },
      { opcode := CMSG_KEEP_ALIVE, data := [9] }] : List WorldPacket).map WorldPacket.data =
        sampleFrames.map ClientFrame.payload :=
  frames_in_one_read sampleCipher sampleWorld sampleSocket sampleFrames
    [{ opcode := CMSG_KEEP_ALIVE, data := [7, 8] }, { opcode := CMSG_KEEP_ALIVE, data := [] },
     { opcode := CMSG_KEEP_ALIVE, data := [9] }] ⟨rfl, rfl, rfl⟩ rfl


/-! ## Hand-over to the session, teardown -/

/-- A packet outside the inline set, on a connection that is not closing and has a
session: the idle timer is reset, the packet is queued, `0` is returned. -/
theorem WorldSocket.ProcessIncoming_default {σ : Type} (alg : CipherAlg σ) (w : World)
    (s : WorldSocket σ) (sess : WorldSession) (pkt : WorldPacket) (hc : s.closing_ = false)
    (hs : s.m_Session = some sess) (h1 : pkt.opcode ≠ CMSG_PING)
    (h2 : pkt.opcode ≠ CMSG_AUTH_SESSION) (h3 : pkt.opcode ≠ CMSG_KEEP_ALIVE) :
    WorldSocket.ProcessIncoming alg w s pkt = .ok
      ({ s with m_Session := (some
          ((sess.call (SessionCall.ResetTimeOutTime false)).QueuePacket pkt)) }, 0) := by
  unfold WorldSocket.ProcessIncoming
  simp only [hc, h1, h2, h3, hs, Bool.false_eq_true, if_false]

/-- The packets of a list, none of the inline set, passed to `ProcessIncoming` in order:
all are queued, in that order, behind what the queue held. -/
theorem WorldSocket.processAll_queues {σ : Type} (alg : CipherAlg σ) (w : World)
    (pkts : List WorldPacket) :
    ∀ (s : WorldSocket σ) (sess : WorldSession), s.closing_ = false →
      s.m_Session = some sess →
      (∀ p ∈ pkts, p.opcode ≠ CMSG_PING ∧ p.opcode ≠ CMSG_AUTH_SESSION ∧
        p.opcode ≠ CMSG_KEEP_ALIVE) →
      ∃ s1 sess1, WorldSocket.processAll alg w s pkts =
          .ok (s1, List.replicate pkts.length 0) ∧
        s1.m_Session = some sess1 ∧ sess1.recvQueue = sess.recvQueue ++ pkts := by
  induction pkts with
  | nil =>
      intro s sess _ hs _
      exact ⟨s, sess, rfl, hs, by simp⟩
  | cons p ps ih =>
      intro s sess hc hs hall
      obtain ⟨h1, h2, h3⟩ := hall p (List.mem_cons_self _ _)
      have hstep := WorldSocket.ProcessIncoming_default alg w s sess p hc hs h1 h2 h3
      obtain ⟨s1, sess1, hr, hs1, hq⟩ := ih
        { s with m_Session := (some
            ((sess.call (SessionCall.ResetTimeOutTime false)).QueuePacket p)) }
        ((sess.call (SessionCall.ResetTimeOutTime false)).QueuePacket p) hc rfl
        (fun q hq => hall q (List.mem_cons_of_mem _ hq))
      refine ⟨s1, sess1, ?_, hs1, ?_⟩
      · simp only [WorldSocket.processAll, hstep, hr, List.length_cons, List.replicate_succ]
      · rw [hq]
        simp [WorldSession.QueuePacket, WorldSession.call]

/-- C21: with a session attached and the connection not closing, `ProcessIncoming` of a
packet whose opcode is none of `CMSG_PING`, `CMSG_AUTH_SESSION`, `CMSG_KEEP_ALIVE` returns
`0` and appends the packet, opcode and payload as they are, at the end of the queue of the
session; a list of such packets passed in order ends up in the queue in that order. -/
theorem ProcessIncoming_queues_packet {σ : Type} (alg : CipherAlg σ) (w : World)
    (s : WorldSocket σ) (sess : WorldSession) (pkt : WorldPacket) (hc : s.closing_ = false)
    (hs : s.m_Session = some sess) (h1 : pkt.opcode ≠ CMSG_PING)
    (h2 : pkt.opcode ≠ CMSG_AUTH_SESSION) (h3 : pkt.opcode ≠ CMSG_KEEP_ALIVE) :
    (∃ s1 sess1, WorldSocket.ProcessIncoming alg w s pkt = .ok (s1, 0) ∧
      s1.m_Session = some sess1 ∧ sess1.recvQueue = sess.recvQueue ++ [pkt]) ∧
    (∀ pkts : List WorldPacket,
      (∀ p ∈ pkts, p.opcode ≠ CMSG_PING ∧ p.opcode ≠ CMSG_AUTH_SESSION ∧
        p.opcode ≠ CMSG_KEEP_ALIVE) →
      ∃ s1 sess1, WorldSocket.processAll alg w s pkts =
          .ok (s1, List.replicate pkts.length 0) ∧
        s1.m_Session = some sess1 ∧ sess1.recvQueue = sess.recvQueue ++ pkts) :=
  ⟨⟨{ s with m_Session := (some
          ((sess.call (SessionCall.ResetTimeOutTime false)).QueuePacket pkt)) },
      (sess.call (SessionCall.ResetTimeOutTime false)).QueuePacket pkt,
      WorldSocket.ProcessIncoming_default alg w s sess pkt hc hs h1 h2 h3, rfl, rfl⟩,
   fun pkts hall => WorldSocket.processAll_queues alg w pkts s sess hc hs hall⟩

/-- Witness of C21: two packets handed to the authenticated sample connection. -/
theorem ProcessIncoming_queues_packet_witness :
    ∃ s1 sess1, WorldSocket.processAll sampleCipher sampleWorld sampleAuthedSocket
        [{ opcode := 0x95, data := [1, 2] }, { opcode := 0x37, data := [] }] =
          .ok (s1, [0, 0]) ∧
      s1.m_Session = some sess1 ∧
      sess1.recvQueue = [{ opcode := 0x95, data := [1, 2] }, { opcode := 0x37, data := [] }] :=
  (ProcessIncoming_queues_packet sampleCipher sampleWorld sampleAuthedSocket
    (sampleAuthedSocket.m_Session.get rfl)
    { opcode := 0x95, data := [1, 2] } rfl (Option.some_get (rfl :
      sampleAuthedSocket.m_Session.isSome = true)).symm (by decide) (by decide)
    (by decide)).2
    [{ opcode := 0x95, data := [1, 2] }, { opcode := 0x37, data := [] }] (by decide)

/-- C22: `CloseSocket` is idempotent: a second call leaves what the first call left, and
a call made while the closing flag is set leaves the connection as it is, with no further
`close_writer` on the peer. -/
theorem CloseSocket_idempotent {σ : Type} (s : WorldSocket σ) (r1 r2 : String) :
    WorldSocket.CloseSocket (WorldSocket.CloseSocket s r1) r2 = WorldSocket.CloseSocket s r1 ∧
    (s.closing_ = true → WorldSocket.CloseSocket s r1 = s) ∧
    (WorldSocket.CloseSocket (WorldSocket.CloseSocket s r1) r2).peer.closeWriterCalls =
      (WorldSocket.CloseSocket s r1).peer.closeWriterCalls := by
  have h2 : s.closing_ = true → WorldSocket.CloseSocket s r1 = s := by
    intro hc
    simp [WorldSocket.CloseSocket, hc]
  have h1 : WorldSocket.CloseSocket (WorldSocket.CloseSocket s r1) r2 =
      WorldSocket.CloseSocket s r1 := by
    by_cases hc : s.closing_ = true
    · simp [WorldSocket.CloseSocket, hc]
    · simp [WorldSocket.CloseSocket, hc]
  exact ⟨h1, h2, by rw [h1]⟩

/-- Witness of C22: the authenticated sample connection closed twice. -/
theorem CloseSocket_idempotent_witness :
    WorldSocket.CloseSocket (WorldSocket.CloseSocket sampleAuthedSocket "a") "b" =
      WorldSocket.CloseSocket sampleAuthedSocket "a" ∧
    (WorldSocket.CloseSocket sampleAuthedSocket "a").peer.closeWriterCalls = 1 ∧
    (WorldSocket.CloseSocket (WorldSocket.CloseSocket sampleAuthedSocket "a") "b").peer.closeWriterCalls
      = 1 :=
  ⟨(CloseSocket_idempotent sampleAuthedSocket "a" "b").1, rfl, rfl⟩


/-! ## The cipher and the packets that are refused -/

/-- The header bytes `SendPacket` encrypts: the first four or five bytes of the header. -/
theorem WorldSocket.sendHeaderBytes_some {σ : Type} (alg : CipherAlg σ) (c : AuthCrypt σ)
    (pct : WorldPacket) :
    WorldSocket.sendHeaderBytes alg (some c) pct =
      (some { c with serverEncrypt := (alg.update c.serverEncrypt
          ((sendPacketHeader pct.data.length pct.opcode).header.take
            (sendPacketHeader pct.data.length pct.opcode).getHeaderLength)).1 },
       (alg.update c.serverEncrypt
          ((sendPacketHeader pct.data.length pct.opcode).header.take
            (sendPacketHeader pct.data.length pct.opcode).getHeaderLength)).2) := rfl

theorem WorldSocket.sendHeaderBytes_none {σ : Type} (alg : CipherAlg σ) (pct : WorldPacket) :
    WorldSocket.sendHeaderBytes alg none pct =
      (none, (sendPacketHeader pct.data.length pct.opcode).header.take
        (sendPacketHeader pct.data.length pct.opcode).getHeaderLength) := rfl

/-- Three packets of the sizes of `fillRun` submitted to a connection that is not closing,
whose queue is empty with the 8 MiB water mark and whose direct buffer cannot take the
first: all are queued, the queue is then above its water mark, and the cipher is
initialised or not as it was. -/
theorem WorldSocket.fill_from {σ : Type} (alg : CipherAlg σ) (s0 : WorldSocket σ)
    (a b c : List Nat) (ha : a.length = 65533) (hb : b.length = 4194304)
    (hc : c.length = 4194304) (h0 : s0.closing_ = false) (hq0 : s0.msg_queue.blocks = [])
    (hw0 : s0.msg_queue.high_water_mark = 8388608) (hsp : s0.m_OutBuffer.space ≤ 65536) :
    ∃ s3 : WorldSocket σ,
      WorldSocket.outRun alg s0
        [OutEvent.send { opcode := 0x1F6, data := a },
         OutEvent.send { opcode := 0x1F6, data := b },
         OutEvent.send { opcode := 0x1F6, data := c }] = .ok s3 ∧
      s3.closing_ = false ∧ s3.msg_queue.blocks ≠ [] ∧
      s3.msg_queue.high_water_mark ≤ s3.msg_queue.cur_bytes ∧
      s3.m_Crypt.isSome = s0.m_Crypt.isSome := by
  obtain ⟨s1, z1, h1, c1, b1, p1, w1, q1, l1, u1⟩ :=
    WorldSocket.SendPacket_enqueued alg s0 { opcode := 0x1F6, data := a } h0
      (Or.inr (by simp only [ha]; omega)) (by simp [MsgQueue.cur_bytes, hq0, hw0])
  simp only [ha] at l1 u1
  obtain ⟨s2, z2, h2, c2, b2, p2, w2, q2, l2, u2⟩ :=
    WorldSocket.SendPacket_enqueued alg s1 { opcode := 0x1F6, data := b } c1
      (Or.inl (by rw [q1]; simp))
      (by simp only [MsgQueue.cur_bytes, q1, w1, hw0, hq0]; simp [MsgBlock.size]; omega)
  simp only [hb] at l2 u2
  obtain ⟨s3, z3, h3, c3, b3, p3, w3, q3, l3, u3⟩ :=
    WorldSocket.SendPacket_enqueued alg s2 { opcode := 0x1F6, data := c } c2
      (Or.inl (by rw [q2]; simp))
      (by simp only [MsgQueue.cur_bytes, q2, q1, w2, w1, hw0, hq0]; simp [MsgBlock.size]; omega)
  simp only [hc] at l3 u3
  obtain ⟨r1, e1, -, k1⟩ := WorldSocket.SendPacket_frame alg s0 { opcode := 0x1F6, data := a }
  obtain ⟨r2, e2, -, k2⟩ := WorldSocket.SendPacket_frame alg s1 { opcode := 0x1F6, data := b }
  obtain ⟨r3, e3, -, k3⟩ := WorldSocket.SendPacket_frame alg s2 { opcode := 0x1F6, data := c }
  rw [h1] at e1
  rw [h2] at e2
  rw [h3] at e3
  simp only [Except.ok.injEq] at e1 e2 e3
  subst e1 e2 e3
  refine ⟨s3, ?_, c3, by rw [q3]; simp, ?_, by rw [k3, k2, k1]⟩
  · simp only [WorldSocket.outRun, WorldSocket.outStep, h1, h2, h3]
  · simp only [MsgQueue.cur_bytes, q3, q2, q1, hq0, w3, w2, w1, hw0, List.nil_append,
      List.cons_append, List.map_cons, List.map_nil, List.sum_cons, List.sum_nil]
    omega

/-- The sample cipher moves its stream state on every non-empty input. -/
theorem sampleCipher_update_state (l : List Nat) :
    ∀ st : Nat, (sampleCipher.update st l).1 = if l = [] then st else (st + l.length) % 256 := by
  induction l with
  | nil => intro st; rfl
  | cons b bs ih =>
      intro st
      have hstep : (sampleCipher.step st b).1 = (st + 1) % 256 := rfl
      simp only [CipherAlg.update, hstep, ih, List.length_cons]
      by_cases hbs : bs = []
      · subst hbs
        simp
      · simp only [hbs, if_false, reduceCtorEq]
        omega

theorem sampleCipher_header_moves (c : AuthCrypt Nat) (pct : WorldPacket) :
    (WorldSocket.sendHeaderBytes sampleCipher (some c) pct).1 ≠ some c := by
  have hb : 4 ≤ (sendPacketHeader pct.data.length pct.opcode).getHeaderLength ∧
      (sendPacketHeader pct.data.length pct.opcode).getHeaderLength ≤ 5 :=
    ServerPktHeader.getHeaderLength_bounds (pct.data.length + 2) pct.opcode
  have hl : (sendPacketHeader pct.data.length pct.opcode).header.length =
      (sendPacketHeader pct.data.length pct.opcode).getHeaderLength :=
    ServerPktHeader.header_length (pct.data.length + 2) pct.opcode
  have hlen : ((sendPacketHeader pct.data.length pct.opcode).header.take
      (sendPacketHeader pct.data.length pct.opcode).getHeaderLength).length =
      (sendPacketHeader pct.data.length pct.opcode).getHeaderLength := by
    rw [List.length_take, hl]
    omega
  have hne : ¬ ((sendPacketHeader pct.data.length pct.opcode).header.take
      (sendPacketHeader pct.data.length pct.opcode).getHeaderLength) = [] := by
    intro h0
    rw [h0] at hlen
    simp only [List.length_nil] at hlen
    omega
  rw [WorldSocket.sendHeaderBytes_some]
  intro h
  simp only [Option.some.injEq] at h
  have h2 := congrArg AuthCrypt.serverEncrypt h
  simp only [sampleCipher_update_state, hne, if_false, hlen] at h2
  omega

/-- Three packets of the sizes of `fillRun` submitted to the authenticated sample
connection, then one more: it is refused and the cipher state has moved. -/
theorem WorldSocket.fill_then_cipher_moves (a b c : List Nat) (ha : a.length = 65533)
    (hb : b.length = 4194304) (hc : c.length = 4194304) (pct : WorldPacket) :
    ∃ s3, WorldSocket.outRun sampleCipher sampleAuthedSocket
        [OutEvent.send { opcode := 0x1F6, data := a },
         OutEvent.send { opcode := 0x1F6, data := b },
         OutEvent.send { opcode := 0x1F6, data := c }] = .ok s3 ∧
      s3.closing_ = false ∧
      ∃ s4, WorldSocket.SendPacket sampleCipher s3 pct = .ok (s4, -1) ∧
        s4.m_Crypt ≠ s3.m_Crypt := by
  obtain ⟨s3, hrun, hcl, hq, hf, hcr⟩ := WorldSocket.fill_from sampleCipher sampleAuthedSocket
    a b c ha hb hc rfl rfl rfl (by decide)
  have he : ¬ s3.msg_queue.is_empty = true := by
    simpa [MsgQueue.is_empty] using hq
  have hfull : s3.msg_queue.is_full = true := by
    simp [MsgQueue.is_full, hf]
  obtain ⟨cr, hcr3⟩ : ∃ cr, s3.m_Crypt = some cr := by
    have : s3.m_Crypt.isSome = true := by rw [hcr]; rfl
    exact Option.isSome_iff_exists.mp this
  refine ⟨s3, hrun, hcl,
    { s3 with m_Crypt := (WorldSocket.sendHeaderBytes sampleCipher s3.m_Crypt pct).1 }, ?_, ?_⟩
  · rw [WorldSocket.SendPacket_eq]
    simp only [hcl, he, hfull, and_false, Bool.false_eq_true, if_false, if_true]
  · show (WorldSocket.sendHeaderBytes sampleCipher s3.m_Crypt pct).1 ≠ s3.m_Crypt
    rw [hcr3]
    exact sampleCipher_header_moves cr pct

/-- C29, as stated, fails when the queue refuses the block: on the authenticated sample
connection, whose cipher is initialised, the three submissions of `fillRun` fill the queue
beyond its water mark; the next `SendPacket` returns `-1` and yet the cipher state is not
the one before the call: the header was encrypted (lines 163-164) before the queue was
asked. -/
theorem refused_packet_advances_cipher :
    ∃ s3, WorldSocket.outRun sampleCipher sampleAuthedSocket fillRun = .ok s3 ∧
      s3.closing_ = false ∧
      ∃ s4, WorldSocket.SendPacket sampleCipher s3 { opcode := SMSG_PONG, data := [1, 0, 0, 0] } =
          .ok (s4, -1) ∧
        s4.m_Crypt ≠ s3.m_Crypt :=
  WorldSocket.fill_then_cipher_moves (zeros 65533) (zeros 4194304) (zeros 4194304)
    (zeros_length _) (zeros_length _) (zeros_length _) _

/-- C29, amended: `SendPacket` returns `-1` on two paths.  On a closing connection nothing
has changed, the cipher included.  Otherwise the queue, at or above its water mark, has
refused the block: the connection is as before except for the cipher, whose send stream
has gone over the four or five header bytes when the cipher is initialised (without a
cipher nothing has changed). -/
theorem SendPacket_failure_cipher {σ : Type} (alg : CipherAlg σ) (s s1 : WorldSocket σ)
    (pct : WorldPacket) (h : WorldSocket.SendPacket alg s pct = .ok (s1, -1)) :
    (s.closing_ = true ∧ s1 = s) ∨
    (s.closing_ = false ∧ s.msg_queue.is_full = true ∧
      s1 = { s with m_Crypt := (WorldSocket.sendHeaderBytes alg s.m_Crypt pct).1 } ∧
      (s.m_Crypt = none → s1 = s) ∧
      (∀ c, s.m_Crypt = some c →
        s1.m_Crypt = some { c with serverEncrypt := (alg.update c.serverEncrypt
          ((sendPacketHeader pct.data.length pct.opcode).header.take
            (sendPacketHeader pct.data.length pct.opcode).getHeaderLength)).1 })) := by
  rw [WorldSocket.SendPacket_eq] at h
  by_cases hc : s.closing_ = true
  · left
    rw [if_pos hc] at h
    exact ⟨hc, (Prod.mk.inj (Except.ok.inj h)).1.symm⟩
  · right
    rw [if_neg hc] at h
    by_cases hd : s.m_OutBuffer.space ≥
        pct.data.length + (sendPacketHeader pct.data.length pct.opcode).getHeaderLength
        ∧ s.msg_queue.is_empty = true
    · rw [if_pos hd] at h
      exact absurd (Prod.mk.inj (Except.ok.inj h)).2 (by decide)
    · rw [if_neg hd] at h
      by_cases hf : s.msg_queue.is_full = true
      · rw [if_pos hf] at h
        have hs1 := (Prod.mk.inj (Except.ok.inj h)).1
        subst hs1
        refine ⟨by simpa using hc, hf, rfl, ?_, ?_⟩
        · intro hn
          cases s
          simp only at hn
          subst hn
          rfl
        · intro c hcr
          simp only [hcr, WorldSocket.sendHeaderBytes_some]
      · rw [if_neg hf] at h
        exact absurd (Prod.mk.inj (Except.ok.inj h)).2 (by decide)

/-- Witness of C29: a pong submitted to the sample connection with the closing flag set. -/
theorem SendPacket_failure_cipher_witness :
    ({ sampleSocket with closing_ := true } : WorldSocket Nat).closing_ = true ∧
    ({ sampleSocket with closing_ := true } : WorldSocket Nat) =
      { sampleSocket with closing_ := true } :=
  (SendPacket_failure_cipher sampleCipher { sampleSocket with closing_ := true }
    { sampleSocket with closing_ := true } { opcode := SMSG_PONG, data := [1, 0, 0, 0] }
    rfl).elim id (fun h => absurd h.1 (by decide))


/-! ## The cipher goes over header bytes only -/

/-- One read of a whole well-formed frame on an empty assembler dispatches exactly the
packet of the frame. -/
theorem WorldSocket.read_whole_frame {σ : Type} (alg : CipherAlg σ) (w : World)
    (s : WorldSocket σ) (f : ClientFrame)
    (hempty : s.m_Header = MsgBlock.alloc 6 ∧ s.m_RecvWPct = none ∧
      s.m_RecvPct = MsgBlock.alloc 0)
    (hwf : WorldSocket.frameWellFormed alg s.m_Crypt f = true) :
    ∃ s1 r, WorldSocket.handle_input_missing_data alg w s (RecvAnswer.bytes f.bytes) =
      .ok { sock := s1, ret := r, dispatched := [WorldSocket.framePacket alg s.m_Crypt f] } := by
  obtain ⟨hl, -, -⟩ := (WorldSocket.frameWellFormed_iff alg s.m_Crypt f).mp hwf
  obtain ⟨s3, ret, -, hit⟩ := WorldSocket.iteration_whole_frame alg w s f hempty hwf
  have hbl : f.bytes.length ≠ 0 := by
    simp only [ClientFrame.bytes, List.length_append, hl]
    omega
  have hbpos : f.bytes.length > 0 := by omega
  have hone := hit [] []
  simp only [List.append_nil, List.nil_append] at hone
  unfold WorldSocket.handle_input_missing_data
  simp only [hbl, if_false, WorldSocket.inputLoop, hbpos, if_true, hone]
  by_cases hret : ret = -1
  · simp only [hret, if_true]
    exact ⟨s3, -1, rfl⟩
  · simp only [hret, if_false, WorldSocket.inputLoop_nil]
    exact ⟨s3, _, rfl⟩

/-- The payload stage leaves the cipher alone. -/
theorem WorldSocket.payloadStage_crypt {σ : Type} (s : WorldSocket σ) (mb : List Nat) :
    (∀ s1 r, WorldSocket.payloadStage s mb = .ok (Stage.done s1 r) → s1.m_Crypt = s.m_Crypt) ∧
    (∀ s1 rest, WorldSocket.payloadStage s mb = .ok (Stage.go s1 rest) →
      s1.m_Crypt = s.m_Crypt) := by
  have hcopy : ∀ src, (WorldSocket.recvPctCopy s src).m_Crypt = s.m_Crypt := by
    intro src
    unfold WorldSocket.recvPctCopy
    split <;> rfl
  constructor
  · intro s1 r h
    unfold WorldSocket.payloadStage at h
    simp only [] at h
    repeat' split at h
    all_goals try simp only [Except.ok.injEq, Stage.done.injEq, Stage.go.injEq,
      reduceCtorEq] at h
    all_goals
      rw [← h.1]
      exact hcopy _
  · intro s1 rest h
    unfold WorldSocket.payloadStage at h
    simp only [] at h
    repeat' split at h
    all_goals try simp only [Except.ok.injEq, Stage.done.injEq, Stage.go.injEq,
      reduceCtorEq] at h
    all_goals first
      | (rw [← h.1]; exact hcopy _)
      | rw [← h.1]

/-- `handle_input_header`, when it returns, has passed exactly the six bytes of the header
block through the receive stream of the cipher. -/
theorem WorldSocket.handle_input_header_crypt {σ : Type} (alg : CipherAlg σ)
    (s s1 : WorldSocket σ) (r : Int) (h : WorldSocket.handle_input_header alg s = .ok (s1, r)) :
    s1.m_Crypt = (WorldSocket.decryptHeader alg s.m_Crypt (s.m_Header.unsent.take 6)).1 ∧
    (s.m_Header.unsent.take 6).length = 6 := by
  have h6 : (s.m_Header.unsent.take 6).length = 6 := by
    by_cases h2 : s.m_Header.length = 6
    · rw [List.length_take, MsgBlock.unsent_length]
      omega
    · unfold WorldSocket.handle_input_header at h
      by_cases h1 : s.m_RecvWPct.isSome = true
      · simp [h1] at h
      · simp [h1, h2] at h
  refine ⟨?_, h6⟩
  unfold WorldSocket.handle_input_header at h
  simp only [] at h
  repeat' split at h
  all_goals try simp only [Except.ok.injEq, Prod.mk.injEq, reduceCtorEq] at h
  all_goals rw [← h.1]

/-- Where an accepted packet goes and what the cipher has done to it. -/
theorem WorldSocket.SendPacket_accepted {σ : Type} (alg : CipherAlg σ) (s s1 : WorldSocket σ)
    (pct : WorldPacket) (h : WorldSocket.SendPacket alg s pct = .ok (s1, 0)) :
    s1.m_Crypt = (WorldSocket.sendHeaderBytes alg s.m_Crypt pct).1 ∧
    ((s1.m_OutBuffer.data = s.m_OutBuffer.data ++
          ((WorldSocket.sendHeaderBytes alg s.m_Crypt pct).2 ++ pct.data) ∧
        s1.msg_queue = s.msg_queue) ∨
      (s1.m_OutBuffer = s.m_OutBuffer ∧
        ∃ z, s1.msg_queue.blocks = s.msg_queue.blocks ++
          [{ data := (WorldSocket.sendHeaderBytes alg s.m_Crypt pct).2 ++ pct.data
             rd := 0, size := z }])) := by
  rw [WorldSocket.SendPacket_eq] at h
  by_cases hc : s.closing_ = true
  · rw [if_pos hc] at h
    exact absurd (Prod.mk.inj (Except.ok.inj h)).2 (by decide)
  · rw [if_neg hc] at h
    by_cases hd : s.m_OutBuffer.space ≥
        pct.data.length + (sendPacketHeader pct.data.length pct.opcode).getHeaderLength
        ∧ s.msg_queue.is_empty = true
    · rw [if_pos hd] at h
      have hs1 := (Prod.mk.inj (Except.ok.inj h)).1
      subst hs1
      exact ⟨rfl, Or.inl ⟨rfl, rfl⟩⟩
    · rw [if_neg hd] at h
      by_cases hf : s.msg_queue.is_full = true
      · rw [if_pos hf] at h
        exact absurd (Prod.mk.inj (Except.ok.inj h)).2 (by decide)
      · rw [if_neg hf] at h
        have hs1 := (Prod.mk.inj (Except.ok.inj h)).1
        subst hs1
        exact ⟨rfl, Or.inr ⟨rfl, _, rfl⟩⟩

/-! ## The closing flag -/

theorem WorldSocket.SendPacket_flag {σ : Type} (alg : CipherAlg σ) (s : WorldSocket σ)
    (pct : WorldPacket) :
    ∃ r, WorldSocket.SendPacket alg s pct = .ok r ∧ r.1.closing_ = s.closing_ := by
  refine ⟨_, WorldSocket.SendPacket_eq alg s pct, ?_⟩
  split_ifs <;> rfl

/-- A failure reply sent from a state that has the closing flag of `s` leaves that flag. -/
theorem WorldSocket.replyAndFail_flag {σ : Type} (alg : CipherAlg σ) (s s0 : WorldSocket σ)
    (pkt : WorldPacket) (after : List ExternalCall) (h0 : s0.closing_ = s.closing_) :
    ∃ h, WorldSocket.replyAndFail alg s0 pkt after = .ok h ∧ h.sock.closing_ = s.closing_ := by
  obtain ⟨r, hr, hh⟩ := WorldSocket.SendPacket_flag alg s0 pkt
  refine ⟨Handled.returned { r.1 with externalCalls := r.1.externalCalls ++ after } (-1), ?_,
    hh.trans h0⟩
  simp only [WorldSocket.replyAndFail, hr]

theorem WorldSocket.authAccepted_flag {σ : Type} (alg : CipherAlg σ) (w : World)
    (s s0 : WorldSocket σ) (pkt : WorldPacket) (f : AuthSessionFields) (row : AccountRow)
    (security : Nat) (skipQueue : Bool) (expansion : Nat) (mutetime : Int) (locale : Nat)
    (h0 : s0.closing_ = s.closing_) :
    ∃ h, WorldSocket.authAccepted alg w s0 pkt f row security skipQueue expansion mutetime
      locale = .ok h ∧ h.sock.closing_ = s.closing_ := by
  unfold WorldSocket.authAccepted
  by_cases hcl : w.IsClosedAtLine983 = true
  · simp only [if_pos hcl]
    exact WorldSocket.replyAndFail_flag alg s _ _ _ h0
  · simp only [if_neg hcl]
    by_cases hrealm : f.realm ≠ w.realmID
    · simp only [if_pos hrealm]
      exact WorldSocket.replyAndFail_flag alg s _ _ _ h0
    · simp only [if_neg hrealm]
      exact ⟨_, rfl, h0⟩

theorem WorldSocket.HandleAuthSession_flag {σ : Type} (alg : CipherAlg σ) (w : World)
    (s : WorldSocket σ) (pkt : WorldPacket) :
    ∃ h, WorldSocket.HandleAuthSession alg w s pkt = .ok h ∧ h.sock.closing_ = s.closing_ := by
  unfold WorldSocket.HandleAuthSession
  by_cases hcl : w.IsClosed = true
  · simp only [if_pos hcl]
    exact WorldSocket.replyAndFail_flag alg s _ _ _ rfl
  · simp only [if_neg hcl]
    rcases hrd : readAuthSession pkt.data with _ | f
    · exact ⟨_, rfl, rfl⟩
    · simp only []
      rcases hacc : w.accountInfoByName f.account with _ | row
      · exact WorldSocket.replyAndFail_flag alg s _ _ _ rfl
      · simp only []
        by_cases h1 : row.locked % 256 = 1 ∧ row.last_ip ≠ s.m_Address
        · simp only [if_pos h1]
          exact WorldSocket.replyAndFail_flag alg s _ _ _ rfl
        · simp only [if_neg h1]
          by_cases h2 : w.CONFIG_WARDEN_ENABLED = true ∧ row.os ≠ "Win" ∧ row.os ≠ "OSX"
          · simp only [if_pos h2]
            exact WorldSocket.replyAndFail_flag alg s _ _ _ (by split_ifs <;> rfl)
          · simp only [if_neg h2]
            by_cases h3 : w.bans row.id s.m_Address = true
            · simp only [if_pos h3]
              exact WorldSocket.replyAndFail_flag alg s _ _ _ (by split_ifs <;> rfl)
            · simp only [if_neg h3]
              split_ifs
              all_goals first
                | exact WorldSocket.replyAndFail_flag alg s _ _ _ rfl
                | exact WorldSocket.authAccepted_flag alg w s _ pkt f row _ _ _ _ _ rfl

theorem WorldSocket.HandlePing_flag {σ : Type} (alg : CipherAlg σ) (w : World)
    (s : WorldSocket σ) (pkt : WorldPacket) :
    ∃ h, WorldSocket.HandlePing alg w s pkt = .ok h ∧ h.sock.closing_ = s.closing_ := by
  have hcad : (WorldSocket.pingCadence w s).1.closing_ = s.closing_ := by
    unfold WorldSocket.pingCadence
    split
    · rfl
    · simp only []
      split_ifs <;> try rfl
      all_goals (split <;> try split_ifs) <;> rfl
  unfold WorldSocket.HandlePing
  rcases h1 : readU32 pkt.data with _ | ⟨ping, rest⟩
  · exact ⟨_, rfl, rfl⟩
  · simp only []
    rcases h2 : readU32 rest with _ | ⟨latency, rest2⟩
    · exact ⟨_, rfl, rfl⟩
    · simp only []
      by_cases hc : (WorldSocket.pingCadence w s).2 = true
      · simp only [if_pos hc]
        exact ⟨_, rfl, hcad⟩
      · simp only [if_neg hc]
        rcases hs : (WorldSocket.pingCadence w s).1.m_Session with _ | sess
        · exact ⟨_, rfl, hcad⟩
        · simp only []
          obtain ⟨r, hr, hh⟩ := WorldSocket.SendPacket_flag alg
            { (WorldSocket.pingCadence w s).1 with
              m_Session := (some
                ((sess.SetLatency latency).call SessionCall.ResetClientTimeDelay)) }
            { opcode := SMSG_PONG, data := putU32 ping }
          rw [hr]
          exact ⟨_, rfl, hh.trans hcad⟩

/-- `handle_output_queue` leaves the closing flag as it is. -/
theorem WorldSocket.handle_output_queue_flag {σ : Type} (s : WorldSocket σ) (ans : SendAnswer) :
    (WorldSocket.handle_output_queue s ans).1.closing_ = s.closing_ := by
  have hps : ∀ (t : WorldSocket σ) buf, (WorldSocket.peerSend t buf ans).1.closing_ = t.closing_ := by
    intro t buf
    unfold WorldSocket.peerSend
    split
    · split_ifs <;> rfl
    · rfl
    · rfl
  have hsch : ∀ t : WorldSocket σ, (WorldSocket.schedule_wakeup_output t).1.closing_ = t.closing_ := by
    intro t
    unfold WorldSocket.schedule_wakeup_output
    split_ifs <;> rfl
  have hcan : ∀ t : WorldSocket σ, (WorldSocket.cancel_wakeup_output t).1.closing_ = t.closing_ := by
    intro t
    unfold WorldSocket.cancel_wakeup_output
    split_ifs <;> rfl
  unfold WorldSocket.handle_output_queue
  by_cases he : s.msg_queue.is_empty = true
  · simp only [he, if_true]
    exact hcan s
  · simp only [he, Bool.false_eq_true, if_false]
    rcases hd : s.msg_queue.dequeue_head with _ | ⟨mblk, q⟩
    · rfl
    · simp only []
      split_ifs
      all_goals first
        | exact hps _ _
        | (rw [hsch]; exact hps _ _)
        | (rw [hcan]; exact hps _ _)
        | skip
      all_goals
        split
        · exact hps _ _
        · rw [hsch]
          exact hps _ _

/-- An operation on a connection whose closing flag is set returns and leaves the flag
set. -/
theorem WorldSocket.connStep_closing {σ : Type} (alg : CipherAlg σ) (s : WorldSocket σ)
    (hc : s.closing_ = true) (op : ConnOp) :
    ∃ s1, WorldSocket.connStep alg s op = .ok s1 ∧ s1.closing_ = true := by
  cases op with
  | SendPacket pct =>
      obtain ⟨r, hr, hf⟩ := WorldSocket.SendPacket_flag alg s pct
      exact ⟨r.1, by simp [WorldSocket.connStep, hr, Except.map], hf.trans hc⟩
  | CloseSocket reason =>
      exact ⟨s, by simp [WorldSocket.connStep, WorldSocket.CloseSocket, hc], hc⟩
  | close => exact ⟨_, rfl, rfl⟩
  | handle_input w ans answers =>
      exact ⟨s, by simp [WorldSocket.connStep, WorldSocket.handle_input, hc, Except.map], hc⟩
  | handle_output ans ansQueue =>
      exact ⟨s, by simp [WorldSocket.connStep, WorldSocket.handle_output, hc], hc⟩
  | handle_output_queue ans =>
      exact ⟨_, rfl, (WorldSocket.handle_output_queue_flag s ans).trans hc⟩
  | handle_close invalidHandle => exact ⟨_, rfl, rfl⟩
  | Update answers =>
      exact ⟨s, by simp [WorldSocket.connStep, WorldSocket.Update, hc, Except.map], hc⟩
  | ProcessIncoming w pkt =>
      exact ⟨s, by simp [WorldSocket.connStep, WorldSocket.ProcessIncoming, hc, Except.map], hc⟩
  | HandlePing w pkt =>
      obtain ⟨h, hh, hf⟩ := WorldSocket.HandlePing_flag alg w s pkt
      exact ⟨h.sock, by simp [WorldSocket.connStep, hh, Except.map], hf.trans hc⟩
  | HandleAuthSession w pkt =>
      obtain ⟨h, hh, hf⟩ := WorldSocket.HandleAuthSession_flag alg w s pkt
      exact ⟨h.sock, by simp [WorldSocket.connStep, hh, Except.map], hf.trans hc⟩

/-- C23: the closing flag is monotone.  On a connection whose closing flag is set, each of
`SendPacket`, `CloseSocket`, `close`, `handle_input`, `handle_output`,
`handle_output_queue`, `handle_close`, `Update`, `ProcessIncoming`, `HandlePing` and
`HandleAuthSession` returns and leaves the flag set, whatever its arguments and whatever
the environment answers; hence the flag is still set after every sequence of these
operations. -/
theorem closing_flag_monotone {σ : Type} (alg : CipherAlg σ) (s : WorldSocket σ)
    (hc : s.closing_ = true) :
    (∀ op : ConnOp, ∃ s1, WorldSocket.connStep alg s op = .ok s1 ∧ s1.closing_ = true) ∧
    (∀ ops : List ConnOp, ∃ s1, WorldSocket.connRun alg s ops = .ok s1 ∧ s1.closing_ = true) := by
  refine ⟨WorldSocket.connStep_closing alg s hc, ?_⟩
  intro ops
  induction ops generalizing s with
  | nil => exact ⟨s, rfl, hc⟩
  | cons op ops ih =>
      obtain ⟨s1, h1, hc1⟩ := WorldSocket.connStep_closing alg s hc op
      obtain ⟨s2, h2, hc2⟩ := ih s1 hc1
      exact ⟨s2, by simp only [WorldSocket.connRun, h1, h2], hc2⟩

/-- Witness of C23: the authenticated sample connection is closed, then receives a
submission, a write-ready event, a ping, an authentication request and a close. -/
theorem closing_flag_monotone_witness :
    (WorldSocket.CloseSocket sampleAuthedSocket "").closing_ = true ∧
    ∃ s1, WorldSocket.connRun sampleCipher (WorldSocket.CloseSocket sampleAuthedSocket "")
        [ConnOp.SendPacket samplePing, ConnOp.handle_output (SendAnswer.room 4) (SendAnswer.room 4),
         ConnOp.handle_output_queue (SendAnswer.room 1), ConnOp.HandlePing sampleWorld samplePing,
         ConnOp.HandleAuthSession sampleWorld (sampleAuthRequest 1 (List.replicate 20 149)),
         ConnOp.handle_close true, ConnOp.close] = .ok s1 ∧
      s1.closing_ = true :=
  ⟨rfl, (closing_flag_monotone sampleCipher (WorldSocket.CloseSocket sampleAuthedSocket "")
    rfl).2 _⟩


/-! ## The assertions of the inbound path -/

theorem WorldSocket.inboundInv_of_empty {σ : Type} (s : WorldSocket σ)
    (h : s.m_Header = MsgBlock.alloc 6 ∧ s.m_RecvWPct = none ∧ s.m_RecvPct = MsgBlock.alloc 0) :
    s.inboundInv := by
  obtain ⟨h1, h2, h3⟩ := h
  unfold WorldSocket.inboundInv
  rw [h1, h2, h3]
  simp [MsgBlock.alloc, MsgBlock.space]

/-- The header stage under the invariant: it returns, either ending the read with `-1` in
a state that satisfies the invariant, or going on with a complete header block. -/
theorem WorldSocket.headerStage_inv {σ : Type} (alg : CipherAlg σ) (s : WorldSocket σ)
    (mb : List Nat) (hinv : s.inboundInv) (hmb : mb ≠ []) :
    (∃ s1, WorldSocket.headerStage alg s mb = .ok (Stage.done s1 (-1)) ∧ s1.inboundInv) ∨
    (∃ s1 rest, WorldSocket.headerStage alg s mb = .ok (Stage.go s1 rest) ∧
      s1.m_Header.size = 6 ∧ s1.m_Header.rd = 0 ∧ s1.m_Header.data.length = 6 ∧
      (rest.length < mb.length ∨
        (rest = mb ∧ (s1.m_RecvWPct ≠ none → s1.m_RecvPct.space > 0)))) := by
  obtain ⟨h6, hrd, hle, hb, hc⟩ := hinv
  have hmbl : 0 < mb.length := List.length_pos.mpr hmb
  have hspace : s.m_Header.space = 6 - s.m_Header.data.length := by
    simp only [MsgBlock.space, h6]
  unfold WorldSocket.headerStage
  by_cases hsp : s.m_Header.space > 0
  · -- the header is incomplete
    have hlt : s.m_Header.data.length < 6 := by omega
    obtain ⟨hw, hp⟩ := hb hlt
    simp only [hsp, if_true]
    generalize hk : (if mb.length > s.m_Header.space then s.m_Header.space else mb.length) = k
    have hk1 : 1 ≤ k := by
      rw [← hk]
      split_ifs <;> omega
    have hk2 : k ≤ mb.length := by
      rw [← hk]
      split_ifs <;> omega
    have hk3 : k ≤ s.m_Header.space := by
      rw [← hk]
      split_ifs <;> omega
    have hk4 : k < s.m_Header.space → k = mb.length := by
      rw [← hk]
      split_ifs <;> omega
    have htl : (mb.take k).length = k := by
      rw [List.length_take]
      omega
    have hcopy : s.m_Header.copy (mb.take k) =
        some { s.m_Header with data := s.m_Header.data ++ mb.take k } :=
      MsgBlock.copy_of_le _ _ (by rw [htl]; exact hk3)
    simp only [hcopy, Option.getD_some]
    by_cases hfull : ({ s.m_Header with data := s.m_Header.data ++ mb.take k } : MsgBlock).space > 0
    · -- still incomplete: the read is used up
      have hkl : k = mb.length := by
        apply hk4
        simp only [MsgBlock.space, List.length_append, htl, h6] at hfull
        omega
      have hrest : (mb.drop k).length = 0 := by
        rw [List.length_drop]
        omega
      simp only [hfull, if_true, hrest, ne_eq, not_true_eq_false, if_false]
      left
      refine ⟨_, rfl, ?_⟩
      simp only [MsgBlock.space, List.length_append, htl, h6] at hfull
      refine ⟨h6, hrd, ?_, ?_, ?_⟩
      · simp only [List.length_append, htl]
        omega
      · intro _
        exact ⟨hw, hp⟩
      · intro h
        simp only [List.length_append, htl] at h
        omega
    · -- the header is complete: decode it
      simp only [hfull, if_false]
      have hlen6 : s.m_Header.data.length + k = 6 := by
        simp only [MsgBlock.space, List.length_append, htl, h6] at hfull
        omega
      have hdl := WorldSocket.decryptHeader_length alg s.m_Crypt (s.m_Header.data ++ mb.take k)
      have hrestlt : (mb.drop k).length < mb.length := by
        rw [List.length_drop]
        omega
      unfold WorldSocket.handle_input_header
      simp only [hw, Option.isSome_none, Bool.false_eq_true, if_false, MsgBlock.length,
        List.length_append, htl, hrd, Nat.sub_zero, hlen6, ne_eq, not_true_eq_false,
        MsgBlock.unsent, List.drop_zero, List.take_zero, List.nil_append,
        List.take_of_length_le (Nat.le_of_eq (by rw [List.length_append, htl]; exact hlen6 :
          (s.m_Header.data ++ mb.take k).length = 6))]
      by_cases hrej : headerRejected
          (headerSize (WorldSocket.decryptHeader alg s.m_Crypt (s.m_Header.data ++ mb.take k)).2)
          (headerCmd (WorldSocket.decryptHeader alg s.m_Crypt (s.m_Header.data ++ mb.take k)).2)
            = true
      · simp only [hrej, if_true, WorldSocket.wouldBlock, reduceCtorEq, decide_False,
          Bool.or_self, Bool.false_eq_true, if_false]
        left
        refine ⟨_, rfl, ?_⟩
        refine ⟨h6, rfl, ?_, ?_, ?_⟩
        · simp only [storeU16, List.length_append, List.length_cons, List.length_nil,
            List.length_drop, hdl, htl, hlen6]
          omega
        · intro h
          simp only [storeU16, List.length_append, List.length_cons, List.length_nil,
            List.length_drop, hdl, htl, hlen6] at h
          omega
        · intro _ h
          exact absurd rfl h
      · simp only [hrej, Bool.false_eq_true, if_false]
        by_cases hz : headerSize
            (WorldSocket.decryptHeader alg s.m_Crypt (s.m_Header.data ++ mb.take k)).2 - 4 > 0
        · simp only [hz, if_true, reduceCtorEq, if_false, Int.reduceNeg]
          right
          refine ⟨_, _, rfl, h6, rfl, ?_, Or.inl hrestlt⟩
          simp only [storeU16, List.length_append, List.length_cons, List.length_nil,
            List.length_drop, hdl, htl, hlen6]
        · simp only [hz, if_false, hp, ne_eq, not_true_eq_false, reduceCtorEq, Int.reduceNeg]
          right
          refine ⟨_, _, rfl, h6, rfl, ?_, Or.inl hrestlt⟩
          simp only [storeU16, List.length_append, List.length_cons, List.length_nil,
            List.length_drop, hdl, htl, hlen6]
  · -- the header block is full already
    simp only [hsp, if_false]
    right
    have hl6 : s.m_Header.data.length = 6 := by omega
    exact ⟨s, mb, rfl, h6, hrd, hl6, Or.inr ⟨rfl, hc hl6⟩⟩

/-- The payload stage on a socket that holds a pending packet: it returns, either ending
the read with `-1` while the payload is incomplete, or going on with a full payload block
and a rest that is shorter whenever bytes were missing. -/
theorem WorldSocket.payloadStage_inv {σ : Type} (s : WorldSocket σ) (mb : List Nat)
    (pkt : WorldPacket) (hw : s.m_RecvWPct = some pkt) :
    (∃ s2, WorldSocket.payloadStage s mb = .ok (Stage.done s2 (-1)) ∧
      s2.m_Header = s.m_Header ∧ s2.m_RecvWPct ≠ none ∧ s2.m_RecvPct.space > 0) ∨
    (∃ s2 rest pkt2, WorldSocket.payloadStage s mb = .ok (Stage.go s2 rest) ∧
      s2.m_Header = s.m_Header ∧ s2.m_RecvWPct = some pkt2 ∧ s2.m_RecvPct.space = 0 ∧
      rest.length ≤ mb.length ∧ (s.m_RecvPct.space > 0 → rest.length < mb.length)) := by
  unfold WorldSocket.payloadStage
  by_cases hsp : s.m_RecvPct.space > 0
  · simp only [hsp, if_true]
    generalize hk : (if mb.length > s.m_RecvPct.space then s.m_RecvPct.space else mb.length) = k
    have hk2 : k ≤ mb.length := by
      rw [← hk]
      split_ifs <;> omega
    have hk3 : k ≤ s.m_RecvPct.space := by
      rw [← hk]
      split_ifs <;> omega
    have hk4 : k < s.m_RecvPct.space → k = mb.length := by
      rw [← hk]
      split_ifs <;> omega
    have htl : (mb.take k).length = k := by
      rw [List.length_take]
      omega
    have hcopy : s.m_RecvPct.copy (mb.take k) =
        some { s.m_RecvPct with data := s.m_RecvPct.data ++ mb.take k } :=
      MsgBlock.copy_of_le _ _ (by rw [htl]; exact hk3)
    have hrc : ∃ pkt2, WorldSocket.recvPctCopy s (mb.take k) =
        { s with
          m_RecvPct := { s.m_RecvPct with data := s.m_RecvPct.data ++ mb.take k }
          m_RecvWPct := some pkt2 } := by
      unfold WorldSocket.recvPctCopy
      rw [hcopy]
      simp only [hw, Option.map_some']
      exact ⟨_, rfl⟩
    obtain ⟨pkt2, hrc⟩ := hrc
    rw [hrc]
    have hspace : ({ s.m_RecvPct with data := s.m_RecvPct.data ++ mb.take k } : MsgBlock).space =
        s.m_RecvPct.space - k := by
      simp only [MsgBlock.space, List.length_append, htl]
      omega
    by_cases hfull : s.m_RecvPct.space - k > 0
    · have hkl : k = mb.length := hk4 (by omega)
      have hrest : (mb.drop k).length = 0 := by
        rw [List.length_drop]
        omega
      simp only [hspace, hfull, if_true, hrest, ne_eq, not_true_eq_false, if_false]
      left
      exact ⟨_, rfl, rfl, by simp, by rw [← hspace] at hfull; exact hfull⟩
    · simp only [hspace, hfull, if_false]
      right
      refine ⟨_, _, _, rfl, rfl, rfl, ?_, ?_, ?_⟩
      · simp only [hspace]
        omega
      · rw [List.length_drop]
        omega
      · intro _
        rw [List.length_drop]
        omega
  · simp only [hsp, if_false]
    right
    exact ⟨s, mb, pkt, rfl, rfl, hw, by omega, le_refl _, fun h => absurd h (by simp)⟩

/-- What follows the header block in one iteration, on a socket whose header block is
full: it returns, in a state that satisfies the invariant, and when the loop goes on the
rest is no longer, and shorter when payload bytes were missing. -/
theorem WorldSocket.afterHeader_inv {σ : Type} (alg : CipherAlg σ) (w : World)
    (s1 : WorldSocket σ) (mb1 : List Nat) (d : List WorldPacket)
    (h6 : s1.m_Header.size = 6) (hrd : s1.m_Header.rd = 0) (hl : s1.m_Header.data.length = 6) :
    (∃ s3 ret d1, WorldSocket.afterHeader alg w s1 mb1 d = .ok (Iter.ret s3 ret d1) ∧
      s3.inboundInv) ∨
    (∃ s3 mb2 d1, WorldSocket.afterHeader alg w s1 mb1 d = .ok (Iter.next s3 mb2 d1) ∧
      s3.inboundInv ∧ mb2.length ≤ mb1.length ∧
      (s1.m_RecvPct.space > 0 → mb2.length < mb1.length)) := by
  unfold WorldSocket.afterHeader
  rcases hw : s1.m_RecvWPct with _ | pkt
  · left
    refine ⟨_, _, _, rfl, h6, hrd, le_of_eq hl, ?_, ?_⟩
    · intro h
      exact absurd hl (Nat.ne_of_lt h)
    · intro _ h
      exact absurd rfl h
  · simp only []
    rcases WorldSocket.payloadStage_inv s1 mb1 pkt hw with
      ⟨s2, hs2, hh, hne, hsp⟩ | ⟨s2, rest, pkt2, hs2, hh, hw2, hsp, hle, hlt⟩
    · rw [hs2]
      left
      refine ⟨_, _, _, rfl, ?_, ?_, ?_, ?_, ?_⟩
      · rw [hh]; exact h6
      · rw [hh]; exact hrd
      · rw [hh]; exact le_of_eq hl
      · intro h
        rw [hh] at h
        exact absurd hl (Nat.ne_of_lt h)
      · intro _ _
        exact hsp
    · rw [hs2]
      simp only []
      obtain ⟨s3, ret, hempty, hd⟩ := WorldSocket.dispatch_whole alg w s2 pkt2 hsp
        (by rw [hh]; simp only [MsgBlock.space, h6, hl]) (by rw [hh]; exact h6) hw2
      rw [hd rest d]
      by_cases hret : ret = -1
      · left
        exact ⟨s3, -1, _, by rw [if_pos hret], WorldSocket.inboundInv_of_empty s3 hempty⟩
      · right
        exact ⟨s3, rest, _, by rw [if_neg hret], WorldSocket.inboundInv_of_empty s3 hempty,
          hle, hlt⟩

/-- One iteration of the read loop on a non-empty rest, under the invariant: it returns, in
a state that satisfies the invariant, and when the loop goes on the rest is shorter. -/
theorem WorldSocket.iteration_inv {σ : Type} (alg : CipherAlg σ) (w : World)
    (s : WorldSocket σ) (mb : List Nat) (d : List WorldPacket)
    (hinv : s.inboundInv) (hmb : mb ≠ []) :
    (∃ s3 ret d1, WorldSocket.iteration alg w s mb d = .ok (Iter.ret s3 ret d1) ∧
      s3.inboundInv) ∨
    (∃ s3 mb2 d1, WorldSocket.iteration alg w s mb d = .ok (Iter.next s3 mb2 d1) ∧
      s3.inboundInv ∧ mb2.length < mb.length) := by
  unfold WorldSocket.iteration
  rcases WorldSocket.headerStage_inv alg s mb hinv hmb with
    ⟨s1, hs1, hi1⟩ | ⟨s1, rest, hs1, h6, hrd, hl, hcase⟩
  · rw [hs1]
    left
    exact ⟨_, _, _, rfl, hi1⟩
  · rw [hs1]
    simp only []
    rcases WorldSocket.afterHeader_inv alg w s1 rest d h6 hrd hl with
      ⟨s3, ret, d1, h3, hi3⟩ | ⟨s3, mb2, d1, h3, hi3, hle, hlt⟩
    · left
      exact ⟨s3, ret, d1, h3, hi3⟩
    · rcases hcase with hshort | ⟨hsame, hpend⟩
      · right
        exact ⟨s3, mb2, d1, h3, hi3, by omega⟩
      · rcases hw : s1.m_RecvWPct with _ | pkt
        · exfalso
          unfold WorldSocket.afterHeader at h3
          rw [hw] at h3
          simp only [Except.ok.injEq, reduceCtorEq] at h3
        · right
          refine ⟨s3, mb2, d1, h3, hi3, ?_⟩
          have := hlt (hpend (by rw [hw]; simp))
          rw [hsame] at this
          exact this

/-- The read loop under the invariant, with enough iterations for the rest: it returns and
the invariant holds afterwards. -/
theorem WorldSocket.inputLoop_inv {σ : Type} (alg : CipherAlg σ) (w : World) :
    ∀ (fuel : Nat) (s : WorldSocket σ) (mb : List Nat) (d : List WorldPacket),
      s.inboundInv → mb.length < fuel →
      ∃ r, WorldSocket.inputLoop alg w fuel s mb d = .ok r ∧ r.1.inboundInv := by
  intro fuel
  induction fuel with
  | zero =>
      intro s mb d _ h
      exact absurd h (Nat.not_lt_zero _)
  | succ n ih =>
      intro s mb d hinv hlen
      unfold WorldSocket.inputLoop
      by_cases hpos : mb.length > 0
      · simp only [hpos, if_true]
        have hmb : mb ≠ [] := List.length_pos.mp hpos
        rcases WorldSocket.iteration_inv alg w s mb d hinv hmb with
          ⟨s3, ret, d1, h3, hi3⟩ | ⟨s3, mb2, d1, h3, hi3, hlt⟩
        · rw [h3]
          exact ⟨_, rfl, hi3⟩
        · rw [h3]
          exact ih s3 mb2 d1 hi3 (by omega)
      · simp only [hpos, if_false]
        exact ⟨_, rfl, hinv⟩

/-- One call of `handle_input_missing_data` under the invariant, whatever `recv` answers:
it returns and the invariant holds afterwards. -/
theorem WorldSocket.handle_input_missing_data_inv {σ : Type} (alg : CipherAlg σ) (w : World)
    (s : WorldSocket σ) (ans : RecvAnswer) (hinv : s.inboundInv) :
    ∃ r, WorldSocket.handle_input_missing_data alg w s ans = .ok r ∧ r.sock.inboundInv := by
  unfold WorldSocket.handle_input_missing_data
  rcases ans with bs | _ | e
  rotate_left
  · exact ⟨_, rfl, hinv⟩
  · exact ⟨_, rfl, hinv⟩
  · simp only []
    by_cases h0 : bs.length = 0
    · simp only [h0, if_true]
      exact ⟨_, rfl, hinv⟩
    · simp only [h0, if_false]
      obtain ⟨r, hr, hi⟩ := WorldSocket.inputLoop_inv alg w (bs.length + 1) s bs [] hinv
        (Nat.lt_succ_self _)
      rw [hr]
      obtain ⟨s1, o, d⟩ := r
      rcases o with _ | ret
      · exact ⟨_, rfl, hi⟩
      · exact ⟨_, rfl, hi⟩

/-- A run of reads under the invariant: every read returns and the invariant holds at the
end. -/
theorem WorldSocket.feedReads_inv {σ : Type} (alg : CipherAlg σ) (w : World) :
    ∀ (chunks : List (List Nat)) (s : WorldSocket σ), s.inboundInv →
      ∃ r, WorldSocket.feedReads alg w s chunks = .ok r ∧ r.1.inboundInv := by
  intro chunks
  induction chunks with
  | nil =>
      intro s hinv
      exact ⟨_, rfl, hinv⟩
  | cons c cs ih =>
      intro s hinv
      obtain ⟨r, hr, hi⟩ :=
        WorldSocket.handle_input_missing_data_inv alg w s (RecvAnswer.bytes c) hinv
      obtain ⟨r2, hr2, hi2⟩ := ih r.sock hi
      unfold WorldSocket.feedReads
      rw [hr]
      simp only []
      rw [hr2]
      exact ⟨_, rfl, hi2⟩

/-- C27: from a freshly constructed connection, every sequence of reads of arbitrary bytes
fed to `handle_input_missing_data` returns: no assertion of the inbound path fails (the
two of `handle_input_header`, its third for a zero-length payload, the three of
`handle_input_payload`, the two on an incomplete header or payload, the two on the errno
after a failure), and the read loop ends within the iterations the model allows. -/
theorem inbound_assertions_never_fail {σ : Type} (alg : CipherAlg σ) (w : World)
    (seed : List Nat) (address : String) (chunks : List (List Nat)) :
    ∃ r, WorldSocket.feedReads alg w (WorldSocket.opened seed address : WorldSocket σ) chunks
        = .ok r ∧
      r.2.length = chunks.length ∧ r.1.inboundInv := by
  obtain ⟨r, hr, hi⟩ := WorldSocket.feedReads_inv alg w chunks
    (WorldSocket.opened seed address : WorldSocket σ)
    (WorldSocket.inboundInv_of_empty _ ⟨rfl, rfl, rfl⟩)
  refine ⟨r, hr, ?_, hi⟩
  have hlen : ∀ (cs : List (List Nat)) (s : WorldSocket σ)
      (r : WorldSocket σ × List (Int × List WorldPacket)),
      WorldSocket.feedReads alg w s cs = .ok r → r.2.length = cs.length := by
    intro cs
    induction cs with
    | nil =>
        intro s r h
        unfold WorldSocket.feedReads at h
        rw [← Except.ok.inj h]
        rfl
    | cons c cs ih =>
        intro s r h
        unfold WorldSocket.feedReads at h
        rcases h1 : WorldSocket.handle_input_missing_data alg w s (RecvAnswer.bytes c) with f | r1
        · rw [h1] at h
          simp only [reduceCtorEq] at h
        · rw [h1] at h
          simp only [] at h
          rcases h2 : WorldSocket.feedReads alg w r1.sock cs with f | r2
          · rw [h2] at h
            simp only [reduceCtorEq] at h
          · rw [h2] at h
            simp only [] at h
            rw [← Except.ok.inj h]
            simp only [List.length_cons, ih r1.sock r2 h2]
  exact hlen chunks _ r hr

/-! ## A rejected header is final -/

/-- What a rejection by `handle_input_header` leaves: no pending packet, a full header
block, errno `EINVAL`. -/
theorem WorldSocket.handle_input_header_rejected {σ : Type} (alg : CipherAlg σ)
    (s s1 : WorldSocket σ) (h6 : s.m_Header.size = 6)
    (hrej : WorldSocket.handle_input_header alg s = .ok (s1, -1)) :
    s1.m_RecvWPct = none ∧ s1.m_Header.space = 0 ∧ s1.errno = Errno.EINVAL := by
  unfold WorldSocket.handle_input_header at hrej
  by_cases hw : s.m_RecvWPct.isSome = true
  · rw [if_pos hw] at hrej
    simp only [reduceCtorEq] at hrej
  · rw [if_neg hw] at hrej
    by_cases hl : s.m_Header.length ≠ 6
    · rw [if_pos hl] at hrej
      simp only [reduceCtorEq] at hrej
    · rw [if_neg hl] at hrej
      simp only [] at hrej
      have hl6 : s.m_Header.data.length - s.m_Header.rd = 6 := by
        simpa [MsgBlock.length] using hl
      have hwn : s.m_RecvWPct = none := by
        rcases hx : s.m_RecvWPct with _ | p
        · rfl
        · rw [hx] at hw
          simp at hw
      have hdl := WorldSocket.decryptHeader_length alg s.m_Crypt (s.m_Header.unsent.take 6)
      have hul : (s.m_Header.unsent.take 6).length = 6 := by
        rw [List.length_take, MsgBlock.unsent_length, MsgBlock.length, hl6]
        exact Nat.min_self 6
      split at hrej
      · have := (Prod.mk.inj (Except.ok.inj hrej)).1
        rw [← this]
        refine ⟨hwn, ?_, rfl⟩
        simp only [MsgBlock.space, h6, List.length_append, List.length_take, storeU16,
          List.length_cons, List.length_nil, List.length_drop, hdl, hul]
        omega
      · split at hrej
        · have := (Prod.mk.inj (Except.ok.inj hrej)).2
          simp at this
        · split at hrej
          · simp only [reduceCtorEq] at hrej
          · have := (Prod.mk.inj (Except.ok.inj hrej)).2
            simp at this

/-- A non-empty read on a socket with a full header block and no pending packet: it returns
`-1` with errno `EINVAL`, dispatches nothing and reads no byte into the assembler. -/
theorem WorldSocket.read_after_rejection {σ : Type} (alg : CipherAlg σ) (w : World)
    (s1 : WorldSocket σ) (bs : List Nat) (hw : s1.m_RecvWPct = none)
    (hsp : s1.m_Header.space = 0) (he : s1.errno = Errno.EINVAL) (hbs : bs ≠ []) :
    WorldSocket.handle_input_missing_data alg w s1 (RecvAnswer.bytes bs) =
      .ok { sock := s1, ret := -1, dispatched := [] } := by
  have hpos : bs.length > 0 := List.length_pos.mpr hbs
  have h0 : bs.length ≠ 0 := by omega
  have hs : ({ s1 with errno := Errno.EINVAL } : WorldSocket σ) = s1 := by
    rw [← he]
  unfold WorldSocket.handle_input_missing_data WorldSocket.inputLoop WorldSocket.iteration
    WorldSocket.headerStage WorldSocket.afterHeader
  simp only [h0, if_false, hpos, if_true, hsp, gt_iff_lt, lt_self_iff_false, hw]
  rw [← hw, hs]

/-- C26: a framing error is not retryable.  Once `handle_input_header` has rejected a
header (it returned `-1`, leaving `s1`), every later non-empty read fed to
`handle_input_missing_data` returns `-1` with errno `EINVAL`, which is neither
`EWOULDBLOCK` nor `EAGAIN`, dispatches no packet and leaves the connection as the
rejection left it, whatever bytes arrive; so does every sequence of such reads. -/
theorem framing_error_not_retryable {σ : Type} (alg : CipherAlg σ) (w : World)
    (s s1 : WorldSocket σ) (h6 : s.m_Header.size = 6)
    (hrej : WorldSocket.handle_input_header alg s = .ok (s1, -1)) :
    s1.errno = Errno.EINVAL ∧ WorldSocket.wouldBlock s1.errno = false ∧
    (∀ bs : List Nat, bs ≠ [] →
      WorldSocket.handle_input_missing_data alg w s1 (RecvAnswer.bytes bs) =
        .ok { sock := s1, ret := -1, dispatched := [] }) ∧
    (∀ chunks : List (List Nat), (∀ c ∈ chunks, c ≠ []) →
      WorldSocket.feedReads alg w s1 chunks =
        .ok (s1, chunks.map (fun _ => ((-1 : Int), ([] : List WorldPacket))))) := by
  obtain ⟨hw, hsp, he⟩ := WorldSocket.handle_input_header_rejected alg s s1 h6 hrej
  have hread := fun bs hbs => WorldSocket.read_after_rejection alg w s1 bs hw hsp he hbs
  refine ⟨he, by rw [he]; rfl, hread, ?_⟩
  intro chunks
  induction chunks with
  | nil =>
      intro _
      rfl
  | cons c cs ih =>
      intro hne
      have hc : c ≠ [] := hne c (List.mem_cons_self _ _)
      have hcs : ∀ x ∈ cs, x ≠ [] := fun x hx => hne x (List.mem_cons_of_mem _ hx)
      unfold WorldSocket.feedReads
      rw [hread c hc]
      simp only []
      rw [ih hcs]
      rfl

/-- Witness of C26: the sample connection with the header `00 03 DC 01 00 00` (declared size
3, below the minimum 4) in its header block; the rejection leaves the converted header
`03 00 DC 01 00 00` there, and three more reads, a well-formed frame among them, all fail
and dispatch nothing. -/
theorem framing_error_not_retryable_witness :
    WorldSocket.feedReads sampleCipher sampleWorld
        ({ sampleSocket with
            m_Header := { data := [3, 0, 0xDC, 1, 0, 0], rd := 0, size := 6 }
            errno := Errno.EINVAL } : WorldSocket Nat)
        [[0, 4, 0xDC, 1, 0, 0], [7], [0, 6, 7, 4, 0, 0, 7, 8]] =
      .ok (({ sampleSocket with
            m_Header := { data := [3, 0, 0xDC, 1, 0, 0], rd := 0, size := 6 }
            errno := Errno.EINVAL } : WorldSocket Nat),
        [(-1, []), (-1, []), (-1, [])]) :=
  (framing_error_not_retryable sampleCipher sampleWorld
    ({ sampleSocket with m_Header := { data := [0, 3, 0xDC, 1, 0, 0], rd := 0, size := 6 } })
    ({ sampleSocket with
        m_Header := { data := [3, 0, 0xDC, 1, 0, 0], rd := 0, size := 6 }
        errno := Errno.EINVAL })
    rfl rfl).2.2.2 [[0, 4, 0xDC, 1, 0, 0], [7], [0, 6, 7, 4, 0, 0, 7, 8]] (by decide)


/-! ## The direct buffer stays within its capacity -/

theorem WorldSocket.outboundInv_of_buffer {σ : Type} (s t : WorldSocket σ)
    (h : t.m_OutBuffer = s.m_OutBuffer) (hs : s.outboundInv) : t.outboundInv := by
  unfold WorldSocket.outboundInv at hs ⊢
  rw [h]
  exact hs

theorem WorldSocket.peerSend_buffer {σ : Type} (t : WorldSocket σ) (buf : List Nat)
    (ans : SendAnswer) : (WorldSocket.peerSend t buf ans).1.m_OutBuffer = t.m_OutBuffer := by
  unfold WorldSocket.peerSend
  split
  · split_ifs <;> rfl
  · rfl
  · rfl

theorem WorldSocket.schedule_wakeup_output_buffer {σ : Type} (t : WorldSocket σ) :
    (WorldSocket.schedule_wakeup_output t).1.m_OutBuffer = t.m_OutBuffer := by
  unfold WorldSocket.schedule_wakeup_output
  split_ifs <;> rfl

theorem WorldSocket.cancel_wakeup_output_buffer {σ : Type} (t : WorldSocket σ) :
    (WorldSocket.cancel_wakeup_output t).1.m_OutBuffer = t.m_OutBuffer := by
  unfold WorldSocket.cancel_wakeup_output
  split_ifs <;> rfl

/-- `handle_output_queue` does not touch the direct buffer. -/
theorem WorldSocket.handle_output_queue_buffer {σ : Type} (s : WorldSocket σ)
    (ans : SendAnswer) :
    (WorldSocket.handle_output_queue s ans).1.m_OutBuffer = s.m_OutBuffer := by
  have hps := fun (t : WorldSocket σ) buf => WorldSocket.peerSend_buffer t buf ans
  have hsch := fun (t : WorldSocket σ) => WorldSocket.schedule_wakeup_output_buffer t
  have hcan := fun (t : WorldSocket σ) => WorldSocket.cancel_wakeup_output_buffer t
  unfold WorldSocket.handle_output_queue
  by_cases he : s.msg_queue.is_empty = true
  · simp only [he, if_true]
    exact hcan s
  · simp only [he, Bool.false_eq_true, if_false]
    rcases hd : s.msg_queue.dequeue_head with _ | ⟨mblk, q⟩
    · rfl
    · simp only []
      split_ifs
      all_goals first
        | exact hps _ _
        | (rw [hsch]; exact hps _ _)
        | (rw [hcan]; exact hps _ _)
        | skip
      all_goals
        split
        · exact hps _ _
        · rw [hsch]
          exact hps _ _

/-- `SendPacket` keeps the direct buffer within its capacity. -/
theorem WorldSocket.SendPacket_outboundInv {σ : Type} (alg : CipherAlg σ) (s : WorldSocket σ)
    (pct : WorldPacket) (hs : s.outboundInv) :
    ∃ r, WorldSocket.SendPacket alg s pct = .ok r ∧ r.1.outboundInv := by
  have hlen := WorldSocket.sendHeaderBytes_length alg s.m_Crypt pct
  obtain ⟨h1, h2, h3⟩ := hs
  rw [WorldSocket.SendPacket_eq]
  refine ⟨_, rfl, ?_⟩
  split_ifs with hc hd hf
  · exact ⟨h1, h2, h3⟩
  · refine ⟨h1, ?_, ?_⟩
    · have := hd.1
      simp only [MsgBlock.space, h1] at this
      simp only [List.length_append, hlen]
      omega
    · simp only [List.length_append]
      omega
  · exact ⟨h1, h2, h3⟩
  · exact ⟨h1, h2, h3⟩

/-- `handle_output` keeps the direct buffer within its capacity, whatever the operating
system answers. -/
theorem WorldSocket.handle_output_outboundInv {σ : Type} (s : WorldSocket σ)
    (ans ansQueue : SendAnswer) (hs : s.outboundInv) :
    (WorldSocket.handle_output s ans ansQueue).1.outboundInv := by
  unfold WorldSocket.handle_output
  by_cases hc : s.closing_ = true
  · simp only [hc, if_true]
    exact hs
  · simp only [hc, Bool.false_eq_true, if_false]
    by_cases h0 : s.m_OutBuffer.length = 0
    · simp only [h0, if_true]
      exact WorldSocket.outboundInv_of_buffer s _
        (WorldSocket.handle_output_queue_buffer s ansQueue) hs
    · simp only [h0, if_false]
      generalize hr : WorldSocket.peerSend s
        (s.m_OutBuffer.unsent.take s.m_OutBuffer.length) ans = r
      have hb : r.1.m_OutBuffer = s.m_OutBuffer := by
        rw [← hr]
        exact WorldSocket.peerSend_buffer _ _ _
      have hr1 : r.1.outboundInv := WorldSocket.outboundInv_of_buffer s _ hb hs
      split_ifs with hn0 hn1 hw hlt
      · exact hr1
      · exact WorldSocket.outboundInv_of_buffer r.1 _
          (WorldSocket.schedule_wakeup_output_buffer _) hr1
      · exact hr1
      · refine WorldSocket.outboundInv_of_buffer _ _
          (WorldSocket.schedule_wakeup_output_buffer _) ?_
        obtain ⟨h1, h2, h3⟩ := hs
        have hlen : s.m_OutBuffer.data.length - s.m_OutBuffer.rd ≠ 0 := h0
        have hn : r.2.toNat < s.m_OutBuffer.data.length - s.m_OutBuffer.rd := by
          have : r.2 < ((s.m_OutBuffer.data.length - s.m_OutBuffer.rd : Nat) : Int) := hlt
          omega
        show (r.1.m_OutBuffer.rd_ptr r.2.toNat).crunch.size = 65536 ∧
          (r.1.m_OutBuffer.rd_ptr r.2.toNat).crunch.data.length ≤ 65536 ∧
          (r.1.m_OutBuffer.rd_ptr r.2.toNat).crunch.rd ≤
            (r.1.m_OutBuffer.rd_ptr r.2.toNat).crunch.data.length
        rw [hb]
        have hrd : (s.m_OutBuffer.rd_ptr r.2.toNat).rd ≤
            (s.m_OutBuffer.rd_ptr r.2.toNat).data.length := by
          simp only [MsgBlock.rd_ptr]
          omega
        refine ⟨?_, ?_, MsgBlock.rd_crunch_le _ hrd⟩
        · unfold MsgBlock.crunch
          split_ifs <;> exact h1
        · unfold MsgBlock.crunch
          split_ifs
          · exact h2
          · simp only [MsgBlock.rd_ptr, List.length_drop]
            omega
          · exact h2
      · refine WorldSocket.outboundInv_of_buffer
          ({ r.1 with m_OutBuffer := r.1.m_OutBuffer.reset } : WorldSocket σ) _
          (WorldSocket.handle_output_queue_buffer _ ansQueue) ?_
        obtain ⟨h1, h2, h3⟩ := hs
        show r.1.m_OutBuffer.reset.size = 65536 ∧ r.1.m_OutBuffer.reset.data.length ≤ 65536 ∧
          r.1.m_OutBuffer.reset.rd ≤ r.1.m_OutBuffer.reset.data.length
        rw [hb]
        exact ⟨h1, by simp [MsgBlock.reset], by simp [MsgBlock.reset]⟩

/-- A run of the outbound side from a connection whose direct buffer is within its
capacity: every event returns and the buffer stays within its capacity. -/
theorem WorldSocket.outRun_outboundInv {σ : Type} (alg : CipherAlg σ) :
    ∀ (evs : List OutEvent) (s : WorldSocket σ), s.outboundInv →
      ∃ s1, WorldSocket.outRun alg s evs = .ok s1 ∧ s1.outboundInv := by
  intro evs
  induction evs with
  | nil =>
      intro s hs
      exact ⟨s, rfl, hs⟩
  | cons ev evs ih =>
      intro s hs
      unfold WorldSocket.outRun
      rcases ev with pct | ⟨room, roomQueue⟩
      · obtain ⟨r, hr, hi⟩ := WorldSocket.SendPacket_outboundInv alg s pct hs
        simp only [WorldSocket.outStep, hr]
        exact ih r.1 hi
      · simp only [WorldSocket.outStep]
        exact ih _ (WorldSocket.handle_output_outboundInv s _ _ hs)

/-- C28: for every sequence of `SendPacket` calls and write-ready events on an opened
connection, every call returns, so neither `ABORT()` of the direct branch of `SendPacket`
is reached (both copies into the direct buffer succeed), and afterwards the direct buffer
holds at most its capacity of 65536 bytes, its unsent bytes included. -/
theorem direct_buffer_within_capacity {σ : Type} (alg : CipherAlg σ) (seed : List Nat)
    (address : String) (evs : List OutEvent) :
    ∃ s1, WorldSocket.outRun alg (WorldSocket.opened seed address : WorldSocket σ) evs
        = .ok s1 ∧
      s1.m_OutBuffer.size = 65536 ∧ s1.m_OutBuffer.length ≤ 65536 ∧
      s1.m_OutBuffer.length + s1.m_OutBuffer.space ≤ 65536 := by
  obtain ⟨s1, h1, hsz, hlen, hrd⟩ := WorldSocket.outRun_outboundInv alg evs
    (WorldSocket.opened seed address : WorldSocket σ)
    ⟨rfl, Nat.zero_le _, Nat.le_refl _⟩
  refine ⟨s1, h1, hsz, ?_, ?_⟩
  · simp only [MsgBlock.length]
    omega
  · simp only [MsgBlock.length, MsgBlock.space]
    omega


/-! ## Calendar ids are never issued twice -/

/-- Taking an id when the free list is empty: the counter is incremented and returned. -/
theorem idPoolInv_fresh (max : Nat) (issued : List Nat) (h : idPoolInv max [] issued)
    (hmax : max + 1 < 2 ^ 64) :
    idPoolInv ((max + 1) % 2 ^ 64) [] ((max + 1) % 2 ^ 64 :: issued) ∧
      (max + 1) % 2 ^ 64 ≠ 0 ∧ (max + 1) % 2 ^ 64 ∉ issued := by
  obtain ⟨h1, h2, h3, h4⟩ := h
  rw [Nat.mod_eq_of_lt hmax]
  have hnot : max + 1 ∉ issued := by
    intro hm
    have := (h4 (max + 1)).mp (Or.inl hm)
    omega
  refine ⟨⟨List.nodup_cons.mpr ⟨hnot, h1⟩, h2, ?_, ?_⟩, Nat.succ_ne_zero _, hnot⟩
  · intro x _
    exact List.not_mem_nil x
  · intro x
    constructor
    · rintro (hx | hx)
      · rcases List.mem_cons.mp hx with rfl | hx
        · omega
        · have := (h4 x).mp (Or.inl hx)
          omega
      · exact absurd hx (List.not_mem_nil x)
    · rintro ⟨hx1, hx2⟩
      by_cases hx : x = max + 1
      · exact Or.inl (by rw [hx]; exact List.mem_cons_self _ _)
      · rcases (h4 x).mpr ⟨hx1, by omega⟩ with hi | hf
        · exact Or.inl (List.mem_cons_of_mem _ hi)
        · exact absurd hf (List.not_mem_nil x)

/-- Taking an id when the free list is not empty: its front is returned. -/
theorem idPoolInv_reuse (max e : Nat) (rest issued : List Nat)
    (h : idPoolInv max (e :: rest) issued) :
    idPoolInv max rest (e :: issued) ∧ e ≠ 0 ∧ e ∉ issued := by
  obtain ⟨h1, h2, h3, h4⟩ := h
  obtain ⟨he, hrest⟩ := List.nodup_cons.mp h2
  have hnot : e ∉ issued := fun hm => h3 e hm (List.mem_cons_self _ _)
  have hpos : e ≠ 0 := by
    have := (h4 e).mp (Or.inr (List.mem_cons_self _ _))
    omega
  refine ⟨⟨List.nodup_cons.mpr ⟨hnot, h1⟩, hrest, ?_, ?_⟩, hpos, hnot⟩
  · intro x hx
    rcases List.mem_cons.mp hx with rfl | hx
    · exact he
    · exact fun hr => h3 x hx (List.mem_cons_of_mem _ hr)
  · intro x
    constructor
    · rintro (hx | hx)
      · rcases List.mem_cons.mp hx with rfl | hx
        · exact (h4 x).mp (Or.inr (List.mem_cons_self _ _))
        · exact (h4 x).mp (Or.inl hx)
      · exact (h4 x).mp (Or.inr (List.mem_cons_of_mem _ hx))
    · intro hx
      rcases (h4 x).mpr hx with hi | hf
      · exact Or.inl (List.mem_cons_of_mem _ hi)
      · rcases List.mem_cons.mp hf with rfl | hf
        · exact Or.inl (List.mem_cons_self _ _)
        · exact Or.inr hf

/-- Freeing the issued id that equals the counter: the counter is decremented. -/
theorem idPoolInv_free_max (max : Nat) (free issued : List Nat) (h : idPoolInv max free issued)
    (hid : max ∈ issued) (hmax : max < 2 ^ 64) :
    idPoolInv ((max + (2 ^ 64 - 1)) % 2 ^ 64) free (issued.erase max) ∧
      (max + (2 ^ 64 - 1)) % 2 ^ 64 ≤ max := by
  obtain ⟨h1, h2, h3, h4⟩ := h
  have hpos : 1 ≤ max := ((h4 max).mp (Or.inl hid)).1
  have hdec : (max + (2 ^ 64 - 1)) % 2 ^ 64 = max - 1 := by
    have : max + (2 ^ 64 - 1) = (max - 1) + 2 ^ 64 := by omega
    rw [this, Nat.add_mod_right]
    exact Nat.mod_eq_of_lt (by omega)
  rw [hdec]
  refine ⟨⟨h1.erase max, h2, ?_, ?_⟩, Nat.sub_le _ _⟩
  · intro x hx
    exact h3 x (List.mem_of_mem_erase hx)
  · intro x
    constructor
    · rintro (hx | hx)
      · have hx2 := (h1.mem_erase_iff).mp hx
        have := (h4 x).mp (Or.inl hx2.2)
        have hne := hx2.1
        omega
      · have := (h4 x).mp (Or.inr hx)
        have hne : x ≠ max := fun he => h3 max hid (he ▸ hx)
        omega
    · rintro ⟨hx1, hx2⟩
      have hne : x ≠ max := by omega
      rcases (h4 x).mpr ⟨hx1, by omega⟩ with hi | hf
      · exact Or.inl ((h1.mem_erase_iff).mpr ⟨hne, hi⟩)
      · exact Or.inr hf

/-- Freeing an issued id other than the counter: it goes to the back of the free list. -/
theorem idPoolInv_free_other (max id : Nat) (free issued : List Nat)
    (h : idPoolInv max free issued) (hid : id ∈ issued) :
    idPoolInv max (free ++ [id]) (issued.erase id) := by
  obtain ⟨h1, h2, h3, h4⟩ := h
  refine ⟨h1.erase id, ?_, ?_, ?_⟩
  · refine List.nodup_append.mpr ⟨h2, List.nodup_singleton id, ?_⟩
    intro x hx hx2
    rw [List.mem_singleton] at hx2
    subst hx2
    exact h3 x hid hx
  · intro x hx hx2
    have hx3 := (h1.mem_erase_iff).mp hx
    rcases List.mem_append.mp hx2 with hf | hs
    · exact h3 x hx3.2 hf
    · exact hx3.1 (List.mem_singleton.mp hs)
  · intro x
    constructor
    · rintro (hx | hx)
      · exact (h4 x).mp (Or.inl (List.mem_of_mem_erase hx))
      · rcases List.mem_append.mp hx with hf | hs
        · exact (h4 x).mp (Or.inr hf)
        · rw [List.mem_singleton.mp hs]
          exact (h4 id).mp (Or.inl hid)
    · intro hx
      by_cases hxe : x = id
      · exact Or.inr (List.mem_append.mpr (Or.inr (List.mem_singleton.mpr hxe)))
      · rcases (h4 x).mpr hx with hi | hf
        · exact Or.inl ((h1.mem_erase_iff).mpr ⟨hxe, hi⟩)
        · exact Or.inr (List.mem_append.mpr (Or.inl hf))

/-- The id `GetFreeEventId` hands out next is non-zero and not currently issued, and so is
the one of `GetFreeInviteId`. -/
theorem CalState.inv_next (st : CalState) (n : Nat) (h : st.inv n) (hn : n + 1 < 2 ^ 64) :
    (st.mgr.GetFreeEventId.2 ≠ 0 ∧ st.mgr.GetFreeEventId.2 ∉ st.events) ∧
    (st.mgr.GetFreeInviteId.2 ≠ 0 ∧ st.mgr.GetFreeInviteId.2 ∉ st.invites) := by
  obtain ⟨he, hen, hi, hin⟩ := h
  constructor
  · unfold CalendarMgr.GetFreeEventId
    rcases hf : st.mgr._freeEventIds with _ | ⟨e, rest⟩
    · rw [hf] at he
      exact (idPoolInv_fresh _ _ he (by omega)).2
    · rw [hf] at he
      exact (idPoolInv_reuse _ _ _ _ he).2
  · unfold CalendarMgr.GetFreeInviteId
    rcases hf : st.mgr._freeInviteIds with _ | ⟨e, rest⟩
    · rw [hf] at hi
      exact (idPoolInv_fresh _ _ hi (by omega)).2
    · rw [hf] at hi
      exact (idPoolInv_reuse _ _ _ _ hi).2

theorem CalendarMgr.GetFreeEventId_invites (m : CalendarMgr) :
    m.GetFreeEventId.1._maxInviteId = m._maxInviteId ∧
      m.GetFreeEventId.1._freeInviteIds = m._freeInviteIds := by
  unfold CalendarMgr.GetFreeEventId
  split <;> exact ⟨rfl, rfl⟩

theorem CalendarMgr.FreeEventId_invites (m : CalendarMgr) (id : Nat) :
    (m.FreeEventId id)._maxInviteId = m._maxInviteId ∧
      (m.FreeEventId id)._freeInviteIds = m._freeInviteIds := by
  unfold CalendarMgr.FreeEventId
  split <;> exact ⟨rfl, rfl⟩

theorem CalendarMgr.GetFreeInviteId_events (m : CalendarMgr) :
    m.GetFreeInviteId.1._maxEventId = m._maxEventId ∧
      m.GetFreeInviteId.1._freeEventIds = m._freeEventIds := by
  unfold CalendarMgr.GetFreeInviteId
  split <;> exact ⟨rfl, rfl⟩

theorem CalendarMgr.FreeInviteId_events (m : CalendarMgr) (id : Nat) :
    (m.FreeInviteId id)._maxEventId = m._maxEventId ∧
      (m.FreeInviteId id)._freeEventIds = m._freeEventIds := by
  unfold CalendarMgr.FreeInviteId
  split <;> exact ⟨rfl, rfl⟩

/-- One call keeps the bookkeeping in order. -/
theorem calStep_inv (st st1 : CalState) (op : CalOp) (n : Nat) (h : st.inv n)
    (hn : n + 1 < 2 ^ 64) (hstep : calStep st op = some st1) : st1.inv (n + 1) := by
  obtain ⟨he, hen, hi, hin⟩ := h
  rcases op with _ | id | _ | id
  · simp only [calStep, Option.some.injEq] at hstep
    rw [← hstep]
    obtain ⟨f1, f2⟩ := CalendarMgr.GetFreeEventId_invites st.mgr
    refine ⟨?_, ?_, ?_, ?_⟩
    rotate_left 2
    · show idPoolInv st.mgr.GetFreeEventId.1._maxInviteId
        st.mgr.GetFreeEventId.1._freeInviteIds st.invites
      rw [f1, f2]
      exact hi
    · show st.mgr.GetFreeEventId.1._maxInviteId ≤ n + 1
      rw [f1]
      omega
    · show idPoolInv st.mgr.GetFreeEventId.1._maxEventId st.mgr.GetFreeEventId.1._freeEventIds
        (st.mgr.GetFreeEventId.2 :: st.events)
      unfold CalendarMgr.GetFreeEventId
      rcases hf : st.mgr._freeEventIds with _ | ⟨e, rest⟩
      · rw [hf] at he
        exact (idPoolInv_fresh _ _ he (by omega)).1
      · rw [hf] at he
        exact (idPoolInv_reuse _ _ _ _ he).1
    · show st.mgr.GetFreeEventId.1._maxEventId ≤ n + 1
      unfold CalendarMgr.GetFreeEventId
      rcases hf : st.mgr._freeEventIds with _ | ⟨e, rest⟩
      · show (st.mgr._maxEventId + 1) % 2 ^ 64 ≤ n + 1
        rw [Nat.mod_eq_of_lt (by omega)]
        omega
      · show st.mgr._maxEventId ≤ n + 1
        omega
  · simp only [calStep] at hstep
    by_cases hid : id ∈ st.events
    · rw [if_pos hid, Option.some.injEq] at hstep
      rw [← hstep]
      obtain ⟨f1, f2⟩ := CalendarMgr.FreeEventId_invites st.mgr id
      refine ⟨?_, ?_, ?_, ?_⟩
      rotate_left 2
      · show idPoolInv (st.mgr.FreeEventId id)._maxInviteId
          (st.mgr.FreeEventId id)._freeInviteIds st.invites
        rw [f1, f2]
        exact hi
      · show (st.mgr.FreeEventId id)._maxInviteId ≤ n + 1
        rw [f1]
        omega
      · show idPoolInv (st.mgr.FreeEventId id)._maxEventId (st.mgr.FreeEventId id)._freeEventIds
          (st.events.erase id)
        unfold CalendarMgr.FreeEventId
        by_cases hm : id = st.mgr._maxEventId
        · rw [if_pos hm, hm]
          exact (idPoolInv_free_max _ _ _ he (hm ▸ hid) (by omega)).1
        · rw [if_neg hm]
          exact idPoolInv_free_other _ _ _ _ he hid
      · show (st.mgr.FreeEventId id)._maxEventId ≤ n + 1
        unfold CalendarMgr.FreeEventId
        by_cases hm : id = st.mgr._maxEventId
        · rw [if_pos hm]
          have := (idPoolInv_free_max _ _ _ he (hm ▸ hid) (by omega)).2
          show (st.mgr._maxEventId + (2 ^ 64 - 1)) % 2 ^ 64 ≤ n + 1
          omega
        · rw [if_neg hm]
          show st.mgr._maxEventId ≤ n + 1
          omega
    · rw [if_neg hid] at hstep
      exact absurd hstep (by simp)
  · simp only [calStep, Option.some.injEq] at hstep
    rw [← hstep]
    obtain ⟨f1, f2⟩ := CalendarMgr.GetFreeInviteId_events st.mgr
    refine ⟨?_, ?_, ?_, ?_⟩
    · show idPoolInv st.mgr.GetFreeInviteId.1._maxEventId
        st.mgr.GetFreeInviteId.1._freeEventIds st.events
      rw [f1, f2]
      exact he
    · show st.mgr.GetFreeInviteId.1._maxEventId ≤ n + 1
      rw [f1]
      omega
    · show idPoolInv st.mgr.GetFreeInviteId.1._maxInviteId
        st.mgr.GetFreeInviteId.1._freeInviteIds (st.mgr.GetFreeInviteId.2 :: st.invites)
      unfold CalendarMgr.GetFreeInviteId
      rcases hf : st.mgr._freeInviteIds with _ | ⟨e, rest⟩
      · rw [hf] at hi
        exact (idPoolInv_fresh _ _ hi (by omega)).1
      · rw [hf] at hi
        exact (idPoolInv_reuse _ _ _ _ hi).1
    · show st.mgr.GetFreeInviteId.1._maxInviteId ≤ n + 1
      unfold CalendarMgr.GetFreeInviteId
      rcases hf : st.mgr._freeInviteIds with _ | ⟨e, rest⟩
      · show (st.mgr._maxInviteId + 1) % 2 ^ 64 ≤ n + 1
        rw [Nat.mod_eq_of_lt (by omega)]
        omega
      · show st.mgr._maxInviteId ≤ n + 1
        omega
  · simp only [calStep] at hstep
    by_cases hid : id ∈ st.invites
    · rw [if_pos hid, Option.some.injEq] at hstep
      rw [← hstep]
      obtain ⟨f1, f2⟩ := CalendarMgr.FreeInviteId_events st.mgr id
      refine ⟨?_, ?_, ?_, ?_⟩
      · show idPoolInv (st.mgr.FreeInviteId id)._maxEventId
          (st.mgr.FreeInviteId id)._freeEventIds st.events
        rw [f1, f2]
        exact he
      · show (st.mgr.FreeInviteId id)._maxEventId ≤ n + 1
        rw [f1]
        omega
      · show idPoolInv (st.mgr.FreeInviteId id)._maxInviteId
          (st.mgr.FreeInviteId id)._freeInviteIds (st.invites.erase id)
        unfold CalendarMgr.FreeInviteId
        by_cases hm : id = st.mgr._maxInviteId
        · rw [if_pos hm, hm]
          exact (idPoolInv_free_max _ _ _ hi (hm ▸ hid) (by omega)).1
        · rw [if_neg hm]
          exact idPoolInv_free_other _ _ _ _ hi hid
      · show (st.mgr.FreeInviteId id)._maxInviteId ≤ n + 1
        unfold CalendarMgr.FreeInviteId
        by_cases hm : id = st.mgr._maxInviteId
        · rw [if_pos hm]
          have := (idPoolInv_free_max _ _ _ hi (hm ▸ hid) (by omega)).2
          show (st.mgr._maxInviteId + (2 ^ 64 - 1)) % 2 ^ 64 ≤ n + 1
          omega
        · rw [if_neg hm]
          show st.mgr._maxInviteId ≤ n + 1
          omega
    · rw [if_neg hid] at hstep
      exact absurd hstep (by simp)

/-- A sequence of calls keeps the bookkeeping in order. -/
theorem calRun_inv : ∀ (ops : List CalOp) (st st1 : CalState) (n : Nat), st.inv n →
    n + ops.length < 2 ^ 64 → calRun st ops = some st1 → st1.inv (n + ops.length) := by
  intro ops
  induction ops with
  | nil =>
      intro st st1 n h _ hrun
      simp only [calRun, Option.some.injEq] at hrun
      rw [← hrun]
      exact h
  | cons op ops ih =>
      intro st st1 n h hn hrun
      simp only [List.length_cons] at hn ⊢
      unfold calRun at hrun
      rcases hs : calStep st op with _ | st2
      · rw [hs] at hrun
        exact absurd hrun (by simp)
      · rw [hs] at hrun
        simp only [] at hrun
        have h2 := calStep_inv st st2 op n h (by omega) hs
        have := ih st2 st1 (n + 1) h2 (by omega) hrun
        rw [show n + (ops.length + 1) = n + 1 + ops.length by omega]
        exact this

/-- C30: calendar ids are never issued twice.  From an empty `CalendarMgr` (both counters
0, both free lists empty), after every sequence of `GetFreeEventId`, `FreeEventId`,
`GetFreeInviteId` and `FreeInviteId` calls in which each freed id is one currently issued
(and short enough for the 64-bit counters not to wrap), the ids currently issued are
pairwise different, and the id `GetFreeEventId` returns next is non-zero and different
from every event id currently issued; the same holds of `GetFreeInviteId` and the invite
ids. -/
theorem calendar_ids_never_issued_twice (ops : List CalOp) (st : CalState)
    (hlen : ops.length + 1 < 2 ^ 64)
    (hrun : calRun { mgr := CalendarMgr.new, events := [], invites := [] } ops = some st) :
    (st.events.Nodup ∧ st.mgr.GetFreeEventId.2 ≠ 0 ∧ st.mgr.GetFreeEventId.2 ∉ st.events) ∧
    (st.invites.Nodup ∧ st.mgr.GetFreeInviteId.2 ≠ 0 ∧
      st.mgr.GetFreeInviteId.2 ∉ st.invites) := by
  have h0 : CalState.inv { mgr := CalendarMgr.new, events := [], invites := [] } 0 := by
    have hp : idPoolInv 0 [] [] := by
      refine ⟨List.nodup_nil, List.nodup_nil, ?_, ?_⟩
      · intro x hx
        exact absurd hx (List.not_mem_nil x)
      · intro x
        constructor
        · rintro (hx | hx) <;> exact absurd hx (List.not_mem_nil x)
        · intro hx
          omega
    exact ⟨hp, Nat.le_refl 0, hp, Nat.le_refl 0⟩
  have h1 := calRun_inv ops _ st 0 h0 (by omega) hrun
  have h2 := CalState.inv_next st (0 + ops.length) h1 (by omega)
  exact ⟨⟨h1.1.1, h2.1⟩, ⟨h1.2.2.1.1, h2.2⟩⟩

/-- Witness of C30: three event ids are taken, 2 is freed (it goes to the free list), then 3
(the counter drops to 2); an invite id is taken and freed.  The next event id is 2, from
the free list, while 1 is still issued; the next invite id is 1. -/
theorem calendar_ids_never_issued_twice_witness :
    calRun { mgr := CalendarMgr.new, events := [], invites := [] }
        [CalOp.getEvent, CalOp.getEvent, CalOp.getEvent, CalOp.freeEvent 2, CalOp.freeEvent 3,
          CalOp.getInvite, CalOp.freeInvite 1] =
      some { mgr := { _maxEventId := 2, _freeEventIds := [2], _maxInviteId := 0,
                      _freeInviteIds := [] },
             events := [1], invites := [] } ∧
    (([1] : List Nat).Nodup ∧ (2 : Nat) ≠ 0 ∧ (2 : Nat) ∉ ([1] : List Nat)) ∧
    (([] : List Nat).Nodup ∧ (1 : Nat) ≠ 0 ∧ (1 : Nat) ∉ ([] : List Nat)) :=
  ⟨by decide,
    calendar_ids_never_issued_twice
      [CalOp.getEvent, CalOp.getEvent, CalOp.getEvent, CalOp.freeEvent 2, CalOp.freeEvent 3,
        CalOp.getInvite, CalOp.freeInvite 1]
      { mgr := { _maxEventId := 2, _freeEventIds := [2], _maxInviteId := 0,
                 _freeInviteIds := [] },
        events := [1], invites := [] }
      (by decide) (by decide)⟩


/-! ## The failure paths of `HandleAuthSession`, path by path -/

/-- A failure reply sent from a state `s0` that has the session pointer and the cipher of
the entry state `s`: `-1` is returned, the session pointer is as before and the cipher is
initialised only if it was before. -/
theorem WorldSocket.replyAndFail_before {σ : Type} (alg : CipherAlg σ) (s s0 : WorldSocket σ)
    (pkt : WorldPacket) (after : List ExternalCall)
    (h1 : s0.m_Session = s.m_Session) (h2 : s0.m_Crypt = s.m_Crypt) :
    ∃ s', WorldSocket.replyAndFail alg s0 pkt after = .ok (Handled.returned s' (-1)) ∧
      s'.m_Session = s.m_Session ∧ s'.m_Crypt.isSome = s.m_Crypt.isSome := by
  obtain ⟨t, ht, hs, hc⟩ := WorldSocket.replyAndFail_frame alg s0 pkt after
  exact ⟨t, ht, hs.trans h1, hc.trans (by rw [h2])⟩

/-- A failure reply sent after the session was created and the cipher initialised: `-1` is
returned with the session attached and the cipher initialised. -/
theorem WorldSocket.replyAndFail_after {σ : Type} (alg : CipherAlg σ) (s0 : WorldSocket σ)
    (pkt : WorldPacket) (after : List ExternalCall)
    (h1 : s0.m_Session.isSome = true) (h2 : s0.m_Crypt.isSome = true) :
    ∃ s', WorldSocket.replyAndFail alg s0 pkt after = .ok (Handled.returned s' (-1)) ∧
      s'.m_Session.isSome = true ∧ s'.m_Crypt.isSome = true := by
  obtain ⟨t, ht, hs, hc⟩ := WorldSocket.replyAndFail_frame alg s0 pkt after
  exact ⟨t, ht, by rw [hs]; exact h1, by rw [hc]; exact h2⟩

/-- C10, amended, path by path.  `HandleAuthSession` returns `-1` with the session pointer
as before and the cipher initialised only if it was before (so with no session and no
cipher on a connection that had none) on each path that fails before the session is
created at line 978: the world is closed; the account is unknown; the account is found and
the IP lock, the client OS, the ban, the security level or the digest fails.  When all of
these pass, the session is created and the cipher initialised, and the two checks that
follow (world closed at line 983, realm mismatch) return `-1` with the session attached and
the cipher initialised; when these pass too, `0` is returned.  When a read of the request
throws, the socket is as before. -/
theorem HandleAuthSession_failure_paths {σ : Type} (alg : CipherAlg σ) (w : World)
    (s : WorldSocket σ) (pkt : WorldPacket) :
    (w.IsClosed = true →
      ∃ s', WorldSocket.HandleAuthSession alg w s pkt = .ok (Handled.returned s' (-1)) ∧
        s'.m_Session = s.m_Session ∧ s'.m_Crypt.isSome = s.m_Crypt.isSome) ∧
    (w.IsClosed = false → readAuthSession pkt.data = none →
      WorldSocket.HandleAuthSession alg w s pkt = .ok (Handled.threw s)) ∧
    (∀ f, w.IsClosed = false → readAuthSession pkt.data = some f →
      w.accountInfoByName f.account = none →
      ∃ s', WorldSocket.HandleAuthSession alg w s pkt = .ok (Handled.returned s' (-1)) ∧
        s'.m_Session = s.m_Session ∧ s'.m_Crypt.isSome = s.m_Crypt.isSome) ∧
    (∀ f row, w.IsClosed = false → readAuthSession pkt.data = some f →
      w.accountInfoByName f.account = some row →
      ((row.locked % 256 = 1 ∧ row.last_ip ≠ s.m_Address) ∨
        (w.CONFIG_WARDEN_ENABLED = true ∧ row.os ≠ "Win" ∧ row.os ≠ "OSX") ∨
        w.bans row.id s.m_Address = true ∨
        (match w.gmLevelByRealm row.id with
          | none => 0
          | some g => g % 256) < w.PlayerSecurityLimit ∨
        w.sha1 (f.account ++ [0, 0, 0, 0] ++ f.clientSeed ++ s.m_Seed ++ row.sessionkey)
          ≠ f.digest) →
      ∃ s', WorldSocket.HandleAuthSession alg w s pkt = .ok (Handled.returned s' (-1)) ∧
        s'.m_Session = s.m_Session ∧ s'.m_Crypt.isSome = s.m_Crypt.isSome) ∧
    (∀ f row, w.IsClosed = false → readAuthSession pkt.data = some f →
      w.accountInfoByName f.account = some row →
      ¬ (row.locked % 256 = 1 ∧ row.last_ip ≠ s.m_Address) →
      ¬ (w.CONFIG_WARDEN_ENABLED = true ∧ row.os ≠ "Win" ∧ row.os ≠ "OSX") →
      w.bans row.id s.m_Address = false →
      ¬ ((match w.gmLevelByRealm row.id with
          | none => 0
          | some g => g % 256) < w.PlayerSecurityLimit) →
      w.sha1 (f.account ++ [0, 0, 0, 0] ++ f.clientSeed ++ s.m_Seed ++ row.sessionkey)
        = f.digest →
      ((w.IsClosedAtLine983 = true ∨ f.realm ≠ w.realmID) →
        ∃ s', WorldSocket.HandleAuthSession alg w s pkt = .ok (Handled.returned s' (-1)) ∧
          s'.m_Session.isSome = true ∧ s'.m_Crypt.isSome = true) ∧
      (w.IsClosedAtLine983 = false → f.realm = w.realmID →
        ∃ s', WorldSocket.HandleAuthSession alg w s pkt = .ok (Handled.returned s' 0) ∧
          s'.m_Session.isSome = true ∧ s'.m_Crypt.isSome = true)) := by
  refine ⟨?_, ?_, ?_, ?_, ?_⟩
  · intro hcl
    unfold WorldSocket.HandleAuthSession
    simp only [hcl, if_true]
    exact WorldSocket.replyAndFail_before alg s s _ _ rfl rfl
  · intro hcl hrd
    unfold WorldSocket.HandleAuthSession
    simp only [hcl, Bool.false_eq_true, if_false, hrd]
  · intro f hcl hrd hacc
    unfold WorldSocket.HandleAuthSession
    simp only [hcl, Bool.false_eq_true, if_false, hrd, hacc]
    exact WorldSocket.replyAndFail_before alg s s _ _ rfl rfl
  · intro f row hcl hrd hacc hfail
    unfold WorldSocket.HandleAuthSession
    simp only [hcl, Bool.false_eq_true, if_false, hrd, hacc]
    by_cases h1 : row.locked % 256 = 1 ∧ row.last_ip ≠ s.m_Address
    · simp only [if_pos h1]
      exact WorldSocket.replyAndFail_before alg s _ _ _ rfl rfl
    · simp only [if_neg h1]
      by_cases h2 : w.CONFIG_WARDEN_ENABLED = true ∧ row.os ≠ "Win" ∧ row.os ≠ "OSX"
      · simp only [if_pos h2]
        refine WorldSocket.replyAndFail_before alg s _ _ _ ?_ ?_ <;> (split <;> rfl)
      · simp only [if_neg h2]
        by_cases h3 : w.bans row.id s.m_Address = true
        · simp only [if_pos h3]
          refine WorldSocket.replyAndFail_before alg s _ _ _ ?_ ?_ <;> (split <;> rfl)
        · simp only [if_neg h3]
          have hexp : ∀ s2 : WorldSocket σ, s2.m_Seed = s.m_Seed →
              ¬ (WorldSocket.expectedDigest w s2 f row.sessionkey ≠ f.digest) →
                w.sha1 (f.account ++ [0, 0, 0, 0] ++ f.clientSeed ++ s.m_Seed ++
                  row.sessionkey) = f.digest := by
            intro s2 hseed hx
            simp only [WorldSocket.expectedDigest, hseed, ne_eq, not_not] at hx
            exact hx
          by_cases hm : row.mutetime < 0
          · simp only [hm, if_true]
            split_ifs
            all_goals first
              | (refine WorldSocket.replyAndFail_before alg s _ _ _ ?_ ?_ <;> rfl)
              | (exfalso
                 rcases hfail with h | h | h | h | h
                 · exact h1 h
                 · exact h2 h
                 · exact h3 h
                 · exact absurd h (by assumption)
                 · refine absurd (hexp _ ?_ (by assumption)) h
                   rfl)
          · simp only [hm, if_false]
            split_ifs
            all_goals first
              | (refine WorldSocket.replyAndFail_before alg s _ _ _ ?_ ?_ <;> rfl)
              | (exfalso
                 rcases hfail with h | h | h | h | h
                 · exact h1 h
                 · exact h2 h
                 · exact h3 h
                 · exact absurd h (by assumption)
                 · refine absurd (hexp _ ?_ (by assumption)) h
                   rfl)
  · intro f row hcl hrd hacc h1 h2 h3 h4 hdig
    have hexp : ∀ s2 : WorldSocket σ, s2.m_Seed = s.m_Seed →
        WorldSocket.expectedDigest w s2 f row.sessionkey ≠ f.digest → False := by
      intro s2 hseed hx
      simp only [WorldSocket.expectedDigest, hseed, hdig, ne_eq, not_true_eq_false] at hx
    constructor
    · intro hlate
      unfold WorldSocket.HandleAuthSession
      simp only [hcl, Bool.false_eq_true, if_false, hrd, hacc, if_neg h1, if_neg h2, h3]
      by_cases hm : row.mutetime < 0
      · simp only [hm, if_true]
        split_ifs
        all_goals first
          | exact absurd (by assumption) h4
          | (exfalso
             refine hexp _ ?_ (by assumption)
             rfl)
          | (unfold WorldSocket.authAccepted
             by_cases hc983 : w.IsClosedAtLine983 = true
             · simp only [if_pos hc983]
               refine WorldSocket.replyAndFail_after alg _ _ _ ?_ ?_ <;> rfl
             · simp only [if_neg hc983]
               have hrealm : f.realm ≠ w.realmID := hlate.resolve_left hc983
               simp only [if_pos hrealm]
               refine WorldSocket.replyAndFail_after alg _ _ _ ?_ ?_ <;> rfl)
      · simp only [hm, if_false]
        split_ifs
        all_goals first
          | exact absurd (by assumption) h4
          | (exfalso
             refine hexp _ ?_ (by assumption)
             rfl)
          | (unfold WorldSocket.authAccepted
             by_cases hc983 : w.IsClosedAtLine983 = true
             · simp only [if_pos hc983]
               refine WorldSocket.replyAndFail_after alg _ _ _ ?_ ?_ <;> rfl
             · simp only [if_neg hc983]
               have hrealm : f.realm ≠ w.realmID := hlate.resolve_left hc983
               simp only [if_pos hrealm]
               refine WorldSocket.replyAndFail_after alg _ _ _ ?_ ?_ <;> rfl)
    · intro hc983 hrealm
      unfold WorldSocket.HandleAuthSession
      simp only [hcl, Bool.false_eq_true, if_false, hrd, hacc, if_neg h1, if_neg h2, h3]
      by_cases hm : row.mutetime < 0
      · simp only [hm, if_true]
        split_ifs
        all_goals first
          | exact absurd (by assumption) h4
          | (exfalso
             refine hexp _ ?_ (by assumption)
             rfl)
          | (unfold WorldSocket.authAccepted
             simp only [hc983, Bool.false_eq_true, if_false, hrealm, ne_eq, not_true_eq_false]
             exact ⟨_, rfl, rfl, rfl⟩)
      · simp only [hm, if_false]
        split_ifs
        all_goals first
          | exact absurd (by assumption) h4
          | (exfalso
             refine hexp _ ?_ (by assumption)
             rfl)
          | (unfold WorldSocket.authAccepted
             simp only [hc983, Bool.false_eq_true, if_false, hrealm, ne_eq, not_true_eq_false]
             exact ⟨_, rfl, rfl, rfl⟩)

/-- Witness of the amended C10 on the sample connection, which has no session and no
cipher: a request with a wrong digest (all zero) returns `-1` and leaves it so; the request
with the right digest for realm 2, on a server whose realm is 1, returns `-1` with a
session attached and the cipher initialised. -/
theorem HandleAuthSession_failure_paths_witness :
    (∃ s', WorldSocket.HandleAuthSession sampleCipher sampleWorld sampleSocket
            (sampleAuthRequest 1 (List.replicate 20 0)) = .ok (Handled.returned s' (-1)) ∧
      s'.m_Session = none ∧ s'.m_Crypt.isSome = false) ∧
    (∃ s', WorldSocket.HandleAuthSession sampleCipher sampleWorld sampleSocket
            (sampleAuthRequest 2 (List.replicate 20 149)) = .ok (Handled.returned s' (-1)) ∧
      s'.m_Session.isSome = true ∧ s'.m_Crypt.isSome = true) :=
  ⟨(HandleAuthSession_failure_paths sampleCipher sampleWorld sampleSocket
      (sampleAuthRequest 1 (List.replicate 20 0))).2.2.2.1
      (sampleAuthFields 1 (List.replicate 20 0)) sampleRow rfl (by decide) (by decide)
      (Or.inr (Or.inr (Or.inr (Or.inr (by decide))))),
   ((HandleAuthSession_failure_paths sampleCipher sampleWorld sampleSocket
      (sampleAuthRequest 2 (List.replicate 20 149))).2.2.2.2
      (sampleAuthFields 2 (List.replicate 20 149)) sampleRow rfl (by decide) (by decide)
      (by decide) (by decide) (by decide) (by decide) (by decide)).1 (Or.inr (by decide))⟩


/-! ## `HandlePing` in terms of the two fields of the packet -/

/-- `HandlePing` on a packet whose two fields are `ping` and `latency`. -/
theorem WorldSocket.HandlePing_read {σ : Type} (alg : CipherAlg σ) (w : World)
    (s : WorldSocket σ) (pkt : WorldPacket) (ping latency : Nat) (rest rest2 : List Nat)
    (hp : readU32 pkt.data = some (ping, rest)) (hlat : readU32 rest = some (latency, rest2)) :
    WorldSocket.HandlePing alg w s pkt =
      (if (WorldSocket.pingCadence w s).2 = true then
        .ok (Handled.returned (WorldSocket.pingCadence w s).1 (-1))
      else
        match (WorldSocket.pingCadence w s).1.m_Session with
        | none => .ok (Handled.returned (WorldSocket.pingCadence w s).1 (-1))
        | some sess =>
            match WorldSocket.SendPacket alg
              { (WorldSocket.pingCadence w s).1 with
                m_Session := some
                  ((sess.SetLatency latency).call SessionCall.ResetClientTimeDelay) }
              { opcode := SMSG_PONG, data := putU32 ping } with
            | .error f => .error f
            | .ok r => .ok (Handled.returned r.1 r.2)) := by
  simp only [WorldSocket.HandlePing, hp, hlat]
  try rfl

/-- The cadence bookkeeping writes the ping time and the counter and nothing else. -/
theorem WorldSocket.pingCadence_frame {σ : Type} (w : World) (s : WorldSocket σ) :
    (WorldSocket.pingCadence w s).1 =
      { s with m_LastPingTime := some w.clockNow
               m_OverSpeedPings := (WorldSocket.pingCadence w s).1.m_OverSpeedPings } := by
  rcases hl : s.m_LastPingTime with _ | last
  · rw [WorldSocket.pingCadence_first w s hl]
  · rw [(WorldSocket.pingCadence_next w s last hl).1]

/-- A session on which `SetLatency` and `ResetClientTimeDelay` were called is not the
session as it was: the call is on record. -/
theorem WorldSession.latency_update_ne (sess : WorldSession) (latency : Nat) :
    (sess.SetLatency latency).call SessionCall.ResetClientTimeDelay ≠ sess := by
  intro h
  have hc := congrArg (fun x => x.calls.length) h
  simp [WorldSession.call, WorldSession.SetLatency] at hc

/-- `HandlePing` past the cadence bookkeeping, with a session attached: the latency is
stored in the session and the pong that echoes `ping` goes to `SendPacket`, whose result is
returned; the session is the updated one afterwards. -/
theorem WorldSocket.HandlePing_pong {σ : Type} (alg : CipherAlg σ) (w : World)
    (s : WorldSocket σ) (pkt : WorldPacket) (ping latency : Nat) (rest rest2 : List Nat)
    (sess : WorldSession)
    (hp : readU32 pkt.data = some (ping, rest)) (hlat : readU32 rest = some (latency, rest2))
    (hk : (WorldSocket.pingCadence w s).2 = false) (hs : s.m_Session = some sess) :
    ∃ s1 r, WorldSocket.SendPacket alg
        { (WorldSocket.pingCadence w s).1 with
          m_Session := some ((sess.SetLatency latency).call SessionCall.ResetClientTimeDelay) }
        { opcode := SMSG_PONG, data := putU32 ping } = .ok (s1, r) ∧
      WorldSocket.HandlePing alg w s pkt = .ok (Handled.returned s1 r) ∧
      s1.m_Session = some ((sess.SetLatency latency).call SessionCall.ResetClientTimeDelay) ∧
      s1.m_LastPingTime = (WorldSocket.pingCadence w s).1.m_LastPingTime ∧
      s1.m_OverSpeedPings = (WorldSocket.pingCadence w s).1.m_OverSpeedPings ∧
      (s.closing_ = false → s.msg_queue.is_full = false → r = 0) := by
  have hsess : (WorldSocket.pingCadence w s).1.m_Session = some sess :=
    (WorldSocket.pingCadence_session w s).trans hs
  rw [WorldSocket.HandlePing_read alg w s pkt ping latency rest rest2 hp hlat, hk]
  simp only [Bool.false_eq_true, if_false, hsess]
  have heq := WorldSocket.SendPacket_eq alg
    { (WorldSocket.pingCadence w s).1 with
      m_Session := some ((sess.SetLatency latency).call SessionCall.ResetClientTimeDelay) }
    { opcode := SMSG_PONG, data := putU32 ping }
  obtain ⟨r, hr⟩ : ∃ r, WorldSocket.SendPacket alg
      { (WorldSocket.pingCadence w s).1 with
        m_Session := some ((sess.SetLatency latency).call SessionCall.ResetClientTimeDelay) }
      { opcode := SMSG_PONG, data := putU32 ping } = .ok r := ⟨_, heq⟩
  have hval := Except.ok.inj (hr.symm.trans heq)
  rw [hr]
  refine ⟨r.1, r.2, rfl, rfl, ?_, ?_, ?_, ?_⟩
  · rw [hval]
    split_ifs <;> rfl
  · rw [hval]
    split_ifs <;> rfl
  · rw [hval]
    split_ifs <;> rfl
  · intro hc hf
    have hc1 : (WorldSocket.pingCadence w s).1.closing_ = false := by
      rw [WorldSocket.pingCadence_frame]
      exact hc
    have hf1 : (WorldSocket.pingCadence w s).1.msg_queue.is_full = false := by
      rw [WorldSocket.pingCadence_frame]
      exact hf
    rw [hval]
    simp only [hc1, hf1, Bool.false_eq_true, if_false]
    split_ifs <;> rfl

/-! ## The first ping and the over-speed kick -/

/-- C15, amended: on a connection whose last-ping time is unset, `HandlePing` of a packet
whose two fields are `ping` and `latency` records the current time and leaves the
over-speed counter unchanged.  Without a session it returns `-1`, nothing else changed.
With a session it stores `latency` in the session and returns what `SendPacket` returns for
the pong that echoes `ping`, which is `0` when the connection is not closing and the queue
is not full. -/
theorem HandlePing_first {σ : Type} (alg : CipherAlg σ) (w : World) (s : WorldSocket σ)
    (pkt : WorldPacket) (ping latency : Nat) (rest rest2 : List Nat)
    (hp : readU32 pkt.data = some (ping, rest)) (hlat : readU32 rest = some (latency, rest2))
    (hl : s.m_LastPingTime = none) :
    (s.m_Session = none →
      WorldSocket.HandlePing alg w s pkt =
        .ok (Handled.returned { s with m_LastPingTime := some w.clockNow } (-1))) ∧
    (∀ sess, s.m_Session = some sess →
      ∃ s1 r, WorldSocket.SendPacket alg
          { s with m_LastPingTime := some w.clockNow
                   m_Session := some
                     ((sess.SetLatency latency).call SessionCall.ResetClientTimeDelay) }
          { opcode := SMSG_PONG, data := putU32 ping } = .ok (s1, r) ∧
        WorldSocket.HandlePing alg w s pkt = .ok (Handled.returned s1 r) ∧
        s1.m_LastPingTime = some w.clockNow ∧ s1.m_OverSpeedPings = s.m_OverSpeedPings ∧
        s1.m_Session = some
          { (sess.call SessionCall.ResetClientTimeDelay) with latency := latency } ∧
        (s.closing_ = false → s.msg_queue.is_full = false → r = 0)) := by
  have hcad := WorldSocket.pingCadence_first w s hl
  constructor
  · intro hs
    rw [WorldSocket.HandlePing_read alg w s pkt ping latency rest rest2 hp hlat, hcad]
    simp only [Bool.false_eq_true, if_false, hs]
  · intro sess hs
    obtain ⟨s1, r, h1, h2, h3, h4, h5, h6⟩ := WorldSocket.HandlePing_pong alg w s pkt ping
      latency rest rest2 sess hp hlat (by rw [hcad]) hs
    rw [hcad] at h1 h4 h5
    exact ⟨s1, r, h1, h2, h4, h5, h3, h6⟩

/-- Witness of C15: the first ping on the authenticated sample connection, echo value 1
and latency 20: the latency is stored and the pong is accepted. -/
theorem HandlePing_first_witness :
    readU32 samplePing.data = some (1, [20, 0, 0, 0]) ∧ readU32 [20, 0, 0, 0] = some (20, []) ∧
    sampleAuthedSocket.m_LastPingTime = none ∧
    ∃ sess s1 r, sampleAuthedSocket.m_Session = some sess ∧
      WorldSocket.SendPacket sampleCipher
          { sampleAuthedSocket with
              m_LastPingTime := some sampleWorld.clockNow
              m_Session := some ((sess.SetLatency 20).call SessionCall.ResetClientTimeDelay) }
          { opcode := SMSG_PONG, data := putU32 1 } = .ok (s1, r) ∧
        WorldSocket.HandlePing sampleCipher sampleWorld sampleAuthedSocket samplePing =
          .ok (Handled.returned s1 r) ∧
        s1.m_LastPingTime = some sampleWorld.clockNow ∧
        s1.m_OverSpeedPings = sampleAuthedSocket.m_OverSpeedPings ∧
        s1.m_Session = some { (sess.call SessionCall.ResetClientTimeDelay) with latency := 20 } ∧
        (sampleAuthedSocket.closing_ = false → sampleAuthedSocket.msg_queue.is_full = false →
          r = 0) :=
  ⟨rfl, rfl, rfl, sampleAuthedSocket.m_Session.get rfl,
    (HandlePing_first sampleCipher sampleWorld sampleAuthedSocket samplePing 1 20 [20, 0, 0, 0] []
      rfl rfl rfl).2 (sampleAuthedSocket.m_Session.get rfl)
      (Option.some_get (rfl : sampleAuthedSocket.m_Session.isSome = true)).symm |>.elim
        (fun s1 h => h.elim (fun r hr => ⟨s1, r,
          (Option.some_get (rfl : sampleAuthedSocket.m_Session.isSome = true)).symm, hr⟩))⟩

/-- C13: for a ping that is not the first, whose packet holds the fields `ping` and
`latency`: with a session attached, `HandlePing` returns `-1` leaving the session as it was
(the over-speed kick) exactly when the whole seconds elapsed since the previous ping are
below 27, the configured threshold is not zero, the counter after its increment (a 32-bit
value) is greater than the threshold, and the session is that of a player account.  On the
kick `-1` is returned with only the ping time and the counter changed: no latency update,
no pong.  Otherwise, with a session attached, the latency is stored and the pong is passed
to `SendPacket`, whose result is returned; without a session `-1` is returned by the check
that follows the bookkeeping. -/
theorem HandlePing_kick_iff {σ : Type} (alg : CipherAlg σ) (w : World) (s : WorldSocket σ)
    (pkt : WorldPacket) (last : Int) (ping latency : Nat) (rest rest2 : List Nat)
    (hp : readU32 pkt.data = some (ping, rest)) (hlat : readU32 rest = some (latency, rest2))
    (hl : s.m_LastPingTime = some last) :
    (((∃ sess, s.m_Session = some sess) ∧
        ∃ s1, WorldSocket.HandlePing alg w s pkt = .ok (Handled.returned s1 (-1)) ∧
          s1.m_Session = s.m_Session) ↔
      (WorldSocket.elapsedSeconds w last w.clockNow < 27 ∧ w.CONFIG_MAX_OVERSPEED_PINGS ≠ 0 ∧
        w.CONFIG_MAX_OVERSPEED_PINGS < (s.m_OverSpeedPings + 1) % 2 ^ 32 ∧
        ∃ sess, s.m_Session = some sess ∧ sess.security = SEC_PLAYER)) ∧
    ((WorldSocket.elapsedSeconds w last w.clockNow < 27 ∧ w.CONFIG_MAX_OVERSPEED_PINGS ≠ 0 ∧
        w.CONFIG_MAX_OVERSPEED_PINGS < (s.m_OverSpeedPings + 1) % 2 ^ 32 ∧
        ∃ sess, s.m_Session = some sess ∧ sess.security = SEC_PLAYER) →
      WorldSocket.HandlePing alg w s pkt = .ok (Handled.returned
        { s with m_LastPingTime := some w.clockNow
                 m_OverSpeedPings := (s.m_OverSpeedPings + 1) % 2 ^ 32 } (-1))) ∧
    (¬ (WorldSocket.elapsedSeconds w last w.clockNow < 27 ∧ w.CONFIG_MAX_OVERSPEED_PINGS ≠ 0 ∧
        w.CONFIG_MAX_OVERSPEED_PINGS < (s.m_OverSpeedPings + 1) % 2 ^ 32 ∧
        ∃ sess, s.m_Session = some sess ∧ sess.security = SEC_PLAYER) →
      (∀ sess, s.m_Session = some sess →
        ∃ s1 r, WorldSocket.SendPacket alg
            { s with m_LastPingTime := some w.clockNow
                     m_OverSpeedPings :=
                       if WorldSocket.elapsedSeconds w last w.clockNow < 27 then
                         (s.m_OverSpeedPings + 1) % 2 ^ 32
                       else 0
                     m_Session := some
                       ((sess.SetLatency latency).call SessionCall.ResetClientTimeDelay) }
            { opcode := SMSG_PONG, data := putU32 ping } = .ok (s1, r) ∧
          WorldSocket.HandlePing alg w s pkt = .ok (Handled.returned s1 r) ∧
          s1.m_Session = some
            { (sess.call SessionCall.ResetClientTimeDelay) with latency := latency }) ∧
      (s.m_Session = none →
        WorldSocket.HandlePing alg w s pkt = .ok (Handled.returned
          { s with m_LastPingTime := some w.clockNow
                   m_OverSpeedPings :=
                     if WorldSocket.elapsedSeconds w last w.clockNow < 27 then
                       (s.m_OverSpeedPings + 1) % 2 ^ 32
                     else 0 } (-1)))) := by
  obtain ⟨hst, hiff⟩ := WorldSocket.pingCadence_next w s last hl
  have hread := WorldSocket.HandlePing_read alg w s pkt ping latency rest rest2 hp hlat
  have hkick : (WorldSocket.elapsedSeconds w last w.clockNow < 27 ∧
      w.CONFIG_MAX_OVERSPEED_PINGS ≠ 0 ∧
      w.CONFIG_MAX_OVERSPEED_PINGS < (s.m_OverSpeedPings + 1) % 2 ^ 32 ∧
      ∃ sess, s.m_Session = some sess ∧ sess.security = SEC_PLAYER) →
      WorldSocket.HandlePing alg w s pkt = .ok (Handled.returned
        { s with m_LastPingTime := some w.clockNow
                 m_OverSpeedPings := (s.m_OverSpeedPings + 1) % 2 ^ 32 } (-1)) := by
    intro hK
    rw [hread, if_pos (hiff.mpr hK), hst, if_pos hK.1]
  have hpong : ¬ (WorldSocket.elapsedSeconds w last w.clockNow < 27 ∧
      w.CONFIG_MAX_OVERSPEED_PINGS ≠ 0 ∧
      w.CONFIG_MAX_OVERSPEED_PINGS < (s.m_OverSpeedPings + 1) % 2 ^ 32 ∧
      ∃ sess, s.m_Session = some sess ∧ sess.security = SEC_PLAYER) →
      ∀ sess, s.m_Session = some sess →
        ∃ s1 r, WorldSocket.SendPacket alg
            { s with m_LastPingTime := some w.clockNow
                     m_OverSpeedPings :=
                       if WorldSocket.elapsedSeconds w last w.clockNow < 27 then
                         (s.m_OverSpeedPings + 1) % 2 ^ 32
                       else 0
                     m_Session := some
                       ((sess.SetLatency latency).call SessionCall.ResetClientTimeDelay) }
            { opcode := SMSG_PONG, data := putU32 ping } = .ok (s1, r) ∧
          WorldSocket.HandlePing alg w s pkt = .ok (Handled.returned s1 r) ∧
          s1.m_Session = some
            { (sess.call SessionCall.ResetClientTimeDelay) with latency := latency } := by
    intro hK sess hs
    have hflag : (WorldSocket.pingCadence w s).2 = false := by
      rw [Bool.eq_false_iff, Ne, hiff]
      exact hK
    obtain ⟨s1, r, h1, h2, h3, -⟩ := WorldSocket.HandlePing_pong alg w s pkt ping latency rest
      rest2 sess hp hlat hflag hs
    rw [hst] at h1
    exact ⟨s1, r, h1, h2, h3⟩
  refine ⟨⟨?_, ?_⟩, hkick, fun hK => ⟨hpong hK, ?_⟩⟩
  · rintro ⟨⟨sess, hs⟩, s1, h1, h2⟩
    by_contra hK
    obtain ⟨s2, r, -, h4, h5⟩ := hpong hK sess hs
    rw [h4] at h1
    simp only [Except.ok.injEq, Handled.returned.injEq] at h1
    rw [← h1.1, h5, hs] at h2
    exact WorldSession.latency_update_ne sess latency (Option.some.inj h2)
  · intro hK
    obtain ⟨sess, hs, -⟩ := hK.2.2.2
    exact ⟨⟨sess, hs⟩, _, hkick hK, rfl⟩
  · intro hs
    have hflag : (WorldSocket.pingCadence w s).2 = false := by
      rw [Bool.eq_false_iff, Ne, hiff]
      exact hK
    have hsess : (WorldSocket.pingCadence w s).1.m_Session = none :=
      (WorldSocket.pingCadence_session w s).trans hs
    rw [hread, hflag]
    simp only [Bool.false_eq_true, if_false, hsess]
    rw [hst]

/-- Witness of C13: the authenticated sample connection (a player account, threshold 5)
gets a ping one second after the previous one.  With the counter at 5 the ping is kicked;
with the counter at 4 it is not: the latency 20 is stored. -/
theorem HandlePing_kick_iff_witness :
    WorldSocket.HandlePing sampleCipher { sampleWorld with clockNow := 1000000000 }
        { sampleAuthedSocket with m_LastPingTime := some 0, m_OverSpeedPings := 5 }
        samplePing = .ok (Handled.returned
        { sampleAuthedSocket with m_LastPingTime := some 1000000000
                                  m_OverSpeedPings := 6 } (-1)) ∧
    ∃ sess s1 r, sampleAuthedSocket.m_Session = some sess ∧
      WorldSocket.HandlePing sampleCipher { sampleWorld with clockNow := 1000000000 }
        { sampleAuthedSocket with m_LastPingTime := some 0, m_OverSpeedPings := 4 }
        samplePing = .ok (Handled.returned s1 r) ∧
      s1.m_Session = some { (sess.call SessionCall.ResetClientTimeDelay) with latency := 20 } :=
  ⟨(HandlePing_kick_iff sampleCipher { sampleWorld with clockNow := 1000000000 }
      { sampleAuthedSocket with m_LastPingTime := some 0, m_OverSpeedPings := 5 }
      samplePing 0 1 20 [20, 0, 0, 0] [] rfl rfl rfl).2.1
      ⟨by decide, by decide, by decide, sampleAuthedSocket.m_Session.get rfl,
        (Option.some_get (rfl : sampleAuthedSocket.m_Session.isSome = true)).symm, rfl⟩,
   sampleAuthedSocket.m_Session.get rfl,
   ((HandlePing_kick_iff sampleCipher { sampleWorld with clockNow := 1000000000 }
      { sampleAuthedSocket with m_LastPingTime := some 0, m_OverSpeedPings := 4 }
      samplePing 0 1 20 [20, 0, 0, 0] [] rfl rfl rfl).2.2
      (fun hK => absurd hK.2.2.1 (by decide))).1 (sampleAuthedSocket.m_Session.get rfl)
      (Option.some_get (rfl : sampleAuthedSocket.m_Session.isSome = true)).symm |>.elim
        (fun s1 h => h.elim (fun r hr => ⟨s1, r,
          (Option.some_get (rfl : sampleAuthedSocket.m_Session.isSome = true)).symm,
          hr.2⟩))⟩

/-! ## The cipher goes over header bytes only: the claim -/

/-- What `handle_input_header` decodes, in terms of the header bytes after `DecryptRecv`:
the cipher state left, the rejection test, and the packet allocated. -/
theorem WorldSocket.handle_input_header_decoded {σ : Type} (alg : CipherAlg σ)
    (s s1 : WorldSocket σ) (r : Int) (h : WorldSocket.handle_input_header alg s = .ok (s1, r)) :
    (s.m_Header.unsent.take 6).length = 6 ∧
    s1.m_Crypt = (WorldSocket.decryptHeader alg s.m_Crypt (s.m_Header.unsent.take 6)).1 ∧
    (r = -1 ↔ headerRejected
      (headerSize (WorldSocket.decryptHeader alg s.m_Crypt (s.m_Header.unsent.take 6)).2)
      (headerCmd (WorldSocket.decryptHeader alg s.m_Crypt (s.m_Header.unsent.take 6)).2) = true) ∧
    (r ≠ -1 → r = 0 ∧ s1.m_RecvWPct = some
      { opcode := headerCmd
          (WorldSocket.decryptHeader alg s.m_Crypt (s.m_Header.unsent.take 6)).2 % 2 ^ 16
        data := List.replicate (headerSize
          (WorldSocket.decryptHeader alg s.m_Crypt (s.m_Header.unsent.take 6)).2 - 4) 0 }) := by
  obtain ⟨hcr, h6⟩ := WorldSocket.handle_input_header_crypt alg s s1 r h
  refine ⟨h6, hcr, ?_, ?_⟩
  · unfold WorldSocket.handle_input_header at h
    simp only [] at h
    repeat' split at h
    all_goals try simp only [Except.ok.injEq, Prod.mk.injEq, reduceCtorEq] at h
    all_goals
      obtain ⟨-, hr⟩ := h
      subst hr
      simp_all
  · unfold WorldSocket.handle_input_header at h
    simp only [] at h
    repeat' split at h
    all_goals try simp only [Except.ok.injEq, Prod.mk.injEq, reduceCtorEq] at h
    all_goals
      obtain ⟨hs, hr⟩ := h
      subst hr
      subst hs
      simp_all

/-- C24: the cipher goes over header bytes only.  When `SendPacket` accepts a packet, the
bytes it appends to the direct buffer or puts in a new queue block are the four or five
header bytes, as they are without a cipher and passed through the send stream with one,
followed by the payload bytes as they are; the send stream has gone over those header
bytes and nothing else.  `handle_input_header` passes exactly the six bytes of the header
block through the receive stream when the cipher is initialised, and takes them as
received when it is not: the cipher state it leaves, its rejection test and the packet it
allocates are those of these six bytes.  The payload stage leaves the cipher alone, and
the packet dispatched for a frame has the opcode of the decrypted header and the payload
bytes as received. -/
theorem cipher_on_header_only {σ : Type} (alg : CipherAlg σ) (w : World) (s : WorldSocket σ)
    (pct : WorldPacket) (f : ClientFrame) :
    (∀ s1, WorldSocket.SendPacket alg s pct = .ok (s1, 0) →
      ∃ H : List Nat,
        ((s1.m_OutBuffer.data = s.m_OutBuffer.data ++ (H ++ pct.data) ∧
            s1.msg_queue = s.msg_queue) ∨
          (s1.m_OutBuffer = s.m_OutBuffer ∧
            ∃ z, s1.msg_queue.blocks = s.msg_queue.blocks ++
              [{ data := H ++ pct.data, rd := 0, size := z }])) ∧
        H.length = (sendPacketHeader pct.data.length pct.opcode).getHeaderLength ∧
        (H.length = 4 ∨ H.length = 5) ∧
        (s.m_Crypt = none →
          s1.m_Crypt = none ∧
          H = (sendPacketHeader pct.data.length pct.opcode).header.take
            (sendPacketHeader pct.data.length pct.opcode).getHeaderLength) ∧
        (∀ c, s.m_Crypt = some c →
          s1.m_Crypt = some { c with serverEncrypt := (alg.update c.serverEncrypt
            ((sendPacketHeader pct.data.length pct.opcode).header.take
              (sendPacketHeader pct.data.length pct.opcode).getHeaderLength)).1 } ∧
          H = (alg.update c.serverEncrypt
            ((sendPacketHeader pct.data.length pct.opcode).header.take
              (sendPacketHeader pct.data.length pct.opcode).getHeaderLength)).2)) ∧
    (∀ s1 r, WorldSocket.handle_input_header alg s = .ok (s1, r) → s.m_Crypt = none →
      (s.m_Header.unsent.take 6).length = 6 ∧ s1.m_Crypt = none ∧
      (r = -1 ↔ headerRejected (headerSize (s.m_Header.unsent.take 6))
        (headerCmd (s.m_Header.unsent.take 6)) = true) ∧
      (r ≠ -1 → r = 0 ∧ s1.m_RecvWPct = some
        { opcode := headerCmd (s.m_Header.unsent.take 6) % 2 ^ 16
          data := List.replicate (headerSize (s.m_Header.unsent.take 6) - 4) 0 })) ∧
    (∀ s1 r c, WorldSocket.handle_input_header alg s = .ok (s1, r) → s.m_Crypt = some c →
      (s.m_Header.unsent.take 6).length = 6 ∧
      s1.m_Crypt = some { c with clientDecrypt :=
        (alg.update c.clientDecrypt (s.m_Header.unsent.take 6)).1 } ∧
      (r = -1 ↔ headerRejected
        (headerSize (alg.update c.clientDecrypt (s.m_Header.unsent.take 6)).2)
        (headerCmd (alg.update c.clientDecrypt (s.m_Header.unsent.take 6)).2) = true) ∧
      (r ≠ -1 → r = 0 ∧ s1.m_RecvWPct = some
        { opcode := headerCmd (alg.update c.clientDecrypt (s.m_Header.unsent.take 6)).2 % 2 ^ 16
          data := List.replicate
            (headerSize (alg.update c.clientDecrypt (s.m_Header.unsent.take 6)).2 - 4) 0 })) ∧
    (∀ mb s1, (∀ r, WorldSocket.payloadStage s mb = .ok (Stage.done s1 r) →
        s1.m_Crypt = s.m_Crypt) ∧
      (∀ rest, WorldSocket.payloadStage s mb = .ok (Stage.go s1 rest) →
        s1.m_Crypt = s.m_Crypt)) ∧
    (s.m_Header = MsgBlock.alloc 6 ∧ s.m_RecvWPct = none ∧ s.m_RecvPct = MsgBlock.alloc 0 →
      s.m_Crypt = none → f.header.length = 6 →
      headerRejected (headerSize f.header) (headerCmd f.header) = false →
      f.payload.length = headerSize f.header - 4 →
      ∃ s1 r, WorldSocket.handle_input_missing_data alg w s (RecvAnswer.bytes f.bytes) =
        .ok { sock := s1, ret := r
              dispatched := [{ opcode := headerCmd f.header, data := f.payload }] }) ∧
    (∀ c, s.m_Header = MsgBlock.alloc 6 ∧ s.m_RecvWPct = none ∧
        s.m_RecvPct = MsgBlock.alloc 0 →
      s.m_Crypt = some c → f.header.length = 6 →
      headerRejected (headerSize (alg.update c.clientDecrypt f.header).2)
        (headerCmd (alg.update c.clientDecrypt f.header).2) = false →
      f.payload.length = headerSize (alg.update c.clientDecrypt f.header).2 - 4 →
      ∃ s1 r, WorldSocket.handle_input_missing_data alg w s (RecvAnswer.bytes f.bytes) =
        .ok { sock := s1, ret := r
              dispatched := [{ opcode := headerCmd (alg.update c.clientDecrypt f.header).2
                               data := f.payload }] }) := by
  refine ⟨?_, ?_, ?_, ?_, ?_, ?_⟩
  · intro s1 h
    obtain ⟨hcr, hplace⟩ := WorldSocket.SendPacket_accepted alg s s1 pct h
    have hlen := WorldSocket.sendHeaderBytes_length alg s.m_Crypt pct
    have hb : 4 ≤ (sendPacketHeader pct.data.length pct.opcode).getHeaderLength ∧
        (sendPacketHeader pct.data.length pct.opcode).getHeaderLength ≤ 5 :=
      ServerPktHeader.getHeaderLength_bounds (pct.data.length + 2) pct.opcode
    refine ⟨(WorldSocket.sendHeaderBytes alg s.m_Crypt pct).2, hplace, hlen, by omega, ?_, ?_⟩
    · intro hn
      rw [hcr, hn]
      exact ⟨rfl, rfl⟩
    · intro c hc
      rw [hcr, hc]
      exact ⟨rfl, rfl⟩
  · intro s1 r h hn
    have hd := WorldSocket.handle_input_header_decoded alg s s1 r h
    rw [hn] at hd
    exact hd
  · intro s1 r c h hc
    have hd := WorldSocket.handle_input_header_decoded alg s s1 r h
    rw [hc] at hd
    exact hd
  · intro mb s1
    exact ⟨fun r h => (WorldSocket.payloadStage_crypt s mb).1 s1 r h,
      fun rest h => (WorldSocket.payloadStage_crypt s mb).2 s1 rest h⟩
  · intro hempty hn hl hrej hpay
    have hwf : WorldSocket.frameWellFormed alg s.m_Crypt f = true := by
      rw [WorldSocket.frameWellFormed_iff, hn]
      exact ⟨hl, hrej, hpay⟩
    have h := WorldSocket.read_whole_frame alg w s f hempty hwf
    rw [hn] at h
    exact h
  · intro c hempty hc hl hrej hpay
    have hwf : WorldSocket.frameWellFormed alg s.m_Crypt f = true := by
      rw [WorldSocket.frameWellFormed_iff, hc]
      exact ⟨hl, hrej, hpay⟩
    have h := WorldSocket.read_whole_frame alg w s f hempty hwf
    rw [hc] at h
    exact h

/-- Witness of C24, on the authenticated sample connection, whose cipher is initialised
(receive stream at 6, send stream at 7): a pong is submitted, the payload follows four
encrypted header bytes; and the frame `06 01 0F 0D 0A 0B 07 08` is read, whose header
decrypts to `00 06 07 04 00 00`, a keepalive with the two payload bytes `07 08`. -/
theorem cipher_on_header_only_witness :
    sampleAuthedSocket.m_Crypt = some { clientDecrypt := 6, serverEncrypt := 7 } ∧
    (sampleCipher.update 6 [6, 1, 15, 13, 10, 11]).2 = [0, 6, 7, 4, 0, 0] ∧
    (∃ s1, WorldSocket.SendPacket sampleCipher sampleAuthedSocket
        { opcode := SMSG_PONG, data := [1, 0, 0, 0] } = .ok (s1, 0) ∧
      s1.m_OutBuffer.data.drop 4 = [1, 0, 0, 0]) ∧
    (∃ s1 r, WorldSocket.handle_input_missing_data sampleCipher sampleWorld sampleAuthedSocket
        (RecvAnswer.bytes [6, 1, 15, 13, 10, 11, 7, 8]) =
      .ok { sock := s1, ret := r, dispatched := [{ opcode := CMSG_KEEP_ALIVE, data := [7, 8] }] }) :=
  ⟨rfl, by decide, ⟨_, rfl, rfl⟩,
   (cipher_on_header_only sampleCipher sampleWorld sampleAuthedSocket
      { opcode := SMSG_PONG, data := [1, 0, 0, 0] }
      { header := [6, 1, 15, 13, 10, 11], payload := [7, 8] }).2.2.2.2.2
      { clientDecrypt := 6, serverEncrypt := 7 } ⟨rfl, rfl, rfl⟩ rfl rfl (by decide) (by decide)⟩


/-! ## The position of the over-speed kick in a run of pings -/

/-- With a session attached, what `HandlePing` returns is the over-speed kick exactly when
the cadence bookkeeping takes the kick branch. -/
theorem WorldSocket.HandlePing_kickReturned {σ : Type} (alg : CipherAlg σ) (w : World)
    (s : WorldSocket σ) (pkt : WorldPacket) (sess : WorldSession) (h8 : 8 ≤ pkt.data.length)
    (hs : s.m_Session = some sess) :
    ∃ h, WorldSocket.HandlePing alg w s pkt = .ok h ∧
      WorldSocket.kickReturned s h = (WorldSocket.pingCadence w s).2 := by
  obtain ⟨ping, h1⟩ := readU32_of_length pkt.data (by omega)
  obtain ⟨latency, h2⟩ := readU32_of_length (pkt.data.drop 4) (by simp; omega)
  by_cases hk : (WorldSocket.pingCadence w s).2 = true
  · refine ⟨Handled.returned (WorldSocket.pingCadence w s).1 (-1), ?_, ?_⟩
    · rw [WorldSocket.HandlePing_read alg w s pkt ping latency _ _ h1 h2, if_pos hk]
    · simp only [WorldSocket.kickReturned, WorldSocket.pingCadence_session, hs, hk,
        decide_True, Option.isSome_some, Bool.and_self]
  · have hk2 : (WorldSocket.pingCadence w s).2 = false := by
      simpa using hk
    obtain ⟨s1, r, -, h4, h5, -⟩ := WorldSocket.HandlePing_pong alg w s pkt ping latency _ _
      sess h1 h2 hk2 hs
    refine ⟨Handled.returned s1 r, h4, ?_⟩
    have hne : ¬ (s1.m_Session = s.m_Session) := by
      rw [h5, hs]
      intro h
      exact WorldSession.latency_update_ne sess latency (Option.some.inj h)
    simp only [WorldSocket.kickReturned, hne, decide_False, Bool.and_false, hk2]

/-- What `HandlePing` returns with a session attached, on a packet that holds both fields.
If it is the over-speed kick, `-1` is returned and only the ping time and the counter have
changed: nothing is stored in the session, nothing is sent or queued.  If it is not, the
session has been updated and the value returned is that of `SendPacket` for the pong, `0`
when the connection is not closing and the queue is not full. -/
theorem WorldSocket.HandlePing_outcome {σ : Type} (alg : CipherAlg σ) (w : World)
    (s : WorldSocket σ) (pkt : WorldPacket) (sess : WorldSession) (h : Handled σ)
    (h8 : 8 ≤ pkt.data.length) (hs : s.m_Session = some sess)
    (hh : WorldSocket.HandlePing alg w s pkt = .ok h) :
    (WorldSocket.kickReturned s h = true →
      ∃ t n, h = Handled.returned
        { s with m_LastPingTime := some t, m_OverSpeedPings := n } (-1)) ∧
    (WorldSocket.kickReturned s h = false →
      ∃ s1 r, h = Handled.returned s1 r ∧ s1.m_Session ≠ s.m_Session ∧
        (s.closing_ = false → s.msg_queue.is_full = false → r = 0)) := by
  obtain ⟨ping, h1⟩ := readU32_of_length pkt.data (by omega)
  obtain ⟨latency, h2⟩ := readU32_of_length (pkt.data.drop 4) (by simp; omega)
  obtain ⟨h', hh', hkr⟩ := WorldSocket.HandlePing_kickReturned alg w s pkt sess h8 hs
  have hsame : h' = h := Except.ok.inj (hh'.symm.trans hh)
  subst hsame
  constructor
  · intro hk
    rw [hkr] at hk
    rw [WorldSocket.HandlePing_read alg w s pkt ping latency _ _ h1 h2, if_pos hk] at hh
    refine ⟨w.clockNow, (WorldSocket.pingCadence w s).1.m_OverSpeedPings, ?_⟩
    rw [← Except.ok.inj hh]
    congr 1
    exact WorldSocket.pingCadence_frame w s
  · intro hk
    rw [hkr] at hk
    obtain ⟨s1, r, -, h4, h5, -, -, h6⟩ := WorldSocket.HandlePing_pong alg w s pkt ping latency
      _ _ sess h1 h2 hk hs
    refine ⟨s1, r, Except.ok.inj (hh.symm.trans h4), ?_, h6⟩
    rw [h5, hs]
    intro hx
    exact WorldSession.latency_update_ne sess latency (Option.some.inj hx)

/-- A run of fast pings after a recorded ping time, on a connection with a player session
whose counter is `n` short of the threshold: what `HandlePing` returns is not the kick for
the first `n` pings, and is the kick for the next one. -/
theorem WorldSocket.pingOutcomes_fast {σ : Type} (alg : CipherAlg σ) (w : World) (T : Nat)
    (hT : T ≠ 0) (h32 : T + 1 < 2 ^ 32) (hcfg : w.CONFIG_MAX_OVERSPEED_PINGS = T) (n : Nat) :
    ∀ (pings : List (Int × WorldPacket)) (s : WorldSocket σ) (t0 : Int),
      pings.length = n + 1 → s.m_LastPingTime = some t0 → s.m_OverSpeedPings + n = T →
      (∃ sess, s.m_Session = some sess ∧ sess.security = SEC_PLAYER) →
      (∀ p ∈ pings, 8 ≤ p.2.data.length) →
      WorldSocket.allFast w (t0 :: pings.map Prod.fst) = true →
      ∃ outs, WorldSocket.pingOutcomes alg w s pings = .ok outs ∧
        outs.map (fun o => WorldSocket.kickReturned o.1 o.2) =
          List.replicate n false ++ [true] ∧
        (∀ o ∈ outs,
          (WorldSocket.kickReturned o.1 o.2 = true →
            ∃ t n, o.2 = Handled.returned
              { o.1 with m_LastPingTime := some t, m_OverSpeedPings := n } (-1)) ∧
          (WorldSocket.kickReturned o.1 o.2 = false →
            ∃ s1 r, o.2 = Handled.returned s1 r ∧ s1.m_Session ≠ o.1.m_Session ∧
              (o.1.closing_ = false → o.1.msg_queue.is_full = false → r = 0))) := by
  induction n with
  | zero =>
      intro pings s t0 hlen hl hc hsess h8 hfast
      obtain ⟨p, rfl⟩ : ∃ p, pings = [p] := by
        match pings, hlen with
        | [p], _ => exact ⟨p, rfl⟩
      simp only [List.map_cons, List.map_nil, WorldSocket.allFast, Bool.and_true,
        decide_eq_true_eq] at hfast
      obtain ⟨sess, hs1, hp1⟩ := hsess
      obtain ⟨h, hh, hkr⟩ := WorldSocket.HandlePing_kickReturned alg { w with clockNow := p.1 }
        s p.2 sess (h8 p (List.mem_cons_self _ _)) hs1
      obtain ⟨-, hiff⟩ := WorldSocket.pingCadence_next { w with clockNow := p.1 } s t0 hl
      have hflag : WorldSocket.kickReturned s h = true := by
        rw [hkr, hiff]
        refine ⟨hfast, ?_, ?_, sess, hs1, hp1⟩
        · show w.CONFIG_MAX_OVERSPEED_PINGS ≠ 0
          rw [hcfg]
          exact hT
        · show w.CONFIG_MAX_OVERSPEED_PINGS < (s.m_OverSpeedPings + 1) % 2 ^ 32
          rw [hcfg, Nat.mod_eq_of_lt (by omega)]
          omega
      refine ⟨[(s, h)], ?_, ?_, ?_⟩
      · simp only [WorldSocket.pingOutcomes, hh]
      · simp [hflag]
      · intro o ho
        rw [List.mem_singleton] at ho
        subst ho
        exact WorldSocket.HandlePing_outcome alg { w with clockNow := p.1 } s p.2 sess h
          (h8 p (List.mem_cons_self _ _)) hs1 hh
  | succ n ih =>
      intro pings s t0 hlen hl hc hsess h8 hfast
      obtain ⟨p, ps, rfl⟩ : ∃ p ps, pings = p :: ps := by
        match pings, hlen with
        | p :: ps, _ => exact ⟨p, ps, rfl⟩
      simp only [List.map_cons, WorldSocket.allFast, Bool.and_eq_true,
        decide_eq_true_eq] at hfast
      obtain ⟨sess, hs1, hp1⟩ := hsess
      obtain ⟨h, hh, hkr⟩ := WorldSocket.HandlePing_kickReturned alg { w with clockNow := p.1 }
        s p.2 sess (h8 p (List.mem_cons_self _ _)) hs1
      obtain ⟨h', hh', ht, hcn, hs⟩ := WorldSocket.HandlePing_step alg
        { w with clockNow := p.1 } s p.2 (h8 p (List.mem_cons_self _ _))
      have hsame : h' = h := Except.ok.inj (hh'.symm.trans hh)
      subst hsame
      obtain ⟨hst, hiff⟩ := WorldSocket.pingCadence_next { w with clockNow := p.1 } s t0 hl
      have hel : WorldSocket.elapsedSeconds { w with clockNow := p.1 } t0 p.1 < 27 := hfast.1
      have hflag : WorldSocket.kickReturned s h' = false := by
        rw [Bool.eq_false_iff, Ne, hkr, hiff]
        rintro ⟨-, -, hgt, -⟩
        have hgt2 : w.CONFIG_MAX_OVERSPEED_PINGS < (s.m_OverSpeedPings + 1) % 2 ^ 32 := hgt
        rw [hcfg, Nat.mod_eq_of_lt (by omega)] at hgt2
        omega
      rw [hst] at ht hcn
      simp only [if_pos hel] at hcn
      rw [Nat.mod_eq_of_lt (by omega)] at hcn
      obtain ⟨sess1, hs2, hp2⟩ := hs sess hs1
      obtain ⟨rest, hr, hflags, hall⟩ := ih ps h'.sock p.1 (by simpa using hlen) ht
        (by rw [hcn]; omega) ⟨sess1, hs2, hp2.trans hp1⟩
        (fun q hq => h8 q (List.mem_cons_of_mem _ hq)) hfast.2
      refine ⟨(s, h') :: rest, ?_, ?_, ?_⟩
      · simp only [WorldSocket.pingOutcomes, hh, hr]
      · simp only [List.map_cons, hflag, hflags, List.replicate_succ, List.cons_append]
      · intro o ho
        rcases List.mem_cons.mp ho with ho1 | ho1
        · subst ho1
          exact WorldSocket.HandlePing_outcome alg { w with clockNow := p.1 } s p.2 sess h'
            (h8 p (List.mem_cons_self _ _)) hs1 hh
        · exact hall o ho1

/-- C12, as stated, fails on a fresh connection: with the threshold 5 of the sample world,
ten pings one second apart on the authenticated sample connection; `HandlePing` returns
`0` for the first six of them (the pong is accepted) and `-1` from the 7th on, and the 7th
is the first for which what it returns is the over-speed kick. -/
theorem sixth_fast_ping_is_not_kicked :
    sampleWorld.CONFIG_MAX_OVERSPEED_PINGS = 5 ∧
    WorldSocket.allFast sampleWorld ((pingsEvery 1000000000 10).map Prod.fst) = true ∧
    Except.map (List.map (fun o => WorldSocket.returnValue o.2))
        (WorldSocket.pingOutcomes sampleCipher sampleWorld sampleAuthedSocket
          (pingsEvery 1000000000 10)) =
      .ok [some 0, some 0, some 0, some 0, some 0, some 0,
        some (-1), some (-1), some (-1), some (-1)] ∧
    Except.map (List.map (fun o => WorldSocket.kickReturned o.1 o.2))
        (WorldSocket.pingOutcomes sampleCipher sampleWorld sampleAuthedSocket
          (pingsEvery 1000000000 10)) =
      .ok [false, false, false, false, false, false, true, true, true, true] :=
  ⟨rfl, by decide, rfl, rfl⟩

/-- C12, amended: with a threshold `T > 0` (below the 32-bit maximum), a player session
attached, the counter at 0 and pings each less than 27 seconds after the previous one, all
holding both fields: on a connection that has had no ping, what `HandlePing` returns is not
the over-speed kick for the first `T + 1` pings and is the kick for the `(T + 2)`-th (the
7th for `T = 5`); counted from the first ping that follows a recorded ping time, the first
kick is at the `(T + 1)`-th.  A ping that is kicked returns `-1` with only the ping time
and the counter changed; one that is not has updated the session and returns what
`SendPacket` returns for the pong, `0` when the connection is not closing and the queue
is not full. -/
theorem overspeed_kick_position {σ : Type} (alg : CipherAlg σ) (w : World) (s : WorldSocket σ)
    (T : Nat) (pings : List (Int × WorldPacket)) (hT : 0 < T) (h32 : T + 1 < 2 ^ 32)
    (hcfg : w.CONFIG_MAX_OVERSPEED_PINGS = T)
    (hsess : ∃ sess, s.m_Session = some sess ∧ sess.security = SEC_PLAYER)
    (hc : s.m_OverSpeedPings = 0) (h8 : ∀ p ∈ pings, 8 ≤ p.2.data.length) :
    (s.m_LastPingTime = none → pings.length = T + 2 →
      WorldSocket.allFast w (pings.map Prod.fst) = true →
      ∃ outs, WorldSocket.pingOutcomes alg w s pings = .ok outs ∧
        outs.map (fun o => WorldSocket.kickReturned o.1 o.2) =
          List.replicate (T + 1) false ++ [true] ∧
        (∀ o ∈ outs,
          (WorldSocket.kickReturned o.1 o.2 = true →
            ∃ t n, o.2 = Handled.returned
              { o.1 with m_LastPingTime := some t, m_OverSpeedPings := n } (-1)) ∧
          (WorldSocket.kickReturned o.1 o.2 = false →
            ∃ s1 r, o.2 = Handled.returned s1 r ∧ s1.m_Session ≠ o.1.m_Session ∧
              (o.1.closing_ = false → o.1.msg_queue.is_full = false → r = 0)))) ∧
    (∀ t0, s.m_LastPingTime = some t0 → pings.length = T + 1 →
      WorldSocket.allFast w (t0 :: pings.map Prod.fst) = true →
      ∃ outs, WorldSocket.pingOutcomes alg w s pings = .ok outs ∧
        outs.map (fun o => WorldSocket.kickReturned o.1 o.2) =
          List.replicate T false ++ [true] ∧
        (∀ o ∈ outs,
          (WorldSocket.kickReturned o.1 o.2 = true →
            ∃ t n, o.2 = Handled.returned
              { o.1 with m_LastPingTime := some t, m_OverSpeedPings := n } (-1)) ∧
          (WorldSocket.kickReturned o.1 o.2 = false →
            ∃ s1 r, o.2 = Handled.returned s1 r ∧ s1.m_Session ≠ o.1.m_Session ∧
              (o.1.closing_ = false → o.1.msg_queue.is_full = false → r = 0)))) := by
  constructor
  · intro hl hlen hfast
    obtain ⟨p, ps, rfl⟩ : ∃ p ps, pings = p :: ps := by
      match pings, hlen with
      | p :: ps, _ => exact ⟨p, ps, rfl⟩
    obtain ⟨sess, hs1, hp1⟩ := hsess
    obtain ⟨h, hh, hkr⟩ := WorldSocket.HandlePing_kickReturned alg { w with clockNow := p.1 }
      s p.2 sess (h8 p (List.mem_cons_self _ _)) hs1
    obtain ⟨h', hh', ht, hcn, hs⟩ := WorldSocket.HandlePing_step alg { w with clockNow := p.1 }
      s p.2 (h8 p (List.mem_cons_self _ _))
    have hsame : h' = h := Except.ok.inj (hh'.symm.trans hh)
    subst hsame
    rw [WorldSocket.pingCadence_first _ s hl] at ht hcn hkr
    obtain ⟨sess1, hs2, hp2⟩ := hs sess hs1
    obtain ⟨rest, hr, hflags, hall⟩ := WorldSocket.pingOutcomes_fast alg w T (by omega) h32
      hcfg T ps h'.sock p.1 (by simpa using hlen) ht (by rw [hcn, hc]; omega)
      ⟨sess1, hs2, hp2.trans hp1⟩
      (fun q hq => h8 q (List.mem_cons_of_mem _ hq)) hfast
    refine ⟨(s, h') :: rest, ?_, ?_, ?_⟩
    · simp only [WorldSocket.pingOutcomes, hh, hr]
    · simp only [List.map_cons, hkr, hflags, List.replicate_succ, List.cons_append]
    · intro o ho
      rcases List.mem_cons.mp ho with ho1 | ho1
      · subst ho1
        exact WorldSocket.HandlePing_outcome alg { w with clockNow := p.1 } s p.2 sess h'
          (h8 p (List.mem_cons_self _ _)) hs1 hh
      · exact hall o ho1
  · intro t0 hl hlen hfast
    exact WorldSocket.pingOutcomes_fast alg w T (by omega) h32 hcfg T pings s t0 hlen hl
      (by rw [hc]; omega) hsess h8 hfast

/-- Witness of C12: threshold 5, seven pings one second apart on the authenticated sample
connection, which has had no ping. -/
theorem overspeed_kick_position_witness :
    ∃ outs, WorldSocket.pingOutcomes sampleCipher sampleWorld sampleAuthedSocket
        (pingsEvery 1000000000 7) = .ok outs ∧
      outs.map (fun o => WorldSocket.kickReturned o.1 o.2) =
        List.replicate (5 + 1) false ++ [true] :=
  ((overspeed_kick_position sampleCipher sampleWorld sampleAuthedSocket 5
    (pingsEvery 1000000000 7) (by decide) (by decide) rfl ⟨_, rfl, rfl⟩ rfl
    (by decide)).1 rfl rfl (by decide)).elim (fun outs h => ⟨outs, h.1, h.2.1⟩)


